import Mathlib

/-!
Verification of the date-rewriting and validation subsystem of the
time-ablation experiment harness.

The development shallowly embeds the Python modules
`experiments/time_ablation/date_utils.py`, `generate_dataset.py`,
`validate.py` and `config.py`:

* calendar arithmetic (`datetime` + `timedelta(days=n)`) is embedded as the
  proleptic-Gregorian day successor iterated over the integers;
* `datetime.strptime` / `strftime` for the `%Y-%m-%d` and
  `%Y-%m-%dT%H:%M:%S` formats are embedded as explicit character-list
  parsers and renderers (CPython's `strptime` accepts 1-2 digit month,
  day, hour, minute and second fields; rendering is zero-padded.  CPython
  delegates `%Y` to the platform strftime, which on glibc does not pad
  years below 1000; we adopt the four-digit padded form, so behaviour for
  years below 1000 — which never occur in the datasets — is a documented
  embedding choice);
* the `re.sub` scanning loops are embedded as fuel-indexed structural
  scanners that find non-overlapping matches left to right on the original
  text, exactly as `re.sub` does;
* Python exceptions that escape a function (`ValueError` from `strptime`,
  `OverflowError` from out-of-range date arithmetic, `TypeError` /
  `AttributeError` / `KeyError` from operations on unexpected JSON shapes)
  are modelled by returning `none`; a caught exception is modelled by the
  handler's value.

Python `int` division/modulus agree with Lean's `/` and `%` on `Int`
(both floor/Euclidean for positive divisors).
-/

/-! ## Characters and digits -/

/-- Character for a decimal digit value (`chr(48 + d)`). -/
def digitChar (d : Nat) : Char := Char.ofNat (48 + d)

/-- Numeric value of a digit character. -/
def digitVal (c : Char) : Nat := c.toNat - 48

theorem digitChar_toNat {d : Nat} (h : d < 10) : (digitChar d).toNat = 48 + d := by
  interval_cases d <;> decide

theorem digitVal_digitChar {d : Nat} (h : d < 10) : digitVal (digitChar d) = d := by
  interval_cases d <;> decide

theorem digitChar_isDigit {d : Nat} (h : d < 10) : (digitChar d).isDigit = true := by
  interval_cases d <;> decide

/-- Two-digit zero-padded rendering (for `%m`, `%d`, `%H`, `%M`, `%S`). -/
def pad2 (n : Nat) : List Char := [digitChar (n / 10), digitChar (n % 10)]

/-- Four-digit zero-padded rendering (for `%Y`). -/
def pad4 (n : Nat) : List Char :=
  [digitChar (n / 1000), digitChar (n / 100 % 10), digitChar (n / 10 % 10), digitChar (n % 10)]

/-- Fuel-indexed unpadded decimal rendering of a natural number. -/
def renderNatF : Nat → Nat → List Char
  | 0, _ => []
  | f + 1, n => if n < 10 then [digitChar n] else renderNatF f (n / 10) ++ [digitChar (n % 10)]

/-- Unpadded decimal rendering of a natural number, the embedding of
Python `str(n)` for the magnitudes arising here (below 10^30). -/
def renderNat (n : Nat) : List Char := renderNatF 30 n

/-! ## The proleptic Gregorian calendar

`Ymd` is a calendar date; `nextDay`/`prevDay` are the day successor and
predecessor; `shiftDays n` embeds `date + timedelta(days=n)` (CPython
raises `OverflowError` when the result leaves the supported range
`year 1 .. 9999`; callers of `shiftDays` perform that range check).
`pyOrdinal` is CPython's `datetime.toordinal`. -/

structure Ymd where
  y : Int
  m : Nat
  d : Nat
deriving DecidableEq, Repr

/-- Leap year test, as in CPython (`calendar.isleap`). -/
def isLeapYear (y : Int) : Bool := y % 4 == 0 && (y % 100 != 0 || y % 400 == 0)

/-- Number of days in a month. -/
def daysInMonth (y : Int) (m : Nat) : Nat :=
  match m with
  | 1 => 31
  | 2 => if isLeapYear y then 29 else 28
  | 3 => 31
  | 4 => 30
  | 5 => 31
  | 6 => 30
  | 7 => 31
  | 8 => 31
  | 9 => 30
  | 10 => 31
  | 11 => 30
  | 12 => 31
  | _ => 0

/-- Validity of a calendar date (month and day in range; the year is
unconstrained here, range checks are separate). -/
def validYmd (x : Ymd) : Bool :=
  decide (1 ≤ x.m) && decide (x.m ≤ 12) && decide (1 ≤ x.d) && decide (x.d ≤ daysInMonth x.y x.m)

theorem validYmd_iff {x : Ymd} :
    validYmd x = true ↔ 1 ≤ x.m ∧ x.m ≤ 12 ∧ 1 ≤ x.d ∧ x.d ≤ daysInMonth x.y x.m := by
  simp [validYmd, and_assoc]

/-- Calendar day successor. -/
def nextDay (x : Ymd) : Ymd :=
  if x.d < daysInMonth x.y x.m then ⟨x.y, x.m, x.d + 1⟩
  else if x.m < 12 then ⟨x.y, x.m + 1, 1⟩
  else ⟨x.y + 1, 1, 1⟩

/-- Calendar day predecessor. -/
def prevDay (x : Ymd) : Ymd :=
  if 1 < x.d then ⟨x.y, x.m, x.d - 1⟩
  else if 1 < x.m then ⟨x.y, x.m - 1, daysInMonth x.y (x.m - 1)⟩
  else ⟨x.y - 1, 12, 31⟩

theorem one_le_daysInMonth {y : Int} {m : Nat} (h1 : 1 ≤ m) (h2 : m ≤ 12) :
    1 ≤ daysInMonth y m := by
  interval_cases m <;> simp [daysInMonth] <;> split <;> omega

theorem validYmd_mk {y : Int} {m d : Nat} :
    validYmd ⟨y, m, d⟩ = true ↔ 1 ≤ m ∧ m ≤ 12 ∧ 1 ≤ d ∧ d ≤ daysInMonth y m :=
  validYmd_iff

theorem validYmd_nextDay {x : Ymd} (h : validYmd x = true) : validYmd (nextDay x) = true := by
  rw [validYmd_iff] at h
  obtain ⟨h1, h2, h3, h4⟩ := h
  unfold nextDay
  split
  · exact validYmd_mk.mpr ⟨h1, h2, by omega, by omega⟩
  · split
    · exact validYmd_mk.mpr ⟨by omega, by omega, le_refl _,
        one_le_daysInMonth (by omega) (by omega)⟩
    · exact validYmd_mk.mpr ⟨by omega, by omega, by omega, by simp [daysInMonth]⟩

theorem validYmd_prevDay {x : Ymd} (h : validYmd x = true) : validYmd (prevDay x) = true := by
  rw [validYmd_iff] at h
  obtain ⟨h1, h2, h3, h4⟩ := h
  unfold prevDay
  split
  · exact validYmd_mk.mpr ⟨h1, h2, by omega, by omega⟩
  · split
    · exact validYmd_mk.mpr ⟨by omega, by omega,
        one_le_daysInMonth (by omega) (by omega), le_refl _⟩
    · exact validYmd_mk.mpr ⟨by omega, by omega, by omega, by simp [daysInMonth]⟩

theorem prevDay_nextDay {x : Ymd} (h : validYmd x = true) : prevDay (nextDay x) = x := by
  obtain ⟨y, m, d⟩ := x
  rw [validYmd_mk] at h
  obtain ⟨h1, h2, h3, h4⟩ := h
  unfold nextDay
  dsimp only
  by_cases c1 : d < daysInMonth y m
  · rw [if_pos c1]
    unfold prevDay
    dsimp only
    rw [if_pos (by omega)]
    congr 1 <;> omega
  · rw [if_neg c1]
    by_cases c2 : m < 12
    · rw [if_pos c2]
      unfold prevDay
      dsimp only
      rw [if_neg (by omega), if_pos (by omega)]
      simp only [Nat.add_sub_cancel]
      congr 1 <;> omega
    · rw [if_neg c2]
      unfold prevDay
      dsimp only
      rw [if_neg (by omega), if_neg (by omega)]
      have hm : m = 12 := by omega
      have hd : d = 31 := by
        have : daysInMonth y m = 31 := by rw [hm]; rfl
        omega
      congr 1 <;> omega

theorem nextDay_prevDay {x : Ymd} (h : validYmd x = true) : nextDay (prevDay x) = x := by
  obtain ⟨y, m, d⟩ := x
  rw [validYmd_mk] at h
  obtain ⟨h1, h2, h3, h4⟩ := h
  unfold prevDay
  dsimp only
  by_cases c1 : 1 < d
  · rw [if_pos c1]
    unfold nextDay
    dsimp only
    rw [if_pos (by omega)]
    congr 1 <;> omega
  · rw [if_neg c1]
    by_cases c2 : 1 < m
    · rw [if_pos c2]
      unfold nextDay
      dsimp only
      rw [if_neg (by omega), if_pos (by omega)]
      congr 1 <;> omega
    · rw [if_neg c2]
      unfold nextDay
      dsimp only
      have hm : m = 1 := by omega
      have hd : d = 1 := by omega
      rw [if_neg (by simp [daysInMonth]), if_neg (by norm_num)]
      congr 1 <;> omega

/-- Embedding of `date + timedelta(days=n)` (without the range check). -/
def shiftDays (n : Int) (x : Ymd) : Ymd :=
  match n with
  | .ofNat k => nextDay^[k] x
  | .negSucc k => prevDay^[k + 1] x

theorem validYmd_iterate_nextDay {x : Ymd} (h : validYmd x = true) (k : Nat) :
    validYmd (nextDay^[k] x) = true := by
  induction k generalizing x with
  | zero => simpa using h
  | succ k ih =>
      rw [Function.iterate_succ_apply]
      exact ih (validYmd_nextDay h)

theorem validYmd_iterate_prevDay {x : Ymd} (h : validYmd x = true) (k : Nat) :
    validYmd (prevDay^[k] x) = true := by
  induction k generalizing x with
  | zero => simpa using h
  | succ k ih =>
      rw [Function.iterate_succ_apply]
      exact ih (validYmd_prevDay h)

theorem validYmd_shiftDays {x : Ymd} (h : validYmd x = true) (n : Int) :
    validYmd (shiftDays n x) = true := by
  cases n with
  | ofNat k => exact validYmd_iterate_nextDay h k
  | negSucc k => exact validYmd_iterate_prevDay h (k + 1)

theorem shiftDays_add_one {x : Ymd} (h : validYmd x = true) (n : Int) :
    shiftDays (n + 1) x = nextDay (shiftDays n x) := by
  cases n with
  | ofNat k =>
      show shiftDays (Int.ofNat (k + 1)) x = _
      simp [shiftDays, Function.iterate_succ_apply']
  | negSucc k =>
      cases k with
      | zero =>
          show shiftDays 0 x = nextDay (prevDay^[1] x)
          simp [shiftDays, nextDay_prevDay h]
      | succ k =>
          show shiftDays (Int.negSucc k) x = nextDay (prevDay^[k + 2] x)
          have : prevDay^[k + 2] x = prevDay (prevDay^[k + 1] x) := by
            rw [Function.iterate_succ_apply']
          rw [this, nextDay_prevDay (validYmd_iterate_prevDay h (k + 1))]
          rfl

theorem shiftDays_sub_one {x : Ymd} (h : validYmd x = true) (n : Int) :
    shiftDays (n - 1) x = prevDay (shiftDays n x) := by
  cases n with
  | ofNat k =>
      cases k with
      | zero =>
          show shiftDays (-1) x = prevDay (nextDay^[0] x)
          rfl
      | succ k =>
          have he : (Int.ofNat (k + 1) : Int) - 1 = Int.ofNat k := by
            show ((k + 1 : Nat) : Int) - 1 = ((k : Nat) : Int)
            push_cast
            ring
          rw [he]
          show shiftDays (Int.ofNat k) x = prevDay (nextDay^[k + 1] x)
          rw [Function.iterate_succ_apply', prevDay_nextDay (validYmd_iterate_nextDay h k)]
          rfl
  | negSucc k =>
      have he : (Int.negSucc k : Int) - 1 = Int.negSucc (k + 1) := by
        rw [Int.negSucc_eq, Int.negSucc_eq]; push_cast; ring
      rw [he]
      show prevDay^[k + 2] x = prevDay (prevDay^[k + 1] x)
      rw [Function.iterate_succ_apply']

theorem shiftDays_zero (x : Ymd) : shiftDays 0 x = x := rfl

theorem shiftDays_add {x : Ymd} (h : validYmd x = true) (a b : Int) :
    shiftDays a (shiftDays b x) = shiftDays (a + b) x := by
  induction a using Int.induction_on with
  | hz => simp [shiftDays_zero]
  | hp i ih =>
      rw [shiftDays_add_one (validYmd_shiftDays h b), ih]
      rw [show ((i : Int) + 1 + b) = (i + b) + 1 by ring, shiftDays_add_one h]
  | hn i ih =>
      rw [show (-(i : Int) - 1) = (-(i : Int)) - 1 by ring,
        shiftDays_sub_one (validYmd_shiftDays h b), ih]
      rw [show (-(i : Int) - 1 + b) = (-(i : Int) + b) - 1 by ring, shiftDays_sub_one h]

theorem shiftDays_cancel {x : Ymd} (h : validYmd x = true) (n : Int) :
    shiftDays (-n) (shiftDays n x) = x := by
  rw [shiftDays_add h, neg_add_cancel, shiftDays_zero]

/-! ## CPython's date ordinal -/

/-- Days in the months strictly before month `m` of year `y`. -/
def daysBeforeMonth (y : Int) : Nat → Nat
  | 0 => 0
  | 1 => 0
  | m + 2 => daysBeforeMonth y (m + 1) + daysInMonth y (m + 1)

/-- CPython's `datetime.toordinal`: day 1 is January 1 of year 1.  The
formula is extended to all integer years. -/
def pyOrdinal (x : Ymd) : Int :=
  365 * (x.y - 1) + (x.y - 1) / 4 - (x.y - 1) / 100 + (x.y - 1) / 400
    + (daysBeforeMonth x.y x.m : Int) + (x.d : Int)

theorem daysBeforeMonth_succ (y : Int) {m : Nat} (h : 1 ≤ m) :
    daysBeforeMonth y (m + 1) = daysBeforeMonth y m + daysInMonth y m := by
  match m, h with
  | k + 1, _ => rfl

theorem daysBeforeMonth_twelve (y : Int) :
    (daysBeforeMonth y 12 : Int) = if isLeapYear y then 335 else 334 := by
  simp only [daysBeforeMonth, daysInMonth]
  split <;> norm_num

theorem isLeapYear_true_iff {y : Int} :
    isLeapYear y = true ↔ y % 4 = 0 ∧ (y % 100 ≠ 0 ∨ y % 400 = 0) := by
  simp [isLeapYear]

theorem pyOrdinal_nextDay {x : Ymd} (h : validYmd x = true) :
    pyOrdinal (nextDay x) = pyOrdinal x + 1 := by
  rw [validYmd_iff] at h
  obtain ⟨h1, h2, h3, h4⟩ := h
  unfold nextDay
  split
  · simp [pyOrdinal]
    push_cast
    ring
  · split
    · unfold pyOrdinal
      simp only []
      rw [daysBeforeMonth_succ _ h1]
      have hd : x.d = daysInMonth x.y x.m := by omega
      push_cast [hd]
      ring
    · have hm : x.m = 12 := by omega
      have hd : x.d = 31 := by
        have : daysInMonth x.y x.m = 31 := by rw [hm]; rfl
        omega
      unfold pyOrdinal
      simp only [hm, hd]
      rw [daysBeforeMonth_twelve]
      show 365 * (x.y + 1 - 1) + (x.y + 1 - 1) / 4 - (x.y + 1 - 1) / 100 + (x.y + 1 - 1) / 400
          + ((daysBeforeMonth (x.y + 1) 1 : Nat) : Int) + ((1 : Nat) : Int) = _
      simp only [daysBeforeMonth]
      split <;> rename_i hsplit
      · have hp := isLeapYear_true_iff.mp hsplit
        push_cast
        omega
      · have hp : ¬(x.y % 4 = 0 ∧ (x.y % 100 ≠ 0 ∨ x.y % 400 = 0)) := by
          intro hc
          exact hsplit (isLeapYear_true_iff.mpr hc)
        push_cast
        omega

theorem pyOrdinal_prevDay {x : Ymd} (h : validYmd x = true) :
    pyOrdinal (prevDay x) = pyOrdinal x - 1 := by
  have h2 := pyOrdinal_nextDay (validYmd_prevDay h)
  rw [nextDay_prevDay h] at h2
  omega

theorem pyOrdinal_shiftDays {x : Ymd} (h : validYmd x = true) (n : Int) :
    pyOrdinal (shiftDays n x) = pyOrdinal x + n := by
  induction n using Int.induction_on with
  | hz => simp [shiftDays_zero]
  | hp i ih => rw [shiftDays_add_one h, pyOrdinal_nextDay (validYmd_shiftDays h i), ih]; ring
  | hn i ih =>
      rw [show (-(i : Int) - 1) = (-(i : Int)) - 1 by ring, shiftDays_sub_one h,
        pyOrdinal_prevDay (validYmd_shiftDays h (-(i : Int))), ih]
      ring

/-- Supported `datetime` year range (`MINYEAR = 1`, `MAXYEAR = 9999`).
CPython rejects results whose ordinal leaves `[1, ordinal(9999-12-31)]`,
which for valid dates is the same as this year-range check. -/
def yearInRange (x : Ymd) : Bool := decide (1 ≤ x.y) && decide (x.y ≤ 9999)

/-! ## strptime and strftime for the ISO formats

CPython's `_strptime` compiles `%Y` to `\d{4}`, `%m` to
`1[0-2]|0[1-9]|[1-9]`, `%d` to `3[01]|[12]\d|0[1-9]|[1-9]`, `%H` to
`2[0-3]|[0-1]\d|\d`, `%M` to `[0-5]\d|\d` and `%S` to
`6[0-1]|[0-5]\d|\d`, requires the whole string to be consumed, and then
calls the `datetime` constructor, which range-checks the fields. -/

/-- Time of day. -/
structure Tod where
  hh : Nat
  mi : Nat
  ss : Nat
deriving DecidableEq, Repr

/-- Four mandatory digits (`%Y`). -/
def parseY4 : List Char → Option (Nat × List Char)
  | a :: b :: c :: d :: rest =>
      if a.isDigit && b.isDigit && c.isDigit && d.isDigit then
        some (digitVal a * 1000 + digitVal b * 100 + digitVal c * 10 + digitVal d, rest)
      else none
  | _ => none

/-- Two-digit month alternatives `1[0-2]|0[1-9]`. -/
def parseMonth2 : List Char → Option (Nat × List Char)
  | a :: b :: rest =>
      if a = '1' && (b = '0' || b = '1' || b = '2') then some (10 + digitVal b, rest)
      else if a = '0' && b.isDigit && !(b = '0') then some (digitVal b, rest)
      else none
  | _ => none

/-- Single nonzero digit `[1-9]`. -/
def parseNum1Pos : List Char → Option (Nat × List Char)
  | a :: rest => if a.isDigit && !(a = '0') then some (digitVal a, rest) else none
  | _ => none

/-- Two-digit day alternatives `3[01]|[12]\d|0[1-9]`. -/
def parseDay2 : List Char → Option (Nat × List Char)
  | a :: b :: rest =>
      if a = '3' && (b = '0' || b = '1') then some (30 + digitVal b, rest)
      else if (a = '1' || a = '2') && b.isDigit then some (digitVal a * 10 + digitVal b, rest)
      else if a = '0' && b.isDigit && !(b = '0') then some (digitVal b, rest)
      else none
  | _ => none

/-- Two-digit hour alternatives `2[0-3]|[0-1]\d`. -/
def parseHour2 : List Char → Option (Nat × List Char)
  | a :: b :: rest =>
      if a = '2' && (b = '0' || b = '1' || b = '2' || b = '3') then some (20 + digitVal b, rest)
      else if (a = '0' || a = '1') && b.isDigit then some (digitVal a * 10 + digitVal b, rest)
      else none
  | _ => none

/-- Two-digit minute/second alternatives `[0-5]\d`. -/
def parseMinSec2 : List Char → Option (Nat × List Char)
  | a :: b :: rest =>
      if (a = '0' || a = '1' || a = '2' || a = '3' || a = '4' || a = '5') && b.isDigit then
        some (digitVal a * 10 + digitVal b, rest)
      else none
  | _ => none

/-- Leap-second alternatives `6[0-1]` of `%S`. -/
def parseSec61 : List Char → Option (Nat × List Char)
  | a :: b :: rest =>
      if a = '6' && (b = '0' || b = '1') then some (60 + digitVal b, rest)
      else none
  | _ => none

/-- Single digit `\d`. -/
def parseNum1 : List Char → Option (Nat × List Char)
  | a :: rest => if a.isDigit then some (digitVal a, rest) else none
  | _ => none

/-- Regex alternation of two numeric alternatives with continuation `k`,
backtracking into the second alternative when the first one (or its
continuation) fails, as Python `re` does. -/
def altNum (p2 p1 : List Char → Option (Nat × List Char))
    (k : Nat → List Char → Option α) (cs : List Char) : Option α :=
  (match p2 cs with
   | some (v, r) => k v r
   | none => none) <|>
  (match p1 cs with
   | some (v, r) => k v r
   | none => none)

/-- Regex alternation of three numeric alternatives. -/
def altNum3 (p3 p2 p1 : List Char → Option (Nat × List Char))
    (k : Nat → List Char → Option α) (cs : List Char) : Option α :=
  (match p3 cs with
   | some (v, r) => k v r
   | none => none) <|> altNum p2 p1 k cs

/-- Pattern match of `strptime(s, "%Y-%m-%d")` (field checks follow). -/
def strptimeYmd (cs : List Char) : Option Ymd :=
  match parseY4 cs with
  | none => none
  | some (y, r1) =>
    match r1 with
    | '-' :: r2 =>
        altNum parseMonth2 parseNum1Pos (fun m r3 =>
          match r3 with
          | '-' :: r4 =>
              altNum parseDay2 parseNum1Pos (fun d r5 =>
                if r5 = [] then some ⟨(y : Int), m, d⟩ else none) r4
          | _ => none) r2
    | _ => none

/-- Embedding of `datetime.strptime(s, "%Y-%m-%d")`: the regex match plus
the `datetime` constructor's range checks; `none` is a `ValueError`. -/
def parseIsoDate (cs : List Char) : Option Ymd :=
  match strptimeYmd cs with
  | none => none
  | some x => if validYmd x && yearInRange x then some x else none

/-- Pattern match of `strptime(s, "%Y-%m-%dT%H:%M:%S")`. -/
def strptimeYmdHms (cs : List Char) : Option (Ymd × Tod) :=
  match parseY4 cs with
  | none => none
  | some (y, r1) =>
    match r1 with
    | '-' :: r2 =>
        altNum parseMonth2 parseNum1Pos (fun m r3 =>
          match r3 with
          | '-' :: r4 =>
              altNum parseDay2 parseNum1Pos (fun d r5 =>
                match r5 with
                | 'T' :: r6 =>
                    altNum parseHour2 parseNum1 (fun hh r7 =>
                      match r7 with
                      | ':' :: r8 =>
                          altNum parseMinSec2 parseNum1 (fun mi r9 =>
                            match r9 with
                            | ':' :: r10 =>
                                altNum3 parseSec61 parseMinSec2 parseNum1 (fun ss r11 =>
                                  if r11 = [] then some (⟨(y : Int), m, d⟩, ⟨hh, mi, ss⟩)
                                  else none) r10
                            | _ => none) r8
                      | _ => none) r6
                | _ => none) r4
          | _ => none) r2
    | _ => none

/-- Time-of-day check of the `datetime` constructor (the regex guarantees
the hour and minute ranges; seconds 60 and 61 pass the regex but are
rejected by the constructor). -/
def validTod (t : Tod) : Bool :=
  decide (t.hh ≤ 23) && decide (t.mi ≤ 59) && decide (t.ss ≤ 59)

/-- Embedding of `datetime.strptime(s, "%Y-%m-%dT%H:%M:%S")`. -/
def parseIsoTimestamp (cs : List Char) : Option (Ymd × Tod) :=
  match strptimeYmdHms cs with
  | none => none
  | some (x, t) => if validYmd x && yearInRange x && validTod t then some (x, t) else none

/-- Rendering with `strftime("%Y-%m-%d")`, zero-padded. -/
def renderIsoDate (x : Ymd) : List Char :=
  pad4 x.y.toNat ++ ('-' :: (pad2 x.m ++ ('-' :: pad2 x.d)))

/-- Rendering with `strftime("%Y-%m-%dT%H:%M:%S")`, zero-padded. -/
def renderIsoTimestamp (x : Ymd) (t : Tod) : List Char :=
  pad4 x.y.toNat ++ ('-' :: (pad2 x.m ++ ('-' :: (pad2 x.d ++
    ('T' :: (pad2 t.hh ++ (':' :: (pad2 t.mi ++ (':' :: pad2 t.ss)))))))))

/-- Embedding of `offset_iso_date` (date_utils.py lines 55-76): parse,
shift by `days`, re-render.  `none` models an uncaught `ValueError` or
`OverflowError`. -/
def offsetIsoDate (dateStr : String) (days : Int) : Option String :=
  match parseIsoDate dateStr.toList with
  | none => none
  | some x =>
      let x2 := shiftDays days x
      if yearInRange x2 then some (String.mk (renderIsoDate x2)) else none

/-- Embedding of `offset_iso_timestamp` (date_utils.py lines 79-98): the
time of day is preserved unchanged, only the date part is shifted. -/
def offsetIsoTimestamp (tsStr : String) (days : Int) : Option String :=
  match parseIsoTimestamp tsStr.toList with
  | none => none
  | some (x, t) =>
      let x2 := shiftDays days x
      if yearInRange x2 then some (String.mk (renderIsoTimestamp x2 t)) else none

/-! ### Round-trip lemmas for the canonical renderings -/

theorem parseY4_pad4 {n : Nat} (h : n ≤ 9999) (rest : List Char) :
    parseY4 (pad4 n ++ rest) = some (n, rest) := by
  have h1 : n / 1000 < 10 := by omega
  have h2 : n / 100 % 10 < 10 := Nat.mod_lt _ (by norm_num)
  have h3 : n / 10 % 10 < 10 := Nat.mod_lt _ (by norm_num)
  have h4 : n % 10 < 10 := Nat.mod_lt _ (by norm_num)
  simp only [pad4, List.cons_append, List.nil_append, parseY4,
    digitChar_isDigit h1, digitChar_isDigit h2, digitChar_isDigit h3, digitChar_isDigit h4,
    digitVal_digitChar h1, digitVal_digitChar h2, digitVal_digitChar h3, digitVal_digitChar h4,
    Bool.and_self, if_true]
  refine congrArg some (Prod.ext ?_ rfl)
  show n / 1000 * 1000 + n / 100 % 10 * 100 + n / 10 % 10 * 10 + n % 10 = n
  omega

theorem parseMonth2_pad2 {m : Nat} (h1 : 1 ≤ m) (h2 : m ≤ 12) (rest : List Char) :
    parseMonth2 (pad2 m ++ rest) = some (m, rest) := by
  interval_cases m <;> rfl

theorem parseDay2_pad2 {d : Nat} (h1 : 1 ≤ d) (h2 : d ≤ 31) (rest : List Char) :
    parseDay2 (pad2 d ++ rest) = some (d, rest) := by
  interval_cases d <;> rfl

theorem parseHour2_pad2 {n : Nat} (h : n ≤ 23) (rest : List Char) :
    parseHour2 (pad2 n ++ rest) = some (n, rest) := by
  interval_cases n <;> rfl

theorem parseMinSec2_pad2 {n : Nat} (h : n ≤ 59) (rest : List Char) :
    parseMinSec2 (pad2 n ++ rest) = some (n, rest) := by
  interval_cases n <;> rfl

theorem altNum_first {α : Type} {p2 p1 : List Char → Option (Nat × List Char)}
    {k : Nat → List Char → Option α} {cs : List Char} {v : Nat} {r : List Char} {out : α}
    (hp : p2 cs = some (v, r)) (hk : k v r = some out) :
    altNum p2 p1 k cs = some out := by
  simp [altNum, hp, hk]

theorem altNum3_second {α : Type} {p3 p2 p1 : List Char → Option (Nat × List Char)}
    {k : Nat → List Char → Option α} {cs : List Char} {v : Nat} {r : List Char} {out : α}
    (h3 : p3 cs = none) (hp : p2 cs = some (v, r)) (hk : k v r = some out) :
    altNum3 p3 p2 p1 k cs = some out := by
  simp [altNum3, h3, altNum_first hp hk]

theorem parseSec61_pad2 {n : Nat} (h : n ≤ 59) (rest : List Char) :
    parseSec61 (pad2 n ++ rest) = none := by
  interval_cases n <;> rfl

theorem strptimeYmd_render {x : Ymd} (hv : validYmd x = true) (hr : yearInRange x = true) :
    strptimeYmd (renderIsoDate x) = some x := by
  rw [validYmd_iff] at hv
  obtain ⟨h1, h2, h3, h4⟩ := hv
  have hy : 1 ≤ x.y ∧ x.y ≤ 9999 := by
    simpa [yearInRange] using hr
  have hd31 : x.d ≤ 31 := by
    have : daysInMonth x.y x.m ≤ 31 := by
      rcases x with ⟨y, m, d⟩
      interval_cases m <;> simp [daysInMonth] <;> split <;> omega
    omega
  have hy9999 : x.y.toNat ≤ 9999 := by omega
  unfold strptimeYmd renderIsoDate
  rw [parseY4_pad4 hy9999]
  refine altNum_first (parseMonth2_pad2 h1 h2 _) ?_
  refine altNum_first (parseDay2_pad2 h3 hd31 _) ?_
  show some (⟨(x.y.toNat : Int), x.m, x.d⟩ : Ymd) = some x
  refine congrArg some ?_
  have hcast : (x.y.toNat : Int) = x.y := Int.toNat_of_nonneg (by omega)
  rw [hcast]

theorem parseIsoDate_render {x : Ymd} (hv : validYmd x = true) (hr : yearInRange x = true) :
    parseIsoDate (renderIsoDate x) = some x := by
  unfold parseIsoDate
  rw [strptimeYmd_render hv hr]
  show (if (validYmd x && yearInRange x) = true then some x else none) = some x
  rw [hv, hr]
  rfl

theorem strptimeYmdHms_render {x : Ymd} {t : Tod} (hv : validYmd x = true)
    (hr : yearInRange x = true) (ht : validTod t = true) :
    strptimeYmdHms (renderIsoTimestamp x t) = some (x, t) := by
  rw [validYmd_iff] at hv
  obtain ⟨h1, h2, h3, h4⟩ := hv
  have hy : 1 ≤ x.y ∧ x.y ≤ 9999 := by
    simpa [yearInRange] using hr
  have ht2 : t.hh ≤ 23 ∧ t.mi ≤ 59 ∧ t.ss ≤ 59 := by
    simpa [validTod, and_assoc] using ht
  have hd31 : x.d ≤ 31 := by
    have : daysInMonth x.y x.m ≤ 31 := by
      rcases x with ⟨y, m, d⟩
      interval_cases m <;> simp [daysInMonth] <;> split <;> omega
    omega
  have hy9999 : x.y.toNat ≤ 9999 := by omega
  unfold strptimeYmdHms renderIsoTimestamp
  rw [parseY4_pad4 hy9999]
  refine altNum_first (parseMonth2_pad2 h1 h2 _) ?_
  refine altNum_first (parseDay2_pad2 h3 hd31 _) ?_
  refine altNum_first (parseHour2_pad2 ht2.1 _) ?_
  refine altNum_first (parseMinSec2_pad2 ht2.2.1 _) ?_
  refine altNum3_second (parseSec61_pad2 ht2.2.2 _) (parseMinSec2_pad2 ht2.2.2 _) ?_
  show some ((⟨(x.y.toNat : Int), x.m, x.d⟩ : Ymd), (⟨t.hh, t.mi, t.ss⟩ : Tod)) = some (x, t)
  have hcast : (x.y.toNat : Int) = x.y := Int.toNat_of_nonneg (by omega)
  rw [hcast]

theorem parseIsoTimestamp_render {x : Ymd} {t : Tod} (hv : validYmd x = true)
    (hr : yearInRange x = true) (ht : validTod t = true) :
    parseIsoTimestamp (renderIsoTimestamp x t) = some (x, t) := by
  unfold parseIsoTimestamp
  rw [strptimeYmdHms_render hv hr ht]
  show (if (validYmd x && yearInRange x && validTod t) = true then some (x, t) else none)
      = some (x, t)
  rw [hv, hr, ht]
  rfl

theorem parseIsoDate_sound {cs : List Char} {x : Ymd} (h : parseIsoDate cs = some x) :
    validYmd x = true ∧ yearInRange x = true := by
  unfold parseIsoDate at h
  rcases hs : strptimeYmd cs with _ | x2 <;> rw [hs] at h
  · exact absurd h (by simp)
  · replace h : (if (validYmd x2 && yearInRange x2) = true then some x2 else none) = some x := h
    by_cases hc : (validYmd x2 && yearInRange x2) = true
    · rw [if_pos hc] at h
      obtain rfl : x2 = x := by simpa using h
      simpa [Bool.and_eq_true] using hc
    · rw [if_neg hc] at h
      exact absurd h (by simp)

theorem parseIsoTimestamp_sound {cs : List Char} {x : Ymd} {t : Tod}
    (h : parseIsoTimestamp cs = some (x, t)) :
    validYmd x = true ∧ yearInRange x = true ∧ validTod t = true := by
  unfold parseIsoTimestamp at h
  rcases hs : strptimeYmdHms cs with _ | ⟨x2, t2⟩ <;> rw [hs] at h
  · exact absurd h (by simp)
  · replace h : (if (validYmd x2 && yearInRange x2 && validTod t2) = true then some (x2, t2)
        else none) = some (x, t) := h
    by_cases hc : (validYmd x2 && yearInRange x2 && validTod t2) = true
    · rw [if_pos hc] at h
      obtain ⟨rfl, rfl⟩ : x2 = x ∧ t2 = t := by simpa [Prod.ext_iff] using h
      simpa [Bool.and_eq_true, and_assoc] using hc
    · rw [if_neg hc] at h
      exact absurd h (by simp)

/-! ### Success characterisation, composition and cancellation -/

theorem toList_mk (cs : List Char) : (String.mk cs).toList = cs := rfl

theorem offsetIsoDate_of_parse {s : String} {x : Ymd} {n : Int}
    (hp : parseIsoDate s.toList = some x) (hr : yearInRange (shiftDays n x) = true) :
    offsetIsoDate s n = some (String.mk (renderIsoDate (shiftDays n x))) := by
  unfold offsetIsoDate
  rw [hp]
  simp only [hr, if_true]

theorem offsetIsoDate_some {s t : String} {n : Int} (h : offsetIsoDate s n = some t) :
    ∃ x, parseIsoDate s.toList = some x ∧ yearInRange (shiftDays n x) = true ∧
      t = String.mk (renderIsoDate (shiftDays n x)) := by
  unfold offsetIsoDate at h
  rcases hp : parseIsoDate s.toList with _ | x <;> rw [hp] at h
  · exact absurd h (by simp)
  · replace h : (if yearInRange (shiftDays n x) = true
        then some (String.mk (renderIsoDate (shiftDays n x))) else none) = some t := h
    refine ⟨x, rfl, ?_⟩
    by_cases hr : yearInRange (shiftDays n x) = true
    · rw [if_pos hr] at h
      exact ⟨hr, by simpa using h.symm⟩
    · rw [if_neg hr] at h
      exact absurd h (by simp)

theorem offsetIsoTimestamp_of_parse {s : String} {x : Ymd} {t : Tod} {n : Int}
    (hp : parseIsoTimestamp s.toList = some (x, t))
    (hr : yearInRange (shiftDays n x) = true) :
    offsetIsoTimestamp s n = some (String.mk (renderIsoTimestamp (shiftDays n x) t)) := by
  unfold offsetIsoTimestamp
  rw [hp]
  simp only [hr, if_true]

theorem offsetIsoTimestamp_some {s u : String} {n : Int} (h : offsetIsoTimestamp s n = some u) :
    ∃ x t, parseIsoTimestamp s.toList = some (x, t) ∧ yearInRange (shiftDays n x) = true ∧
      u = String.mk (renderIsoTimestamp (shiftDays n x) t) := by
  unfold offsetIsoTimestamp at h
  rcases hp : parseIsoTimestamp s.toList with _ | ⟨x, t⟩ <;> rw [hp] at h
  · exact absurd h (by simp)
  · replace h : (if yearInRange (shiftDays n x) = true
        then some (String.mk (renderIsoTimestamp (shiftDays n x) t)) else none) = some u := h
    refine ⟨x, t, rfl, ?_⟩
    by_cases hr : yearInRange (shiftDays n x) = true
    · rw [if_pos hr] at h
      exact ⟨hr, by simpa using h.symm⟩
    · rw [if_neg hr] at h
      exact absurd h (by simp)

theorem offsetIsoDate_comp {s t u : String} {a b : Int}
    (h1 : offsetIsoDate s a = some t) (h2 : offsetIsoDate t b = some u) :
    offsetIsoDate s (a + b) = some u := by
  obtain ⟨x, hp, hr1, rfl⟩ := offsetIsoDate_some h1
  obtain ⟨hv, _⟩ := parseIsoDate_sound hp
  obtain ⟨x2, hp2, hr2, rfl⟩ := offsetIsoDate_some h2
  rw [toList_mk, parseIsoDate_render (validYmd_shiftDays hv a) hr1] at hp2
  obtain rfl : shiftDays a x = x2 := by simpa using hp2
  rw [shiftDays_add hv] at hr2 ⊢
  rw [show b + a = a + b by ring] at hr2 ⊢
  exact offsetIsoDate_of_parse hp hr2

theorem offsetIsoTimestamp_comp {s t u : String} {a b : Int}
    (h1 : offsetIsoTimestamp s a = some t) (h2 : offsetIsoTimestamp t b = some u) :
    offsetIsoTimestamp s (a + b) = some u := by
  obtain ⟨x, tod, hp, hr1, rfl⟩ := offsetIsoTimestamp_some h1
  obtain ⟨hv, _, htod⟩ := parseIsoTimestamp_sound hp
  obtain ⟨x2, tod2, hp2, hr2, rfl⟩ := offsetIsoTimestamp_some h2
  rw [toList_mk, parseIsoTimestamp_render (validYmd_shiftDays hv a) hr1 htod] at hp2
  obtain ⟨rfl, rfl⟩ : shiftDays a x = x2 ∧ tod = tod2 := by simpa [Prod.ext_iff] using hp2
  rw [shiftDays_add hv] at hr2 ⊢
  rw [show b + a = a + b by ring] at hr2 ⊢
  exact offsetIsoTimestamp_of_parse hp hr2

theorem offsetIsoDate_cancel {x : Ymd} {t : String} {n : Int}
    (hv : validYmd x = true) (hr : yearInRange x = true)
    (h : offsetIsoDate (String.mk (renderIsoDate x)) n = some t) :
    offsetIsoDate t (-n) = some (String.mk (renderIsoDate x)) := by
  obtain ⟨x0, hp, hr1, rfl⟩ := offsetIsoDate_some h
  rw [toList_mk, parseIsoDate_render hv hr] at hp
  obtain rfl : x = x0 := by simpa using hp
  have hp2 : parseIsoDate (String.mk (renderIsoDate (shiftDays n x))).toList
      = some (shiftDays n x) := by
    rw [toList_mk]
    exact parseIsoDate_render (validYmd_shiftDays hv n) hr1
  have := @offsetIsoDate_of_parse (String.mk (renderIsoDate (shiftDays n x))) (shiftDays n x)
    (-n) hp2 (by rw [shiftDays_cancel hv]; exact hr)
  rw [shiftDays_cancel hv] at this
  exact this

/-! ## Regular-expression scanners over free text

Python's `re` on `str` uses Unicode-aware `\w`, `\s` and `\b`.  The
embedding below is exact for ASCII text; the scanner theorems therefore
carry ASCII hypotheses on the surrounding free text. -/

/-- Word character (`\w`), ASCII fragment. -/
def isWordChar (c : Char) : Bool := c.isAlpha || c.isDigit || c = '_'

/-- Whitespace character (`\s`), ASCII fragment. -/
def isSpaceChar (c : Char) : Bool :=
  c = ' ' || c = '\t' || c = '\n' || c = '\r' || c = '\x0b' || c = '\x0c'

/-- Word boundary before a word character, given the preceding character
(`none` at the start of the text). -/
def boundaryBefore (prev : Option Char) : Bool :=
  match prev with
  | none => true
  | some c => !isWordChar c

/-- Word boundary after a word character, given the remaining text. -/
def endBoundary (rest : List Char) : Bool :=
  match rest with
  | [] => true
  | c :: _ => !isWordChar c

/-- Attempted match of `\b(\d{4}-\d{2}-\d{2})T(\d{2}:\d{2}:\d{2})\b` at the
current position (the literal and the remaining text on success). -/
def tsTryMatch (prev : Option Char) : List Char → Option (List Char × List Char)
  | y1 :: y2 :: y3 :: y4 :: a1 :: m1 :: m2 :: a2 :: d1 :: d2 :: t ::
      h1 :: h2 :: b1 :: i1 :: i2 :: b2 :: s1 :: s2 :: rest =>
      if boundaryBefore prev && y1.isDigit && y2.isDigit && y3.isDigit && y4.isDigit &&
          a1 = '-' && m1.isDigit && m2.isDigit && a2 = '-' && d1.isDigit && d2.isDigit &&
          t = 'T' && h1.isDigit && h2.isDigit && b1 = ':' && i1.isDigit && i2.isDigit &&
          b2 = ':' && s1.isDigit && s2.isDigit && endBoundary rest then
        some ([y1, y2, y3, y4, a1, m1, m2, a2, d1, d2, t, h1, h2, b1, i1, i2, b2, s1, s2], rest)
      else none
  | _ => none

/-- Attempted match of `\b(\d{4}-\d{2}-\d{2})\b` at the current position. -/
def dateTryMatch (prev : Option Char) : List Char → Option (List Char × List Char)
  | y1 :: y2 :: y3 :: y4 :: a1 :: m1 :: m2 :: a2 :: d1 :: d2 :: rest =>
      if boundaryBefore prev && y1.isDigit && y2.isDigit && y3.isDigit && y4.isDigit &&
          a1 = '-' && m1.isDigit && m2.isDigit && a2 = '-' && d1.isDigit && d2.isDigit &&
          endBoundary rest then
        some ([y1, y2, y3, y4, a1, m1, m2, a2, d1, d2], rest)
      else none
  | _ => none

/-- Fuel-indexed `re.sub` pass for the ISO-timestamp pattern: matches are
non-overlapping and found left to right on the original text; `prev` is
the original character before the current position.  `none` models an
exception escaping from the replacement function. -/
def subTsF (days : Int) : Nat → Option Char → List Char → Option (List Char)
  | 0, _, _ => none
  | _ + 1, _, [] => some []
  | fuel + 1, prev, c :: cs =>
      match tsTryMatch prev (c :: cs) with
      | some (lit, rest) =>
          match offsetIsoTimestamp (String.mk lit) days with
          | none => none
          | some r => (subTsF days fuel lit.getLast? rest).map (r.toList ++ ·)
      | none => (subTsF days fuel (some c) cs).map (c :: ·)

/-- Fuel-indexed `re.sub` pass for the bare ISO-date pattern. -/
def subDateF (days : Int) : Nat → Option Char → List Char → Option (List Char)
  | 0, _, _ => none
  | _ + 1, _, [] => some []
  | fuel + 1, prev, c :: cs =>
      match dateTryMatch prev (c :: cs) with
      | some (lit, rest) =>
          match offsetIsoDate (String.mk lit) days with
          | none => none
          | some r => (subDateF days fuel lit.getLast? rest).map (r.toList ++ ·)
      | none => (subDateF days fuel (some c) cs).map (c :: ·)

/-- Fuel-indexed `re.finditer` scan for the bare ISO-date pattern
(used by the Validator's referential-integrity check). -/
def collectDatesF : Nat → Option Char → List Char → List (List Char)
  | 0, _, _ => []
  | _ + 1, _, [] => []
  | fuel + 1, prev, c :: cs =>
      match dateTryMatch prev (c :: cs) with
      | some (lit, rest) => lit :: collectDatesF fuel lit.getLast? rest
      | none => collectDatesF fuel (some c) cs

/-- All non-overlapping ISO-date matches in a string, left to right. -/
def isoDateMatches (s : String) : List String :=
  (collectDatesF (s.toList.length + 1) none s.toList).map String.mk

/-! ### The text-date pattern

`offset_text_dates` builds the pattern
`\b(January|...|December|Jan|...|Dec)\s+(\d{1,2})(?:\s+(\d{4}))?\b`
and substitutes `_offset_text_date_match` over it. -/

/-- MONTH_NAMES. -/
def monthNamesFull : List String :=
  ["January", "February", "March", "April", "May", "June", "July", "August",
   "September", "October", "November", "December"]

/-- MONTH_NAMES_SHORT. -/
def monthNamesShort : List String :=
  ["Jan", "Feb", "Mar", "Apr", "May", "Jun", "Jul", "Aug", "Sep", "Oct", "Nov", "Dec"]

/-- Alternation order of the regex: full names then short names. -/
def allMonthNames : List String := monthNamesFull ++ monthNamesShort

/-- MONTH_TO_NUM lookup. -/
def monthToNum (name : String) : Option Nat :=
  ((monthNamesFull.enum.map (fun (p : Nat × String) => (p.2, p.1 + 1))
      ++ monthNamesShort.enum.map (fun (p : Nat × String) => (p.2, p.1 + 1))).find?
    (fun (p : String × Nat) => p.1 = name)).map (fun (p : String × Nat) => p.2)

/-- NUM_TO_MONTH lookup (always called with a month in 1..12). -/
def monthFullName (m : Nat) : String :=
  match m with
  | 1 => "January"
  | 2 => "February"
  | 3 => "March"
  | 4 => "April"
  | 5 => "May"
  | 6 => "June"
  | 7 => "July"
  | 8 => "August"
  | 9 => "September"
  | 10 => "October"
  | 11 => "November"
  | 12 => "December"
  | _ => ""

/-- One match of the text-date pattern: the month-name group, the matched
whitespace, the day group, and optionally the whitespace and year group. -/
structure TextMatch where
  monthName : String
  sp1 : List Char
  dayLit : List Char
  dayVal : Nat
  yearPart : Option (List Char × List Char × Nat)
deriving Repr

/-- Group 0: the full matched literal. -/
def textMatchGroup0 (tm : TextMatch) : List Char :=
  tm.monthName.toList ++ tm.sp1 ++ tm.dayLit ++
    (match tm.yearPart with
     | some (sp2, yl, _) => sp2 ++ yl
     | none => [])

/-- Attempted continuation `(?:\s+(\d{4}))?` taken, ending with `\b`. -/
def yearCont (r2 : List Char) : Option ((List Char × List Char × Nat) × List Char) :=
  let sp2 := r2.takeWhile isSpaceChar
  if sp2.isEmpty then none
  else
    match r2.drop sp2.length with
    | a :: b :: c :: d :: r3 =>
        if a.isDigit && b.isDigit && c.isDigit && d.isDigit && endBoundary r3 then
          some ((sp2, [a, b, c, d],
            digitVal a * 1000 + digitVal b * 100 + digitVal c * 10 + digitVal d), r3)
        else none
    | _ => none

/-- Continuation after the day group: the greedy optional year group is
tried first, then the match is closed with `\b` directly after the day. -/
def dayCont (name : String) (sp1 : List Char) (dayLit : List Char) (dayVal : Nat)
    (r2 : List Char) : Option (TextMatch × List Char) :=
  match yearCont r2 with
  | some (yp, r3) => some (⟨name, sp1, dayLit, dayVal, some yp⟩, r3)
  | none => if endBoundary r2 then some (⟨name, sp1, dayLit, dayVal, none⟩, r2) else none

/-- Continuation after a month name: `\s+(\d{1,2})`, the greedy two-digit
day tried before the one-digit day. -/
def monthCont (name : String) (rest : List Char) : Option (TextMatch × List Char) :=
  let sp1 := rest.takeWhile isSpaceChar
  if sp1.isEmpty then none
  else
    match rest.drop sp1.length with
    | a :: b :: r2 =>
        if a.isDigit then
          if b.isDigit then
            dayCont name sp1 [a, b] (10 * digitVal a + digitVal b) r2 <|>
              dayCont name sp1 [a] (digitVal a) (b :: r2)
          else dayCont name sp1 [a] (digitVal a) (b :: r2)
        else none
    | [a] => if a.isDigit then dayCont name sp1 [a] (digitVal a) [] else none
    | [] => none

/-- Alternation over the month names, in order, with backtracking into the
later alternatives when a name or its continuation fails. -/
def tryMonths : List String → List Char → Option (TextMatch × List Char)
  | [], _ => none
  | name :: names, cs =>
      if name.toList.isPrefixOf cs then
        match monthCont name (cs.drop name.toList.length) with
        | some out => some out
        | none => tryMonths names cs
      else tryMonths names cs

/-- Attempted match of the text-date pattern at the current position. -/
def textTryMatch (prev : Option Char) (cs : List Char) : Option (TextMatch × List Char) :=
  if boundaryBefore prev then tryMonths allMonthNames cs else none

/-- Embedding of `_offset_text_date_match` (date_utils.py lines 101-140):
an unrecognised month name or a `ValueError` from the `datetime`
constructor returns the original substring; an out-of-range shift is an
uncaught `OverflowError` (`none`). -/
def offsetTextDateMatch (tm : TextMatch) (days : Int) (baseYear : Int) : Option (List Char) :=
  match monthToNum tm.monthName with
  | none => some (textMatchGroup0 tm)
  | some m =>
      let year : Int :=
        match tm.yearPart with
        | some (_, _, yv) => (yv : Int)
        | none => baseYear
      if validYmd ⟨year, m, tm.dayVal⟩ && yearInRange ⟨year, m, tm.dayVal⟩ then
        let x2 := shiftDays days ⟨year, m, tm.dayVal⟩
        if yearInRange x2 then
          match tm.yearPart with
          | some _ => some ((monthFullName x2.m).toList ++
              ' ' :: (renderNat x2.d ++ ' ' :: renderNat x2.y.toNat))
          | none => some ((monthFullName x2.m).toList ++ ' ' :: renderNat x2.d)
        else none
      else some (textMatchGroup0 tm)

/-- Fuel-indexed `re.sub` pass for the text-date pattern. -/
def subTextF (days baseYear : Int) : Nat → Option Char → List Char → Option (List Char)
  | 0, _, _ => none
  | _ + 1, _, [] => some []
  | fuel + 1, prev, c :: cs =>
      match textTryMatch prev (c :: cs) with
      | some (tm, rest) =>
          match offsetTextDateMatch tm days baseYear with
          | none => none
          | some r => (subTextF days baseYear fuel (textMatchGroup0 tm).getLast? rest).map (r ++ ·)
      | none => (subTextF days baseYear fuel (some c) cs).map (c :: ·)

/-- One whole pass of the text-date substitution, with adequate fuel. -/
def runSubText (days baseYear : Int) (prev : Option Char) (cs : List Char) : Option (List Char) :=
  subTextF days baseYear (cs.length + 1) prev cs

/-- One whole pass of the ISO-timestamp substitution, with adequate fuel. -/
def runSubTs (days : Int) (prev : Option Char) (cs : List Char) : Option (List Char) :=
  subTsF days (cs.length + 1) prev cs

/-- One whole pass of the bare ISO-date substitution, with adequate fuel. -/
def runSubDate (days : Int) (prev : Option Char) (cs : List Char) : Option (List Char) :=
  subDateF days (cs.length + 1) prev cs

/-- Embedding of `offset_text_dates` (date_utils.py lines 143-171). -/
def offsetTextDates (text : String) (days : Int) (baseYear : Int) : Option String :=
  (runSubText days baseYear none text.toList).map String.mk

/-- Embedding of `offset_all_dates_in_text` (date_utils.py lines 174-210):
ISO timestamps are substituted first, then bare ISO dates, then text
dates. -/
def offsetAllDatesInText (text : String) (days : Int) (baseYear : Int) : Option String :=
  match runSubTs days none text.toList with
  | none => none
  | some t1 =>
      match runSubDate days none t1 with
      | none => none
      | some t2 => (runSubText days baseYear none t2).map String.mk

/-! ### Scanner lemma kit: step equations with canonical fuel -/

theorem tsTryMatch_some {prev : Option Char} {cs lit rest : List Char}
    (h : tsTryMatch prev cs = some (lit, rest)) :
    boundaryBefore prev = true ∧ lit.length = 19 ∧ cs = lit ++ rest ∧
      (lit.headD ' ').isDigit = true := by
  rcases cs with _ | ⟨y1, _ | ⟨y2, _ | ⟨y3, _ | ⟨y4, _ | ⟨a1, _ | ⟨m1, _ | ⟨m2, _ | ⟨a2,
    _ | ⟨d1, _ | ⟨d2, _ | ⟨t, _ | ⟨h1, _ | ⟨h2, _ | ⟨b1, _ | ⟨i1, _ | ⟨i2, _ | ⟨b2,
    _ | ⟨s1, _ | ⟨s2, rest2⟩⟩⟩⟩⟩⟩⟩⟩⟩⟩⟩⟩⟩⟩⟩⟩⟩⟩⟩ <;>
    simp only [tsTryMatch] at h <;> try exact Option.noConfusion h
  split at h
  · rename_i hc
    simp only [Option.some.injEq, Prod.mk.injEq] at h
    obtain ⟨rfl, rfl⟩ := h
    simp only [Bool.and_eq_true, decide_eq_true_eq] at hc
    obtain ⟨⟨⟨⟨⟨⟨⟨⟨⟨⟨⟨⟨⟨⟨⟨⟨⟨⟨⟨⟨hb, hy1⟩, hy2⟩, hy3⟩, hy4⟩, ha1⟩, hm1⟩, hm2⟩, ha2⟩, hd1⟩,
      hd2⟩, ht⟩, hh1⟩, hh2⟩, hb1⟩, hi1⟩, hi2⟩, hb2⟩, hs1⟩, hs2⟩, hend⟩ := hc
    exact ⟨hb, rfl, rfl, by simpa using hy1⟩
  · exact absurd h (by simp)

theorem dateTryMatch_some {prev : Option Char} {cs lit rest : List Char}
    (h : dateTryMatch prev cs = some (lit, rest)) :
    boundaryBefore prev = true ∧ lit.length = 10 ∧ cs = lit ++ rest ∧
      (lit.headD ' ').isDigit = true := by
  rcases cs with _ | ⟨y1, _ | ⟨y2, _ | ⟨y3, _ | ⟨y4, _ | ⟨a1, _ | ⟨m1, _ | ⟨m2, _ | ⟨a2,
    _ | ⟨d1, _ | ⟨d2, rest2⟩⟩⟩⟩⟩⟩⟩⟩⟩⟩ <;>
    simp only [dateTryMatch] at h <;> try exact Option.noConfusion h
  split at h
  · rename_i hc
    simp only [Option.some.injEq, Prod.mk.injEq] at h
    obtain ⟨rfl, rfl⟩ := h
    simp only [Bool.and_eq_true, decide_eq_true_eq] at hc
    obtain ⟨⟨⟨⟨⟨⟨⟨⟨⟨⟨⟨hb, hy1⟩, hy2⟩, hy3⟩, hy4⟩, ha1⟩, hm1⟩, hm2⟩, ha2⟩, hd1⟩, hd2⟩, hend⟩ := hc
    exact ⟨hb, rfl, rfl, by simpa using hy1⟩
  · exact absurd h (by simp)

theorem subTsF_congr (days : Int) : ∀ f g : Nat, ∀ prev : Option Char, ∀ cs : List Char,
    cs.length < f → cs.length < g → subTsF days f prev cs = subTsF days g prev cs := by
  intro f
  induction f with
  | zero => intro g prev cs h _; omega
  | succ f ih =>
      intro g prev cs hf hg
      cases g with
      | zero => omega
      | succ g =>
          cases cs with
          | nil => rfl
          | cons c cs2 =>
              simp only [List.length_cons] at hf hg
              simp only [subTsF]
              rcases hm : tsTryMatch prev (c :: cs2) with _ | ⟨lit, rest⟩
              · simp only [hm]
                rw [ih g (some c) cs2 (by omega) (by omega)]
              · obtain ⟨_, hl, hcs, _⟩ := tsTryMatch_some hm
                have h19 : rest.length + 19 = cs2.length + 1 := by
                  have hlen := congrArg List.length hcs
                  simp only [List.length_cons, List.length_append, hl] at hlen
                  omega
                simp only [hm]
                rcases offsetIsoTimestamp (String.mk lit) days with _ | r
                · rfl
                · rw [ih g lit.getLast? rest (by omega) (by omega)]

theorem subDateF_congr (days : Int) : ∀ f g : Nat, ∀ prev : Option Char, ∀ cs : List Char,
    cs.length < f → cs.length < g → subDateF days f prev cs = subDateF days g prev cs := by
  intro f
  induction f with
  | zero => intro g prev cs h _; omega
  | succ f ih =>
      intro g prev cs hf hg
      cases g with
      | zero => omega
      | succ g =>
          cases cs with
          | nil => rfl
          | cons c cs2 =>
              simp only [List.length_cons] at hf hg
              simp only [subDateF]
              rcases hm : dateTryMatch prev (c :: cs2) with _ | ⟨lit, rest⟩
              · simp only [hm]
                rw [ih g (some c) cs2 (by omega) (by omega)]
              · obtain ⟨_, hl, hcs, _⟩ := dateTryMatch_some hm
                have h10 : rest.length + 10 = cs2.length + 1 := by
                  have hlen := congrArg List.length hcs
                  simp only [List.length_cons, List.length_append, hl] at hlen
                  omega
                simp only [hm]
                rcases offsetIsoDate (String.mk lit) days with _ | r
                · rfl
                · rw [ih g lit.getLast? rest (by omega) (by omega)]

theorem runSubTs_nil {days : Int} {prev : Option Char} : runSubTs days prev [] = some [] := rfl

theorem runSubDate_nil {days : Int} {prev : Option Char} : runSubDate days prev [] = some [] := rfl

theorem runSubTs_cons_nomatch {days : Int} {prev : Option Char} {c : Char} {cs : List Char}
    (h : tsTryMatch prev (c :: cs) = none) :
    runSubTs days prev (c :: cs) = (runSubTs days (some c) cs).map (c :: ·) := by
  unfold runSubTs
  show subTsF days (cs.length + 1 + 1) prev (c :: cs) = _
  simp only [subTsF, h]

theorem runSubDate_cons_nomatch {days : Int} {prev : Option Char} {c : Char} {cs : List Char}
    (h : dateTryMatch prev (c :: cs) = none) :
    runSubDate days prev (c :: cs) = (runSubDate days (some c) cs).map (c :: ·) := by
  unfold runSubDate
  show subDateF days (cs.length + 1 + 1) prev (c :: cs) = _
  simp only [subDateF, h]

theorem runSubTs_cons_match {days : Int} {prev : Option Char} {c : Char}
    {cs lit rest : List Char} {r : String}
    (hm : tsTryMatch prev (c :: cs) = some (lit, rest))
    (hr : offsetIsoTimestamp (String.mk lit) days = some r) :
    runSubTs days prev (c :: cs) = (runSubTs days lit.getLast? rest).map (r.toList ++ ·) := by
  obtain ⟨_, hl, hcs, _⟩ := tsTryMatch_some hm
  have h19 : rest.length + 19 = cs.length + 1 := by
    have hlen := congrArg List.length hcs
    simp only [List.length_cons, List.length_append, hl] at hlen
    omega
  unfold runSubTs
  show subTsF days (cs.length + 1 + 1) prev (c :: cs) = _
  simp only [subTsF, hm, hr]
  rw [subTsF_congr days (cs.length + 1) (rest.length + 1) lit.getLast? rest (by omega) (by omega)]

theorem runSubTs_cons_match_fail {days : Int} {prev : Option Char} {c : Char}
    {cs lit rest : List Char}
    (hm : tsTryMatch prev (c :: cs) = some (lit, rest))
    (hr : offsetIsoTimestamp (String.mk lit) days = none) :
    runSubTs days prev (c :: cs) = none := by
  unfold runSubTs
  show subTsF days (cs.length + 1 + 1) prev (c :: cs) = _
  simp only [subTsF, hm, hr]

theorem runSubDate_cons_match {days : Int} {prev : Option Char} {c : Char}
    {cs lit rest : List Char} {r : String}
    (hm : dateTryMatch prev (c :: cs) = some (lit, rest))
    (hr : offsetIsoDate (String.mk lit) days = some r) :
    runSubDate days prev (c :: cs) = (runSubDate days lit.getLast? rest).map (r.toList ++ ·) := by
  obtain ⟨_, hl, hcs, _⟩ := dateTryMatch_some hm
  have h10 : rest.length + 10 = cs.length + 1 := by
    have hlen := congrArg List.length hcs
    simp only [List.length_cons, List.length_append, hl] at hlen
    omega
  unfold runSubDate
  show subDateF days (cs.length + 1 + 1) prev (c :: cs) = _
  simp only [subDateF, hm, hr]
  rw [subDateF_congr days (cs.length + 1) (rest.length + 1) lit.getLast? rest (by omega) (by omega)]

theorem runSubDate_cons_match_fail {days : Int} {prev : Option Char} {c : Char}
    {cs lit rest : List Char}
    (hm : dateTryMatch prev (c :: cs) = some (lit, rest))
    (hr : offsetIsoDate (String.mk lit) days = none) :
    runSubDate days prev (c :: cs) = none := by
  unfold runSubDate
  show subDateF days (cs.length + 1 + 1) prev (c :: cs) = _
  simp only [subDateF, hm, hr]

/-! ### Shape of successful matches, and positional no-match lemmas -/

theorem tsTryMatch_shape {prev : Option Char} {cs lit rest : List Char}
    (h : tsTryMatch prev cs = some (lit, rest)) :
    ∃ g1 g2 g3 g4 gm1 gm2 gd1 gd2 gh1 gh2 gi1 gi2 gs1 gs2 : Char,
      cs = g1 :: g2 :: g3 :: g4 :: '-' :: gm1 :: gm2 :: '-' :: gd1 :: gd2 :: 'T' ::
        gh1 :: gh2 :: ':' :: gi1 :: gi2 :: ':' :: gs1 :: gs2 :: rest ∧
      g1.isDigit = true ∧ g2.isDigit = true ∧ g3.isDigit = true ∧ g4.isDigit = true ∧
      gm1.isDigit = true ∧ gm2.isDigit = true ∧ gd1.isDigit = true ∧ gd2.isDigit = true ∧
      gh1.isDigit = true ∧ gh2.isDigit = true ∧ gi1.isDigit = true ∧ gi2.isDigit = true ∧
      gs1.isDigit = true ∧ gs2.isDigit = true ∧
      boundaryBefore prev = true ∧ endBoundary rest = true ∧
      lit = [g1, g2, g3, g4, '-', gm1, gm2, '-', gd1, gd2, 'T',
        gh1, gh2, ':', gi1, gi2, ':', gs1, gs2] := by
  rcases cs with _ | ⟨y1, _ | ⟨y2, _ | ⟨y3, _ | ⟨y4, _ | ⟨a1, _ | ⟨m1, _ | ⟨m2, _ | ⟨a2,
    _ | ⟨d1, _ | ⟨d2, _ | ⟨t, _ | ⟨h1, _ | ⟨h2, _ | ⟨b1, _ | ⟨i1, _ | ⟨i2, _ | ⟨b2,
    _ | ⟨s1, _ | ⟨s2, rest2⟩⟩⟩⟩⟩⟩⟩⟩⟩⟩⟩⟩⟩⟩⟩⟩⟩⟩⟩ <;>
    simp only [tsTryMatch] at h <;> try exact Option.noConfusion h
  split at h
  · rename_i hc
    simp only [Option.some.injEq, Prod.mk.injEq] at h
    obtain ⟨rfl, rfl⟩ := h
    simp only [Bool.and_eq_true, decide_eq_true_eq] at hc
    obtain ⟨⟨⟨⟨⟨⟨⟨⟨⟨⟨⟨⟨⟨⟨⟨⟨⟨⟨⟨⟨hb, hy1⟩, hy2⟩, hy3⟩, hy4⟩, ha1⟩, hm1⟩, hm2⟩, ha2⟩, hd1⟩,
      hd2⟩, ht⟩, hh1⟩, hh2⟩, hb1⟩, hi1⟩, hi2⟩, hb2⟩, hs1⟩, hs2⟩, hend⟩ := hc
    subst ha1 ha2 ht hb1 hb2
    exact ⟨y1, y2, y3, y4, m1, m2, d1, d2, h1, h2, i1, i2, s1, s2, rfl, hy1, hy2, hy3, hy4,
      hm1, hm2, hd1, hd2, hh1, hh2, hi1, hi2, hs1, hs2, hb, hend, rfl⟩
  · exact absurd h (by simp)

theorem dateTryMatch_shape {prev : Option Char} {cs lit rest : List Char}
    (h : dateTryMatch prev cs = some (lit, rest)) :
    ∃ g1 g2 g3 g4 gm1 gm2 gd1 gd2 : Char,
      cs = g1 :: g2 :: g3 :: g4 :: '-' :: gm1 :: gm2 :: '-' :: gd1 :: gd2 :: rest ∧
      g1.isDigit = true ∧ g2.isDigit = true ∧ g3.isDigit = true ∧ g4.isDigit = true ∧
      gm1.isDigit = true ∧ gm2.isDigit = true ∧ gd1.isDigit = true ∧ gd2.isDigit = true ∧
      boundaryBefore prev = true ∧ endBoundary rest = true ∧
      lit = [g1, g2, g3, g4, '-', gm1, gm2, '-', gd1, gd2] := by
  rcases cs with _ | ⟨y1, _ | ⟨y2, _ | ⟨y3, _ | ⟨y4, _ | ⟨a1, _ | ⟨m1, _ | ⟨m2, _ | ⟨a2,
    _ | ⟨d1, _ | ⟨d2, rest2⟩⟩⟩⟩⟩⟩⟩⟩⟩⟩ <;>
    simp only [dateTryMatch] at h <;> try exact Option.noConfusion h
  split at h
  · rename_i hc
    simp only [Option.some.injEq, Prod.mk.injEq] at h
    obtain ⟨rfl, rfl⟩ := h
    simp only [Bool.and_eq_true, decide_eq_true_eq] at hc
    obtain ⟨⟨⟨⟨⟨⟨⟨⟨⟨⟨⟨hb, hy1⟩, hy2⟩, hy3⟩, hy4⟩, ha1⟩, hm1⟩, hm2⟩, ha2⟩, hd1⟩, hd2⟩, hend⟩ := hc
    subst ha1 ha2
    exact ⟨y1, y2, y3, y4, m1, m2, d1, d2, rfl, hy1, hy2, hy3, hy4, hm1, hm2, hd1, hd2,
      hb, hend, rfl⟩
  · exact absurd h (by simp)

theorem tsTryMatch_none_short {prev : Option Char} {cs : List Char} (h : cs.length < 19) :
    tsTryMatch prev cs = none := by
  rcases hm : tsTryMatch prev cs with _ | ⟨lit, rest⟩
  · rfl
  · exfalso
    obtain ⟨g1, g2, g3, g4, gm1, gm2, gd1, gd2, gh1, gh2, gi1, gi2, gs1, gs2, hcs, -⟩ :=
      tsTryMatch_shape hm
    rw [hcs] at h
    simp only [List.length_cons] at h
    omega

theorem dateTryMatch_none_short {prev : Option Char} {cs : List Char} (h : cs.length < 10) :
    dateTryMatch prev cs = none := by
  rcases hm : dateTryMatch prev cs with _ | ⟨lit, rest⟩
  · rfl
  · exfalso
    obtain ⟨g1, g2, g3, g4, gm1, gm2, gd1, gd2, hcs, -⟩ := dateTryMatch_shape hm
    rw [hcs] at h
    simp only [List.length_cons] at h
    omega

theorem tsTryMatch_none_head {prev : Option Char} {c : Char} {cs : List Char}
    (h : c.isDigit = false) : tsTryMatch prev (c :: cs) = none := by
  rcases hm : tsTryMatch prev (c :: cs) with _ | ⟨lit, rest⟩
  · rfl
  · exfalso
    obtain ⟨g1, g2, g3, g4, gm1, gm2, gd1, gd2, gh1, gh2, gi1, gi2, gs1, gs2, hcs, hg1, -⟩ :=
      tsTryMatch_shape hm
    simp only [List.cons.injEq] at hcs
    rw [hcs.1, hg1] at h
    simp at h

theorem dateTryMatch_none_head {prev : Option Char} {c : Char} {cs : List Char}
    (h : c.isDigit = false) : dateTryMatch prev (c :: cs) = none := by
  rcases hm : dateTryMatch prev (c :: cs) with _ | ⟨lit, rest⟩
  · rfl
  · exfalso
    obtain ⟨g1, g2, g3, g4, gm1, gm2, gd1, gd2, hcs, hg1, -⟩ := dateTryMatch_shape hm
    simp only [List.cons.injEq] at hcs
    rw [hcs.1, hg1] at h
    simp at h

theorem tsTryMatch_none_pos1 {prev : Option Char} {c0 c1 : Char} {cs : List Char}
    (h : c1.isDigit = false) : tsTryMatch prev (c0 :: c1 :: cs) = none := by
  rcases hm : tsTryMatch prev (c0 :: c1 :: cs) with _ | ⟨lit, rest⟩
  · rfl
  · exfalso
    obtain ⟨g1, g2, g3, g4, gm1, gm2, gd1, gd2, gh1, gh2, gi1, gi2, gs1, gs2, hcs,
      -, hg2, -⟩ := tsTryMatch_shape hm
    simp only [List.cons.injEq] at hcs
    rw [hcs.2.1, hg2] at h
    simp at h

theorem dateTryMatch_none_pos1 {prev : Option Char} {c0 c1 : Char} {cs : List Char}
    (h : c1.isDigit = false) : dateTryMatch prev (c0 :: c1 :: cs) = none := by
  rcases hm : dateTryMatch prev (c0 :: c1 :: cs) with _ | ⟨lit, rest⟩
  · rfl
  · exfalso
    obtain ⟨g1, g2, g3, g4, gm1, gm2, gd1, gd2, hcs, -, hg2, -⟩ := dateTryMatch_shape hm
    simp only [List.cons.injEq] at hcs
    rw [hcs.2.1, hg2] at h
    simp at h

theorem tsTryMatch_none_pos2 {prev : Option Char} {c0 c1 c2 : Char} {cs : List Char}
    (h : c2.isDigit = false) : tsTryMatch prev (c0 :: c1 :: c2 :: cs) = none := by
  rcases hm : tsTryMatch prev (c0 :: c1 :: c2 :: cs) with _ | ⟨lit, rest⟩
  · rfl
  · exfalso
    obtain ⟨g1, g2, g3, g4, gm1, gm2, gd1, gd2, gh1, gh2, gi1, gi2, gs1, gs2, hcs,
      -, -, hg3, -⟩ := tsTryMatch_shape hm
    simp only [List.cons.injEq] at hcs
    rw [hcs.2.2.1, hg3] at h
    simp at h

theorem dateTryMatch_none_pos2 {prev : Option Char} {c0 c1 c2 : Char} {cs : List Char}
    (h : c2.isDigit = false) : dateTryMatch prev (c0 :: c1 :: c2 :: cs) = none := by
  rcases hm : dateTryMatch prev (c0 :: c1 :: c2 :: cs) with _ | ⟨lit, rest⟩
  · rfl
  · exfalso
    obtain ⟨g1, g2, g3, g4, gm1, gm2, gd1, gd2, hcs, -, -, hg3, -⟩ := dateTryMatch_shape hm
    simp only [List.cons.injEq] at hcs
    rw [hcs.2.2.1, hg3] at h
    simp at h

theorem tsTryMatch_none_pos3 {prev : Option Char} {c0 c1 c2 c3 : Char} {cs : List Char}
    (h : c3.isDigit = false) : tsTryMatch prev (c0 :: c1 :: c2 :: c3 :: cs) = none := by
  rcases hm : tsTryMatch prev (c0 :: c1 :: c2 :: c3 :: cs) with _ | ⟨lit, rest⟩
  · rfl
  · exfalso
    obtain ⟨g1, g2, g3, g4, gm1, gm2, gd1, gd2, gh1, gh2, gi1, gi2, gs1, gs2, hcs,
      -, -, -, hg4, -⟩ := tsTryMatch_shape hm
    simp only [List.cons.injEq] at hcs
    rw [hcs.2.2.2.1, hg4] at h
    simp at h

theorem dateTryMatch_none_pos3 {prev : Option Char} {c0 c1 c2 c3 : Char} {cs : List Char}
    (h : c3.isDigit = false) : dateTryMatch prev (c0 :: c1 :: c2 :: c3 :: cs) = none := by
  rcases hm : dateTryMatch prev (c0 :: c1 :: c2 :: c3 :: cs) with _ | ⟨lit, rest⟩
  · rfl
  · exfalso
    obtain ⟨g1, g2, g3, g4, gm1, gm2, gd1, gd2, hcs, -, -, -, hg4, -⟩ := dateTryMatch_shape hm
    simp only [List.cons.injEq] at hcs
    rw [hcs.2.2.2.1, hg4] at h
    simp at h

theorem digit_isWordChar {c : Char} (h : c.isDigit = true) : isWordChar c = true := by
  simp [isWordChar, h]

theorem tsTryMatch_none_after1 {prev : Option Char} {a0 : Char} {b : List Char}
    (h : endBoundary b = true) : tsTryMatch prev (a0 :: b) = none := by
  rcases hm : tsTryMatch prev (a0 :: b) with _ | ⟨lit, rest⟩
  · rfl
  · exfalso
    obtain ⟨g1, g2, g3, g4, gm1, gm2, gd1, gd2, gh1, gh2, gi1, gi2, gs1, gs2, hcs,
      -, hg2, -⟩ := tsTryMatch_shape hm
    simp only [List.cons.injEq] at hcs
    rw [hcs.2] at h
    simp only [endBoundary, Bool.not_eq_true'] at h
    rw [digit_isWordChar hg2] at h
    simp at h

theorem dateTryMatch_none_after1 {prev : Option Char} {a0 : Char} {b : List Char}
    (h : endBoundary b = true) : dateTryMatch prev (a0 :: b) = none := by
  rcases hm : dateTryMatch prev (a0 :: b) with _ | ⟨lit, rest⟩
  · rfl
  · exfalso
    obtain ⟨g1, g2, g3, g4, gm1, gm2, gd1, gd2, hcs, -, hg2, -⟩ := dateTryMatch_shape hm
    simp only [List.cons.injEq] at hcs
    rw [hcs.2] at h
    simp only [endBoundary, Bool.not_eq_true'] at h
    rw [digit_isWordChar hg2] at h
    simp at h

theorem tsTryMatch_none_after2 {prev : Option Char} {a0 a1 : Char} {b : List Char}
    (h : endBoundary b = true) : tsTryMatch prev (a0 :: a1 :: b) = none := by
  rcases hm : tsTryMatch prev (a0 :: a1 :: b) with _ | ⟨lit, rest⟩
  · rfl
  · exfalso
    obtain ⟨g1, g2, g3, g4, gm1, gm2, gd1, gd2, gh1, gh2, gi1, gi2, gs1, gs2, hcs,
      -, -, hg3, -⟩ := tsTryMatch_shape hm
    simp only [List.cons.injEq] at hcs
    rw [hcs.2.2] at h
    simp only [endBoundary, Bool.not_eq_true'] at h
    rw [digit_isWordChar hg3] at h
    simp at h

theorem dateTryMatch_none_after2 {prev : Option Char} {a0 a1 : Char} {b : List Char}
    (h : endBoundary b = true) : dateTryMatch prev (a0 :: a1 :: b) = none := by
  rcases hm : dateTryMatch prev (a0 :: a1 :: b) with _ | ⟨lit, rest⟩
  · rfl
  · exfalso
    obtain ⟨g1, g2, g3, g4, gm1, gm2, gd1, gd2, hcs, -, -, hg3, -⟩ := dateTryMatch_shape hm
    simp only [List.cons.injEq] at hcs
    rw [hcs.2.2] at h
    simp only [endBoundary, Bool.not_eq_true'] at h
    rw [digit_isWordChar hg3] at h
    simp at h

theorem tsTryMatch_none_after10 {prev : Option Char} {a0 a1 a2 a3 a4 a5 a6 a7 a8 a9 : Char}
    {b : List Char} (h : endBoundary b = true) :
    tsTryMatch prev (a0 :: a1 :: a2 :: a3 :: a4 :: a5 :: a6 :: a7 :: a8 :: a9 :: b) = none := by
  rcases hm : tsTryMatch prev (a0 :: a1 :: a2 :: a3 :: a4 :: a5 :: a6 :: a7 :: a8 :: a9 :: b)
    with _ | ⟨lit, rest⟩
  · rfl
  · exfalso
    obtain ⟨g1, g2, g3, g4, gm1, gm2, gd1, gd2, gh1, gh2, gi1, gi2, gs1, gs2, hcs, -⟩ :=
      tsTryMatch_shape hm
    simp only [List.cons.injEq] at hcs
    rw [hcs.2.2.2.2.2.2.2.2.2.2] at h
    simp [endBoundary, isWordChar] at h

theorem dateTryMatch_none_T10 {prev : Option Char} {a0 a1 a2 a3 a4 a5 a6 a7 a8 a9 : Char}
    {b : List Char} :
    dateTryMatch prev (a0 :: a1 :: a2 :: a3 :: a4 :: a5 :: a6 :: a7 :: a8 :: a9 :: 'T' :: b)
      = none := by
  rcases hm : dateTryMatch prev (a0 :: a1 :: a2 :: a3 :: a4 :: a5 :: a6 :: a7 :: a8 :: a9 ::
    'T' :: b) with _ | ⟨lit, rest⟩
  · rfl
  · exfalso
    obtain ⟨g1, g2, g3, g4, gm1, gm2, gd1, gd2, hcs, -, -, -, -, -, -, -, -, -, hend, -⟩ :=
      dateTryMatch_shape hm
    simp only [List.cons.injEq] at hcs
    rw [← hcs.2.2.2.2.2.2.2.2.2.2] at hend
    simp [endBoundary, isWordChar] at hend

/-! ### Skipping unmatched regions -/

/-- Previous-character tracking across a skipped region. -/
def prevAfter (a : List Char) (prev : Option Char) : Option Char :=
  match a.getLast? with
  | some c => some c
  | none => prev

theorem prevAfter_nil (prev : Option Char) : prevAfter [] prev = prev := rfl

theorem prevAfter_cons (c : Char) (a : List Char) (prev : Option Char) :
    prevAfter (c :: a) prev = prevAfter a (some c) := by
  cases a with
  | nil => rfl
  | cons d a2 => simp [prevAfter, List.getLast?]

theorem runSubTs_append_nodigit {days : Int} {prev : Option Char} {a b : List Char}
    (ha : ∀ c ∈ a, c.isDigit = false) :
    runSubTs days prev (a ++ b) = (runSubTs days (prevAfter a prev) b).map (a ++ ·) := by
  induction a generalizing prev with
  | nil =>
      rw [prevAfter_nil, List.nil_append]
      cases runSubTs days prev b <;> simp
  | cons c a2 ih =>
      rw [List.cons_append, runSubTs_cons_nomatch (tsTryMatch_none_head (ha c (by simp))),
        ih (fun x hx => ha x (by simp [hx])), prevAfter_cons]
      cases runSubTs days (prevAfter a2 (some c)) b <;> simp

theorem runSubDate_append_nodigit {days : Int} {prev : Option Char} {a b : List Char}
    (ha : ∀ c ∈ a, c.isDigit = false) :
    runSubDate days prev (a ++ b) = (runSubDate days (prevAfter a prev) b).map (a ++ ·) := by
  induction a generalizing prev with
  | nil =>
      rw [prevAfter_nil, List.nil_append]
      cases runSubDate days prev b <;> simp
  | cons c a2 ih =>
      rw [List.cons_append, runSubDate_cons_nomatch (dateTryMatch_none_head (ha c (by simp))),
        ih (fun x hx => ha x (by simp [hx])), prevAfter_cons]
      cases runSubDate days (prevAfter a2 (some c)) b <;> simp

theorem runSubTs_id_of_short {days : Int} {prev : Option Char} {cs : List Char}
    (h : cs.length < 19) : runSubTs days prev cs = some cs := by
  induction cs generalizing prev with
  | nil => rfl
  | cons c cs2 ih =>
      rw [runSubTs_cons_nomatch (tsTryMatch_none_short h)]
      rw [ih (by simp at h; omega)]
      rfl

theorem renderIsoDate_explicit (x : Ymd) :
    renderIsoDate x = digitChar (x.y.toNat / 1000) :: digitChar (x.y.toNat / 100 % 10) ::
      digitChar (x.y.toNat / 10 % 10) :: digitChar (x.y.toNat % 10) :: '-' ::
      digitChar (x.m / 10) :: digitChar (x.m % 10) :: '-' ::
      digitChar (x.d / 10) :: [digitChar (x.d % 10)] := by
  simp [renderIsoDate, pad4, pad2]

theorem renderIsoTimestamp_explicit (x : Ymd) (t : Tod) :
    renderIsoTimestamp x t = digitChar (x.y.toNat / 1000) :: digitChar (x.y.toNat / 100 % 10) ::
      digitChar (x.y.toNat / 10 % 10) :: digitChar (x.y.toNat % 10) :: '-' ::
      digitChar (x.m / 10) :: digitChar (x.m % 10) :: '-' ::
      digitChar (x.d / 10) :: digitChar (x.d % 10) :: 'T' ::
      digitChar (t.hh / 10) :: digitChar (t.hh % 10) :: ':' ::
      digitChar (t.mi / 10) :: digitChar (t.mi % 10) :: ':' ::
      digitChar (t.ss / 10) :: [digitChar (t.ss % 10)] := by
  simp [renderIsoTimestamp, pad4, pad2]

theorem runSubTs_skip_renderDate {days : Int} {prev : Option Char} {x : Ymd} {b : List Char}
    (hb : endBoundary b = true) :
    runSubTs days prev (renderIsoDate x ++ b)
      = (runSubTs days (some (digitChar (x.d % 10))) b).map (renderIsoDate x ++ ·) := by
  rw [renderIsoDate_explicit]
  simp only [List.cons_append, List.nil_append]
  rw [runSubTs_cons_nomatch (tsTryMatch_none_after10 hb)]
  rw [runSubTs_cons_nomatch (@tsTryMatch_none_pos3 _ _ _ _ '-' _ (by decide))]
  rw [runSubTs_cons_nomatch (@tsTryMatch_none_pos2 _ _ _ '-' _ (by decide))]
  rw [runSubTs_cons_nomatch (@tsTryMatch_none_pos1 _ _ '-' _ (by decide))]
  rw [runSubTs_cons_nomatch (@tsTryMatch_none_head _ '-' _ (by decide))]
  rw [runSubTs_cons_nomatch (@tsTryMatch_none_pos2 _ _ _ '-' _ (by decide))]
  rw [runSubTs_cons_nomatch (@tsTryMatch_none_pos1 _ _ '-' _ (by decide))]
  rw [runSubTs_cons_nomatch (@tsTryMatch_none_head _ '-' _ (by decide))]
  rw [runSubTs_cons_nomatch (tsTryMatch_none_after2 hb)]
  rw [runSubTs_cons_nomatch (tsTryMatch_none_after1 hb)]
  cases runSubTs days (some (digitChar (x.d % 10))) b <;> simp

theorem runSubDate_skip_renderTs {days : Int} {prev : Option Char} {x : Ymd} {t : Tod}
    {b : List Char} (hb : endBoundary b = true) :
    runSubDate days prev (renderIsoTimestamp x t ++ b)
      = (runSubDate days (some (digitChar (t.ss % 10))) b).map (renderIsoTimestamp x t ++ ·) := by
  rw [renderIsoTimestamp_explicit]
  simp only [List.cons_append, List.nil_append]
  rw [runSubDate_cons_nomatch dateTryMatch_none_T10]
  rw [runSubDate_cons_nomatch (@dateTryMatch_none_pos3 _ _ _ _ '-' _ (by decide))]
  rw [runSubDate_cons_nomatch (@dateTryMatch_none_pos2 _ _ _ '-' _ (by decide))]
  rw [runSubDate_cons_nomatch (@dateTryMatch_none_pos1 _ _ '-' _ (by decide))]
  rw [runSubDate_cons_nomatch (@dateTryMatch_none_head _ '-' _ (by decide))]
  rw [runSubDate_cons_nomatch (@dateTryMatch_none_pos2 _ _ _ '-' _ (by decide))]
  rw [runSubDate_cons_nomatch (@dateTryMatch_none_pos1 _ _ '-' _ (by decide))]
  rw [runSubDate_cons_nomatch (@dateTryMatch_none_head _ '-' _ (by decide))]
  rw [runSubDate_cons_nomatch (@dateTryMatch_none_pos2 _ _ _ 'T' _ (by decide))]
  rw [runSubDate_cons_nomatch (@dateTryMatch_none_pos1 _ _ 'T' _ (by decide))]
  rw [runSubDate_cons_nomatch (@dateTryMatch_none_head _ 'T' _ (by decide))]
  rw [runSubDate_cons_nomatch (@dateTryMatch_none_pos2 _ _ _ ':' _ (by decide))]
  rw [runSubDate_cons_nomatch (@dateTryMatch_none_pos1 _ _ ':' _ (by decide))]
  rw [runSubDate_cons_nomatch (@dateTryMatch_none_head _ ':' _ (by decide))]
  rw [runSubDate_cons_nomatch (@dateTryMatch_none_pos2 _ _ _ ':' _ (by decide))]
  rw [runSubDate_cons_nomatch (@dateTryMatch_none_pos1 _ _ ':' _ (by decide))]
  rw [runSubDate_cons_nomatch (@dateTryMatch_none_head _ ':' _ (by decide))]
  rw [runSubDate_cons_nomatch (dateTryMatch_none_after2 hb)]
  rw [runSubDate_cons_nomatch (dateTryMatch_none_after1 hb)]
  cases runSubDate days (some (digitChar (t.ss % 10))) b <;> simp

/-! ### Matching a rendered literal -/

theorem tsTryMatch_render {prev : Option Char} {x : Ymd} {t : Tod} {b : List Char}
    (hy : x.y.toNat ≤ 9999) (hm : x.m ≤ 99) (hd : x.d ≤ 99)
    (hhh : t.hh ≤ 99) (hmi : t.mi ≤ 99) (hss : t.ss ≤ 99)
    (hb : boundaryBefore prev = true) (he : endBoundary b = true) :
    tsTryMatch prev (renderIsoTimestamp x t ++ b) = some (renderIsoTimestamp x t, b) := by
  have c1 : (digitChar (x.y.toNat / 1000)).isDigit = true := digitChar_isDigit (by omega)
  have c2 : (digitChar (x.y.toNat / 100 % 10)).isDigit = true := digitChar_isDigit (by omega)
  have c3 : (digitChar (x.y.toNat / 10 % 10)).isDigit = true := digitChar_isDigit (by omega)
  have c4 : (digitChar (x.y.toNat % 10)).isDigit = true := digitChar_isDigit (by omega)
  have c5 : (digitChar (x.m / 10)).isDigit = true := digitChar_isDigit (by omega)
  have c6 : (digitChar (x.m % 10)).isDigit = true := digitChar_isDigit (by omega)
  have c7 : (digitChar (x.d / 10)).isDigit = true := digitChar_isDigit (by omega)
  have c8 : (digitChar (x.d % 10)).isDigit = true := digitChar_isDigit (by omega)
  have c9 : (digitChar (t.hh / 10)).isDigit = true := digitChar_isDigit (by omega)
  have c10 : (digitChar (t.hh % 10)).isDigit = true := digitChar_isDigit (by omega)
  have c11 : (digitChar (t.mi / 10)).isDigit = true := digitChar_isDigit (by omega)
  have c12 : (digitChar (t.mi % 10)).isDigit = true := digitChar_isDigit (by omega)
  have c13 : (digitChar (t.ss / 10)).isDigit = true := digitChar_isDigit (by omega)
  have c14 : (digitChar (t.ss % 10)).isDigit = true := digitChar_isDigit (by omega)
  rw [renderIsoTimestamp_explicit]
  simp only [List.cons_append, List.nil_append, tsTryMatch, c1, c2, c3, c4, c5, c6, c7, c8,
    c9, c10, c11, c12, c13, c14, hb, he, Bool.and_true, Bool.true_and, if_true]
  rfl

theorem dateTryMatch_render {prev : Option Char} {x : Ymd} {b : List Char}
    (hy : x.y.toNat ≤ 9999) (hm : x.m ≤ 99) (hd : x.d ≤ 99)
    (hb : boundaryBefore prev = true) (he : endBoundary b = true) :
    dateTryMatch prev (renderIsoDate x ++ b) = some (renderIsoDate x, b) := by
  have c1 : (digitChar (x.y.toNat / 1000)).isDigit = true := digitChar_isDigit (by omega)
  have c2 : (digitChar (x.y.toNat / 100 % 10)).isDigit = true := digitChar_isDigit (by omega)
  have c3 : (digitChar (x.y.toNat / 10 % 10)).isDigit = true := digitChar_isDigit (by omega)
  have c4 : (digitChar (x.y.toNat % 10)).isDigit = true := digitChar_isDigit (by omega)
  have c5 : (digitChar (x.m / 10)).isDigit = true := digitChar_isDigit (by omega)
  have c6 : (digitChar (x.m % 10)).isDigit = true := digitChar_isDigit (by omega)
  have c7 : (digitChar (x.d / 10)).isDigit = true := digitChar_isDigit (by omega)
  have c8 : (digitChar (x.d % 10)).isDigit = true := digitChar_isDigit (by omega)
  rw [renderIsoDate_explicit]
  simp only [List.cons_append, List.nil_append, dateTryMatch, c1, c2, c3, c4, c5, c6, c7, c8,
    hb, he, Bool.and_true, Bool.true_and, if_true]
  rfl

/-! ### Soundness of the text-date matcher -/

theorem drop_takeWhile_length (p : Char → Bool) (l : List Char) :
    l.drop (l.takeWhile p).length = l.dropWhile p := by
  induction l with
  | nil => rfl
  | cons c l2 ih =>
      by_cases hp : p c
      · simp [List.takeWhile_cons, List.dropWhile_cons, hp, ih]
      · simp [List.takeWhile_cons, List.dropWhile_cons, hp]

theorem takeWhile_append_dropWhile_self (p : Char → Bool) (l : List Char) :
    l.takeWhile p ++ l.dropWhile p = l := by
  rw [List.takeWhile_append_dropWhile]

/-- Concatenated whitespace-and-year groups of a match (empty when the
optional year group was not taken). -/
def yearLits (tm : TextMatch) : List Char :=
  match tm.yearPart with
  | some (sp2, yl, _) => sp2 ++ yl
  | none => []

theorem textMatchGroup0_eq (tm : TextMatch) :
    textMatchGroup0 tm = tm.monthName.toList ++ tm.sp1 ++ tm.dayLit ++ yearLits tm := by
  cases htm : tm.yearPart <;> simp [textMatchGroup0, yearLits, htm]

theorem yearCont_sound {r2 : List Char} {sp2 yl : List Char} {yv : Nat} {r3 : List Char}
    (h : yearCont r2 = some ((sp2, yl, yv), r3)) :
    sp2 ≠ [] ∧ (∀ c ∈ sp2, isSpaceChar c = true) ∧
      (∃ a b c d : Char, yl = [a, b, c, d] ∧ a.isDigit = true ∧ b.isDigit = true ∧
        c.isDigit = true ∧ d.isDigit = true) ∧
      r2 = sp2 ++ (yl ++ r3) ∧ endBoundary r3 = true := by
  unfold yearCont at h
  by_cases hsp : (r2.takeWhile isSpaceChar).isEmpty
  · rw [if_pos hsp] at h
    exact Option.noConfusion h
  · rw [if_neg hsp] at h
    rw [drop_takeWhile_length] at h
    rcases hdw : r2.dropWhile isSpaceChar with _ | ⟨a, _ | ⟨b, _ | ⟨c, _ | ⟨d, r32⟩⟩⟩⟩ <;>
      rw [hdw] at h <;> try exact Option.noConfusion h
    replace h : (if (a.isDigit && b.isDigit && c.isDigit && d.isDigit && endBoundary r32) = true
        then some ((List.takeWhile isSpaceChar r2, [a, b, c, d],
          digitVal a * 1000 + digitVal b * 100 + digitVal c * 10 + digitVal d), r32)
        else none) = some ((sp2, yl, yv), r3) := h
    by_cases hc : (a.isDigit && b.isDigit && c.isDigit && d.isDigit && endBoundary r32) = true
    · rw [if_pos hc] at h
      simp only [Option.some.injEq, Prod.mk.injEq] at h
      obtain ⟨⟨rfl, rfl, rfl⟩, rfl⟩ := h
      simp only [Bool.and_eq_true] at hc
      refine ⟨by simpa using hsp, fun c2 hc2 => List.mem_takeWhile_imp hc2,
        ⟨a, b, c, d, rfl, hc.1.1.1.1, hc.1.1.1.2, hc.1.1.2, hc.1.2⟩, ?_, hc.2⟩
      conv_lhs => rw [← takeWhile_append_dropWhile_self isSpaceChar r2]
      rw [hdw]
      simp
    · rw [if_neg hc] at h
      exact Option.noConfusion h

theorem dayCont_sound {name : String} {sp1 dayLit : List Char} {dayVal : Nat}
    {r2 : List Char} {tm : TextMatch} {rest : List Char}
    (h : dayCont name sp1 dayLit dayVal r2 = some (tm, rest)) :
    tm.monthName = name ∧ tm.sp1 = sp1 ∧ tm.dayLit = dayLit ∧
      r2 = yearLits tm ++ rest ∧ endBoundary rest = true ∧
      (∀ sp2 yl yv, tm.yearPart = some (sp2, yl, yv) →
        sp2 ≠ [] ∧ (∀ c ∈ sp2, isSpaceChar c = true) ∧
          (∃ a b c d : Char, yl = [a, b, c, d] ∧ a.isDigit = true ∧ b.isDigit = true ∧
            c.isDigit = true ∧ d.isDigit = true)) := by
  unfold dayCont at h
  rcases hy : yearCont r2 with _ | ⟨⟨sp2, yl, yv⟩, r3⟩ <;> rw [hy] at h
  · by_cases hb : endBoundary r2 = true
    · rw [if_pos hb] at h
      simp only [Option.some.injEq, Prod.mk.injEq] at h
      obtain ⟨rfl, rfl⟩ := h
      exact ⟨rfl, rfl, rfl, by simp [yearLits], hb, by simp⟩
    · rw [if_neg hb] at h
      exact Option.noConfusion h
  · simp only [Option.some.injEq, Prod.mk.injEq] at h
    obtain ⟨rfl, rfl⟩ := h
    obtain ⟨hsp, hsps, hylshape, hr2, hend⟩ := yearCont_sound hy
    refine ⟨rfl, rfl, rfl, ?_, hend, ?_⟩
    · simpa [yearLits] using hr2
    · intro sp2b ylb yvb hyp
      simp only [Option.some.injEq, Prod.mk.injEq] at hyp
      obtain ⟨rfl, rfl, rfl⟩ := hyp
      exact ⟨hsp, hsps, hylshape⟩

theorem monthCont_sound {name : String} {rest0 : List Char} {tm : TextMatch} {rest : List Char}
    (h : monthCont name rest0 = some (tm, rest)) :
    tm.monthName = name ∧ tm.sp1 ≠ [] ∧ (∀ c ∈ tm.sp1, isSpaceChar c = true) ∧
      rest0 = tm.sp1 ++ (tm.dayLit ++ (yearLits tm ++ rest)) ∧ endBoundary rest = true ∧
      ((∃ a : Char, tm.dayLit = [a] ∧ a.isDigit = true) ∨
        (∃ a b : Char, tm.dayLit = [a, b] ∧ a.isDigit = true ∧ b.isDigit = true)) ∧
      (∀ sp2 yl yv, tm.yearPart = some (sp2, yl, yv) →
        sp2 ≠ [] ∧ (∀ c ∈ sp2, isSpaceChar c = true) ∧
          (∃ a b c d : Char, yl = [a, b, c, d] ∧ a.isDigit = true ∧ b.isDigit = true ∧
            c.isDigit = true ∧ d.isDigit = true)) := by
  unfold monthCont at h
  by_cases hsp : (rest0.takeWhile isSpaceChar).isEmpty
  · rw [if_pos hsp] at h
    exact Option.noConfusion h
  · rw [if_neg hsp] at h
    rw [drop_takeWhile_length] at h
    have hsp1 : rest0.takeWhile isSpaceChar ≠ [] := by simpa using hsp
    have hsps : ∀ c ∈ rest0.takeWhile isSpaceChar, isSpaceChar c = true :=
      fun c2 hc2 => List.mem_takeWhile_imp hc2
    have hsplit : rest0 = rest0.takeWhile isSpaceChar ++ rest0.dropWhile isSpaceChar :=
      (takeWhile_append_dropWhile_self isSpaceChar rest0).symm
    rcases hdw : rest0.dropWhile isSpaceChar with _ | ⟨a, _ | ⟨b, r2⟩⟩ <;> rw [hdw] at h
    · exact Option.noConfusion h
    · replace h : (if a.isDigit = true
          then dayCont name (rest0.takeWhile isSpaceChar) [a] (digitVal a) []
          else none) = some (tm, rest) := h
      by_cases ha : a.isDigit = true
      · rw [if_pos ha] at h
        obtain ⟨hn, hs, hdl, hr2, hend, hyp⟩ := dayCont_sound h
        refine ⟨hn, by rw [hs]; exact hsp1, by rw [hs]; exact hsps, ?_, hend,
          Or.inl ⟨a, hdl, ha⟩, hyp⟩
        rw [hsplit, hdw, hs, hdl]
        have : ([] : List Char) = yearLits tm ++ rest := hr2
        rw [← this]
        simp
      · rw [if_neg ha] at h
        exact Option.noConfusion h
    · replace h : (if a.isDigit = true then
          (if b.isDigit = true then
            (dayCont name (rest0.takeWhile isSpaceChar) [a, b]
                (10 * digitVal a + digitVal b) r2 <|>
              dayCont name (rest0.takeWhile isSpaceChar) [a] (digitVal a) (b :: r2))
          else dayCont name (rest0.takeWhile isSpaceChar) [a] (digitVal a) (b :: r2))
          else none) = some (tm, rest) := h
      by_cases ha : a.isDigit = true
      · rw [if_pos ha] at h
        by_cases hb : b.isDigit = true
        · rw [if_pos hb] at h
          rcases h2 : dayCont name (rest0.takeWhile isSpaceChar) [a, b]
              (10 * digitVal a + digitVal b) r2 with _ | out
          · rw [h2] at h
            simp only [Option.none_orElse] at h
            obtain ⟨hn, hs, hdl, hr2, hend, hyp⟩ := dayCont_sound h
            refine ⟨hn, by rw [hs]; exact hsp1, by rw [hs]; exact hsps, ?_, hend,
              Or.inl ⟨a, hdl, ha⟩, hyp⟩
            rw [hsplit, hdw, hs, hdl, hr2]
            simp
          · rw [h2] at h
            simp only [Option.some_orElse] at h
            obtain rfl : out = (tm, rest) := by simpa using h
            obtain ⟨hn, hs, hdl, hr2, hend, hyp⟩ := dayCont_sound h2
            refine ⟨hn, by rw [hs]; exact hsp1, by rw [hs]; exact hsps, ?_, hend,
              Or.inr ⟨a, b, hdl, ha, hb⟩, hyp⟩
            rw [hsplit, hdw, hs, hdl, hr2]
            simp
        · rw [if_neg hb] at h
          obtain ⟨hn, hs, hdl, hr2, hend, hyp⟩ := dayCont_sound h
          refine ⟨hn, by rw [hs]; exact hsp1, by rw [hs]; exact hsps, ?_, hend,
            Or.inl ⟨a, hdl, ha⟩, hyp⟩
          rw [hsplit, hdw, hs, hdl, hr2]
          simp
      · rw [if_neg ha] at h
        exact Option.noConfusion h

theorem tryMonths_sound : ∀ {names : List String} {cs : List Char} {tm : TextMatch}
    {rest : List Char}, tryMonths names cs = some (tm, rest) →
    ∃ name ∈ names, name.toList.isPrefixOf cs = true ∧
      monthCont name (cs.drop name.toList.length) = some (tm, rest) := by
  intro names
  induction names with
  | nil => intro cs tm rest h; exact Option.noConfusion h
  | cons name names2 ih =>
      intro cs tm rest h
      unfold tryMonths at h
      by_cases hp : name.toList.isPrefixOf cs = true
      · rw [if_pos hp] at h
        rcases hmc : monthCont name (cs.drop name.toList.length) with _ | out <;>
          rw [hmc] at h
        · obtain ⟨n2, hn2, hp2, hm2⟩ := ih h
          exact ⟨n2, by simp [hn2], hp2, hm2⟩
        · obtain rfl : out = (tm, rest) := by simpa using h
          exact ⟨name, by simp, hp, hmc⟩
      · rw [if_neg hp] at h
        obtain ⟨n2, hn2, hp2, hm2⟩ := ih h
        exact ⟨n2, by simp [hn2], hp2, hm2⟩

theorem textTryMatch_sound {prev : Option Char} {cs : List Char} {tm : TextMatch}
    {rest : List Char} (h : textTryMatch prev cs = some (tm, rest)) :
    boundaryBefore prev = true ∧ tm.monthName ∈ allMonthNames ∧
      cs = tm.monthName.toList ++ (tm.sp1 ++ (tm.dayLit ++ (yearLits tm ++ rest))) ∧
      tm.sp1 ≠ [] ∧ (∀ c ∈ tm.sp1, isSpaceChar c = true) ∧
      ((∃ a : Char, tm.dayLit = [a] ∧ a.isDigit = true) ∨
        (∃ a b : Char, tm.dayLit = [a, b] ∧ a.isDigit = true ∧ b.isDigit = true)) ∧
      endBoundary rest = true ∧
      (∀ sp2 yl yv, tm.yearPart = some (sp2, yl, yv) →
        sp2 ≠ [] ∧ (∀ c ∈ sp2, isSpaceChar c = true) ∧
          (∃ a b c d : Char, yl = [a, b, c, d] ∧ a.isDigit = true ∧ b.isDigit = true ∧
            c.isDigit = true ∧ d.isDigit = true)) := by
  unfold textTryMatch at h
  by_cases hbd : boundaryBefore prev = true
  · rw [if_pos hbd] at h
    obtain ⟨name, hmem, hp, hmc⟩ := tryMonths_sound h
    obtain ⟨hn, hs1, hsps, hdecomp, hend, hday, hyp⟩ := monthCont_sound hmc
    refine ⟨hbd, by rw [hn]; exact hmem, ?_, hs1, hsps, hday, hend, hyp⟩
    have hpre : name.toList ++ cs.drop name.toList.length = cs := by
      have := (List.prefix_iff_eq_append).mp (List.isPrefixOf_iff_prefix.mp hp)
      exact this
    rw [hn, ← hpre, hdecomp]
  · rw [if_neg hbd] at h
    exact Option.noConfusion h

/-! ### Concrete facts about the month-name alternation -/

theorem allMonthNames_ne_nil : ∀ n ∈ allMonthNames, n.toList ≠ [] := by decide

theorem allMonthNames_nodigit : ∀ n ∈ allMonthNames, ∀ c ∈ n.toList, c.isDigit = false := by
  decide

theorem allMonthNames_head_alpha : ∀ n ∈ allMonthNames, (n.toList.headD ' ').isAlpha = true := by
  decide

theorem isSpaceChar_not_digit {c : Char} (h : isSpaceChar c = true) : c.isDigit = false := by
  simp only [isSpaceChar, Bool.or_eq_true, decide_eq_true_eq] at h
  rcases h with ((((rfl | rfl) | rfl) | rfl) | rfl) | rfl <;> decide

/-! ### Step equations for the text-date pass -/

theorem subTextF_congr (days baseYear : Int) : ∀ f g : Nat, ∀ prev : Option Char,
    ∀ cs : List Char, cs.length < f → cs.length < g →
    subTextF days baseYear f prev cs = subTextF days baseYear g prev cs := by
  intro f
  induction f with
  | zero => intro g prev cs h _; omega
  | succ f ih =>
      intro g prev cs hf hg
      cases g with
      | zero => omega
      | succ g =>
          cases cs with
          | nil => rfl
          | cons c cs2 =>
              simp only [List.length_cons] at hf hg
              simp only [subTextF]
              rcases hm : textTryMatch prev (c :: cs2) with _ | ⟨tm, rest⟩
              · simp only [hm]
                rw [ih g (some c) cs2 (by omega) (by omega)]
              · obtain ⟨-, hmem, hcs, -⟩ := textTryMatch_sound hm
                have hne := allMonthNames_ne_nil _ hmem
                have hlen : rest.length < cs2.length + 1 := by
                  have hl2 := congrArg List.length hcs
                  rcases hnl : tm.monthName.toList with _ | ⟨c0, cs0⟩
                  · exact absurd hnl hne
                  · rw [hnl] at hl2
                    simp only [List.length_cons, List.length_append] at hl2
                    omega
                simp only [hm]
                rcases offsetTextDateMatch tm days baseYear with _ | r
                · rfl
                · rw [ih g (textMatchGroup0 tm).getLast? rest (by omega) (by omega)]

theorem runSubText_nil {days baseYear : Int} {prev : Option Char} :
    runSubText days baseYear prev [] = some [] := rfl

theorem runSubText_cons_nomatch {days baseYear : Int} {prev : Option Char} {c : Char}
    {cs : List Char} (h : textTryMatch prev (c :: cs) = none) :
    runSubText days baseYear prev (c :: cs)
      = (runSubText days baseYear (some c) cs).map (c :: ·) := by
  unfold runSubText
  show subTextF days baseYear (cs.length + 1 + 1) prev (c :: cs) = _
  simp only [subTextF, h]

theorem runSubText_cons_match {days baseYear : Int} {prev : Option Char} {c : Char}
    {cs rest : List Char} {tm : TextMatch} {r : List Char}
    (hm : textTryMatch prev (c :: cs) = some (tm, rest))
    (hr : offsetTextDateMatch tm days baseYear = some r) :
    runSubText days baseYear prev (c :: cs)
      = (runSubText days baseYear (textMatchGroup0 tm).getLast? rest).map (r ++ ·) := by
  obtain ⟨-, hmem, hcs, -⟩ := textTryMatch_sound hm
  have hne := allMonthNames_ne_nil _ hmem
  have hlen : rest.length < cs.length + 1 := by
    have hl2 := congrArg List.length hcs
    rcases hnl : tm.monthName.toList with _ | ⟨c0, cs0⟩
    · exact absurd hnl hne
    · rw [hnl] at hl2
      simp only [List.length_cons, List.length_append] at hl2
      omega
  unfold runSubText
  show subTextF days baseYear (cs.length + 1 + 1) prev (c :: cs) = _
  simp only [subTextF, hm, hr]
  rw [subTextF_congr days baseYear (cs.length + 1) (rest.length + 1)
    (textMatchGroup0 tm).getLast? rest (by omega) (by omega)]

theorem runSubText_cons_match_fail {days baseYear : Int} {prev : Option Char} {c : Char}
    {cs rest : List Char} {tm : TextMatch}
    (hm : textTryMatch prev (c :: cs) = some (tm, rest))
    (hr : offsetTextDateMatch tm days baseYear = none) :
    runSubText days baseYear prev (c :: cs) = none := by
  unfold runSubText
  show subTextF days baseYear (cs.length + 1 + 1) prev (c :: cs) = _
  simp only [subTextF, hm, hr]

/-! ### No-match lemmas for the text-date pass -/

theorem eq_append_of_nondigit_digit : ∀ {a : List Char} {R pre suf : List Char},
    a ++ R = pre ++ suf → (∀ c ∈ a, c.isDigit = false) → (∀ c ∈ pre, c.isDigit = false) →
    (∃ r R2, R = r :: R2 ∧ r.isDigit = true) → (∃ s S2, suf = s :: S2 ∧ s.isDigit = true) →
    a = pre ∧ R = suf := by
  intro a
  induction a with
  | nil =>
      intro R pre suf heq ha hpre hR hsuf
      obtain ⟨r, R2, rfl, hr⟩ := hR
      cases pre with
      | nil => exact ⟨rfl, by simpa using heq⟩
      | cons p pre2 =>
          exfalso
          simp only [List.nil_append, List.cons_append, List.cons.injEq] at heq
          have : p.isDigit = false := hpre p (by simp)
          rw [← heq.1] at this
          rw [hr] at this
          simp at this
  | cons c a2 ih =>
      intro R pre suf heq ha hpre hR hsuf
      cases pre with
      | nil =>
          exfalso
          obtain ⟨s, S2, rfl, hs⟩ := hsuf
          simp only [List.cons_append, List.nil_append, List.cons.injEq] at heq
          have : c.isDigit = false := ha c (by simp)
          rw [heq.1, hs] at this
          simp at this
      | cons p pre2 =>
          simp only [List.cons_append, List.cons.injEq] at heq
          obtain ⟨rfl, heq2⟩ := heq
          obtain ⟨h1, h2⟩ := ih heq2 (fun x hx => ha x (by simp [hx]))
            (fun x hx => hpre x (by simp [hx])) hR hsuf
          exact ⟨by rw [h1], h2⟩

theorem textMatch_pre_nodigit {tm : TextMatch} (hmem : tm.monthName ∈ allMonthNames)
    (hsps : ∀ c ∈ tm.sp1, isSpaceChar c = true) :
    ∀ c ∈ tm.monthName.toList ++ tm.sp1, c.isDigit = false := by
  intro c hc
  rcases List.mem_append.mp hc with hc2 | hc2
  · exact allMonthNames_nodigit _ hmem c hc2
  · exact isSpaceChar_not_digit (hsps c hc2)

theorem textTryMatch_none_of_nodigits {prev : Option Char} {cs : List Char}
    (h : ∀ c ∈ cs, c.isDigit = false) : textTryMatch prev cs = none := by
  rcases hm : textTryMatch prev cs with _ | ⟨tm, rest⟩
  · rfl
  · exfalso
    obtain ⟨-, hmem, hcs, -, hsps, hday, -⟩ := textTryMatch_sound hm
    have hd1 : ∃ d : Char, d ∈ tm.dayLit ∧ d.isDigit = true := by
      rcases hday with ⟨a, hdl, ha⟩ | ⟨a, b, hdl, ha, hb⟩
      · exact ⟨a, by simp [hdl], ha⟩
      · exact ⟨a, by simp [hdl], ha⟩
    obtain ⟨d, hdmem, hd⟩ := hd1
    have : d ∈ cs := by
      rw [hcs]
      simp [hdmem]
    rw [h d this] at hd
    simp at hd

theorem textTryMatch_none_before_digits {prev : Option Char} {a : List Char}
    {r1 r2 r3 : Char} {R3 : List Char} (ha : ∀ c ∈ a, c.isDigit = false)
    (h1 : r1.isDigit = true) (h2 : r2.isDigit = true) (h3 : r3.isDigit = true) :
    textTryMatch prev (a ++ (r1 :: r2 :: r3 :: R3)) = none := by
  rcases hm : textTryMatch prev (a ++ (r1 :: r2 :: r3 :: R3)) with _ | ⟨tm, rest⟩
  · rfl
  · exfalso
    obtain ⟨-, hmem, hcs, -, hsps, hday, hend, hyp⟩ := textTryMatch_sound hm
    rw [← List.append_assoc] at hcs
    have hsufhead : ∃ s S2, tm.dayLit ++ (yearLits tm ++ rest) = s :: S2 ∧ s.isDigit = true := by
      rcases hday with ⟨d1, hdl, hd1⟩ | ⟨d1, d2, hdl, hd1, -⟩
      · exact ⟨d1, yearLits tm ++ rest, by rw [hdl]; simp, hd1⟩
      · exact ⟨d1, d2 :: (yearLits tm ++ rest), by rw [hdl]; simp, hd1⟩
    obtain ⟨-, hR⟩ := eq_append_of_nondigit_digit hcs ha
      (textMatch_pre_nodigit hmem hsps) ⟨r1, _, rfl, h1⟩ hsufhead
    rcases hday with ⟨d1, hdl, -⟩ | ⟨d1, d2, hdl, -, -⟩
    · rw [hdl] at hR
      simp only [List.cons_append, List.nil_append, List.cons.injEq] at hR
      obtain ⟨-, hR2⟩ := hR
      rcases hy : tm.yearPart with _ | ⟨sp2, yl, yv⟩
      · rw [show yearLits tm = [] by simp [yearLits, hy], List.nil_append] at hR2
        rw [← hR2] at hend
        simp only [endBoundary, Bool.not_eq_true'] at hend
        rw [digit_isWordChar h2] at hend
        simp at hend
      · obtain ⟨hsp2, hsps2, -⟩ := hyp sp2 yl yv hy
        rcases hsp2e : sp2 with _ | ⟨s, sp2t⟩
        · exact hsp2 hsp2e
        · rw [show yearLits tm = sp2 ++ yl by simp [yearLits, hy], hsp2e] at hR2
          simp only [List.cons_append, List.append_assoc, List.cons.injEq] at hR2
          have hs : isSpaceChar s = true := hsps2 s (by simp [hsp2e])
          rw [← hR2.1] at hs
          rw [isSpaceChar_not_digit hs] at h2
          simp at h2
    · rw [hdl] at hR
      simp only [List.cons_append, List.nil_append, List.cons.injEq] at hR
      obtain ⟨-, -, hR2⟩ := hR
      rcases hy : tm.yearPart with _ | ⟨sp2, yl, yv⟩
      · rw [show yearLits tm = [] by simp [yearLits, hy], List.nil_append] at hR2
        rw [← hR2] at hend
        simp only [endBoundary, Bool.not_eq_true'] at hend
        rw [digit_isWordChar h3] at hend
        simp at hend
      · obtain ⟨hsp2, hsps2, -⟩ := hyp sp2 yl yv hy
        rcases hsp2e : sp2 with _ | ⟨s, sp2t⟩
        · exact hsp2 hsp2e
        · rw [show yearLits tm = sp2 ++ yl by simp [yearLits, hy], hsp2e] at hR2
          simp only [List.cons_append, List.append_assoc, List.cons.injEq] at hR2
          have hs : isSpaceChar s = true := hsps2 s (by simp [hsp2e])
          rw [← hR2.1] at hs
          rw [isSpaceChar_not_digit hs] at h3
          simp at h3

theorem textTryMatch_none_head_notalpha {prev : Option Char} {c : Char} {cs : List Char}
    (h : c.isAlpha = false) : textTryMatch prev (c :: cs) = none := by
  rcases hm : textTryMatch prev (c :: cs) with _ | ⟨tm, rest⟩
  · rfl
  · exfalso
    obtain ⟨-, hmem, hcs, -⟩ := textTryMatch_sound hm
    have halpha := allMonthNames_head_alpha _ hmem
    rcases hnl : tm.monthName.toList with _ | ⟨c0, cs0⟩
    · exact allMonthNames_ne_nil _ hmem hnl
    · rw [hnl] at hcs halpha
      simp only [List.cons_append, List.cons.injEq] at hcs
      simp only [List.headD_cons] at halpha
      rw [hcs.1, halpha] at h
      simp at h

/-! ### Skipping unmatched regions in the text-date pass -/

theorem runSubText_append_skip {days baseYear : Int} {prev : Option Char} {a R : List Char}
    (ha : ∀ c ∈ a, c.isDigit = false)
    (hR : R = [] ∨ ∃ r1 r2 r3 : Char, ∃ R3 : List Char,
      R = r1 :: r2 :: r3 :: R3 ∧ r1.isDigit = true ∧ r2.isDigit = true ∧ r3.isDigit = true) :
    runSubText days baseYear prev (a ++ R)
      = (runSubText days baseYear (prevAfter a prev) R).map (a ++ ·) := by
  induction a generalizing prev with
  | nil =>
      rw [prevAfter_nil, List.nil_append]
      cases runSubText days baseYear prev R <;> simp
  | cons c a2 ih =>
      have hnone : textTryMatch prev ((c :: a2) ++ R) = none := by
        rcases hR with rfl | ⟨r1, r2, r3, R3, rfl, h1, h2, h3⟩
        · exact textTryMatch_none_of_nodigits (by simpa using ha)
        · exact textTryMatch_none_before_digits ha h1 h2 h3
      rw [List.cons_append] at hnone ⊢
      rw [runSubText_cons_nomatch hnone,
        ih (fun x hx => ha x (by simp [hx])), prevAfter_cons]
      cases runSubText days baseYear (prevAfter a2 (some c)) R <;> simp

theorem runSubText_append_notalpha {days baseYear : Int} {prev : Option Char} {a b : List Char}
    (ha : ∀ c ∈ a, c.isAlpha = false) :
    runSubText days baseYear prev (a ++ b)
      = (runSubText days baseYear (prevAfter a prev) b).map (a ++ ·) := by
  induction a generalizing prev with
  | nil =>
      rw [prevAfter_nil, List.nil_append]
      cases runSubText days baseYear prev b <;> simp
  | cons c a2 ih =>
      rw [List.cons_append,
        runSubText_cons_nomatch (textTryMatch_none_head_notalpha (ha c (by simp))),
        ih (fun x hx => ha x (by simp [hx])), prevAfter_cons]
      cases runSubText days baseYear (prevAfter a2 (some c)) b <;> simp

theorem runSubText_id_of_nodigits {days baseYear : Int} {prev : Option Char} {cs : List Char}
    (h : ∀ c ∈ cs, c.isDigit = false) : runSubText days baseYear prev cs = some cs := by
  have h2 := @runSubText_append_skip days baseYear prev cs [] h (Or.inl rfl)
  rw [runSubText_nil] at h2
  simpa using h2

theorem digitChar_notalpha {d : Nat} (h : d < 10) : (digitChar d).isAlpha = false := by
  interval_cases d <;> decide

theorem renderIsoDate_notalpha {x : Ymd} (hy : x.y.toNat ≤ 9999) (hm : x.m ≤ 99)
    (hd : x.d ≤ 99) : ∀ c ∈ renderIsoDate x, c.isAlpha = false := by
  intro c hc
  rw [renderIsoDate_explicit] at hc
  simp only [List.mem_cons, List.not_mem_nil, or_false] at hc
  rcases hc with rfl | rfl | rfl | rfl | rfl | rfl | rfl | rfl | rfl | rfl
  · exact digitChar_notalpha (by omega)
  · exact digitChar_notalpha (Nat.mod_lt _ (by norm_num))
  · exact digitChar_notalpha (Nat.mod_lt _ (by norm_num))
  · exact digitChar_notalpha (Nat.mod_lt _ (by norm_num))
  · decide
  · exact digitChar_notalpha (by omega)
  · exact digitChar_notalpha (Nat.mod_lt _ (by norm_num))
  · decide
  · exact digitChar_notalpha (by omega)
  · exact digitChar_notalpha (Nat.mod_lt _ (by norm_num))

theorem notalpha_not_monthInitial {c : Char} (h : c.isAlpha = false) :
    ∀ n ∈ allMonthNames, n.toList.headD ' ' ≠ c := by
  intro n hn he
  have := allMonthNames_head_alpha n hn
  rw [he] at this
  rw [this] at h
  simp at h

theorem digitChar_not_monthInitial {d : Nat} (h : d < 10) :
    ∀ n ∈ allMonthNames, n.toList.headD ' ' ≠ digitChar d := by
  exact notalpha_not_monthInitial (digitChar_notalpha h)

theorem textTryMatch_none_head_notinitial {prev : Option Char} {c : Char} {cs : List Char}
    (h : ∀ n ∈ allMonthNames, n.toList.headD ' ' ≠ c) :
    textTryMatch prev (c :: cs) = none := by
  rcases hm : textTryMatch prev (c :: cs) with _ | ⟨tm, rest⟩
  · rfl
  · exfalso
    obtain ⟨-, hmem, hcs, -⟩ := textTryMatch_sound hm
    rcases hnl : tm.monthName.toList with _ | ⟨c0, cs0⟩
    · exact allMonthNames_ne_nil _ hmem hnl
    · have hh := h tm.monthName hmem
      rw [hnl] at hcs hh
      simp only [List.cons_append, List.cons.injEq] at hcs
      simp only [List.headD_cons] at hh
      exact hh hcs.1.symm

theorem runSubText_append_notinitial {days baseYear : Int} {prev : Option Char}
    {a b : List Char} (ha : ∀ c ∈ a, ∀ n ∈ allMonthNames, n.toList.headD ' ' ≠ c) :
    runSubText days baseYear prev (a ++ b)
      = (runSubText days baseYear (prevAfter a prev) b).map (a ++ ·) := by
  induction a generalizing prev with
  | nil =>
      rw [prevAfter_nil, List.nil_append]
      cases runSubText days baseYear prev b <;> simp
  | cons c a2 ih =>
      rw [List.cons_append,
        runSubText_cons_nomatch (textTryMatch_none_head_notinitial (ha c (by simp))),
        ih (fun x hx => ha x (by simp [hx])), prevAfter_cons]
      cases runSubText days baseYear (prevAfter a2 (some c)) b <;> simp

theorem renderIsoTimestamp_notinitial {x : Ymd} {t : Tod} (hy : x.y.toNat ≤ 9999)
    (hm : x.m ≤ 99) (hd : x.d ≤ 99) (hhh : t.hh ≤ 99) (hmi : t.mi ≤ 99) (hss : t.ss ≤ 99) :
    ∀ c ∈ renderIsoTimestamp x t, ∀ n ∈ allMonthNames, n.toList.headD ' ' ≠ c := by
  intro c hc
  rw [renderIsoTimestamp_explicit] at hc
  simp only [List.mem_cons, List.not_mem_nil, or_false] at hc
  rcases hc with rfl | rfl | rfl | rfl | rfl | rfl | rfl | rfl | rfl | rfl | rfl | rfl | rfl |
    rfl | rfl | rfl | rfl | rfl | rfl
  · exact digitChar_not_monthInitial (by omega)
  · exact digitChar_not_monthInitial (Nat.mod_lt _ (by norm_num))
  · exact digitChar_not_monthInitial (Nat.mod_lt _ (by norm_num))
  · exact digitChar_not_monthInitial (Nat.mod_lt _ (by norm_num))
  · decide
  · exact digitChar_not_monthInitial (by omega)
  · exact digitChar_not_monthInitial (Nat.mod_lt _ (by norm_num))
  · decide
  · exact digitChar_not_monthInitial (by omega)
  · exact digitChar_not_monthInitial (Nat.mod_lt _ (by norm_num))
  · decide
  · exact digitChar_not_monthInitial (by omega)
  · exact digitChar_not_monthInitial (Nat.mod_lt _ (by norm_num))
  · decide
  · exact digitChar_not_monthInitial (by omega)
  · exact digitChar_not_monthInitial (Nat.mod_lt _ (by norm_num))
  · decide
  · exact digitChar_not_monthInitial (by omega)
  · exact digitChar_not_monthInitial (Nat.mod_lt _ (by norm_num))

/-! ### Shape of the unpadded decimal rendering -/

theorem renderNatF_small {f n : Nat} (hf : 1 ≤ f) (h : n < 10) :
    renderNatF f n = [digitChar n] := by
  cases f with
  | zero => omega
  | succ f => simp only [renderNatF, if_pos h]

theorem renderNatF_step {f n : Nat} (hf : 1 ≤ f) (h : ¬ n < 10) :
    renderNatF f n = renderNatF (f - 1) (n / 10) ++ [digitChar (n % 10)] := by
  cases f with
  | zero => omega
  | succ f => simp only [renderNatF, if_neg h, Nat.add_sub_cancel]

theorem renderNat_one {n : Nat} (h : n < 10) : renderNat n = [digitChar n] :=
  renderNatF_small (by norm_num) h

theorem renderNat_two {n : Nat} (h1 : 10 ≤ n) (h2 : n < 100) :
    renderNat n = [digitChar (n / 10), digitChar (n % 10)] := by
  unfold renderNat
  rw [renderNatF_step (by norm_num) (by omega),
    renderNatF_small (by norm_num) (by omega)]
  rfl

theorem renderNat_four {n : Nat} (h1 : 1000 ≤ n) (h2 : n ≤ 9999) :
    renderNat n = pad4 n := by
  unfold renderNat
  rw [renderNatF_step (by norm_num) (by omega),
    renderNatF_step (by norm_num) (by omega),
    renderNatF_step (by norm_num) (by omega),
    renderNatF_small (by norm_num) (by omega)]
  have e3 : n / 10 / 10 / 10 = n / 1000 := by omega
  have e2 : n / 10 / 10 % 10 = n / 100 % 10 := by omega
  rw [e3, e2]
  rfl

/-! ### Completeness of the text-date match at canonical literals -/

theorem isDigit_not_space {c : Char} (h : c.isDigit = true) : isSpaceChar c = false := by
  cases hs : isSpaceChar c with
  | false => rfl
  | true =>
      have h2 := isSpaceChar_not_digit hs
      rw [h] at h2
      simp at h2

theorem monthCont_day1 {name : String} {a : Char} (ha : a.isDigit = true) :
    monthCont name (' ' :: [a]) = some (⟨name, [' '], [a], digitVal a, none⟩, []) := by
  have hsp : isSpaceChar a = false := isDigit_not_space ha
  simp [monthCont, dayCont, yearCont, List.takeWhile_cons, hsp, ha, endBoundary,
    show isSpaceChar ' ' = true from by decide]

theorem monthCont_day2 {name : String} {a b : Char} (ha : a.isDigit = true)
    (hb : b.isDigit = true) :
    monthCont name (' ' :: [a, b])
      = some (⟨name, [' '], [a, b], 10 * digitVal a + digitVal b, none⟩, []) := by
  have hsp : isSpaceChar a = false := isDigit_not_space ha
  simp [monthCont, dayCont, yearCont, List.takeWhile_cons, hsp, ha, hb, endBoundary,
    show isSpaceChar ' ' = true from by decide]

theorem monthCont_day1_year {name : String} {a y1 y2 y3 y4 : Char} (ha : a.isDigit = true)
    (h1 : y1.isDigit = true) (h2 : y2.isDigit = true) (h3 : y3.isDigit = true)
    (h4 : y4.isDigit = true) :
    monthCont name (' ' :: a :: ' ' :: [y1, y2, y3, y4])
      = some (⟨name, [' '], [a], digitVal a,
          some ([' '], [y1, y2, y3, y4],
            digitVal y1 * 1000 + digitVal y2 * 100 + digitVal y3 * 10 + digitVal y4)⟩, []) := by
  have hsp : isSpaceChar a = false := isDigit_not_space ha
  have hsp1 : isSpaceChar y1 = false := isDigit_not_space h1
  simp [monthCont, dayCont, yearCont, List.takeWhile_cons, hsp, hsp1, ha, h1, h2, h3, h4,
    endBoundary, show isSpaceChar ' ' = true from by decide,
    show (' ' : Char).isDigit = false from by decide]

theorem monthCont_day2_year {name : String} {a b y1 y2 y3 y4 : Char} (ha : a.isDigit = true)
    (hb : b.isDigit = true) (h1 : y1.isDigit = true) (h2 : y2.isDigit = true)
    (h3 : y3.isDigit = true) (h4 : y4.isDigit = true) :
    monthCont name (' ' :: a :: b :: ' ' :: [y1, y2, y3, y4])
      = some (⟨name, [' '], [a, b], 10 * digitVal a + digitVal b,
          some ([' '], [y1, y2, y3, y4],
            digitVal y1 * 1000 + digitVal y2 * 100 + digitVal y3 * 10 + digitVal y4)⟩, []) := by
  have hsp : isSpaceChar a = false := isDigit_not_space ha
  have hsp1 : isSpaceChar y1 = false := isDigit_not_space h1
  simp [monthCont, dayCont, yearCont, List.takeWhile_cons, hsp, hsp1, ha, hb, h1, h2, h3, h4,
    endBoundary, show isSpaceChar ' ' = true from by decide,
    show (' ' : Char).isDigit = false from by decide]

theorem monthFullName_mem {m : Nat} (h1 : 1 ≤ m) (h2 : m ≤ 12) :
    monthFullName m ∈ monthNamesFull := by
  interval_cases m <;> decide

theorem tryMonths_complete_full {name : String} (hmem : name ∈ monthNamesFull)
    {ds : List Char} {out : TextMatch × List Char} (h : monthCont name ds = some out) :
    tryMonths allMonthNames (name.toList ++ ds) = some out := by
  fin_cases hmem <;>
    simp [allMonthNames, monthNamesFull, monthNamesShort, tryMonths, List.isPrefixOf, h]

theorem monthToNum_monthFullName {m : Nat} (h1 : 1 ≤ m) (h2 : m ≤ 12) :
    monthToNum (monthFullName m) = some m := by
  interval_cases m <;> rfl

theorem offsetTextDateMatch_zero_noyear {m d : Nat} {baseYear : Int} (h1 : 1 ≤ m)
    (h2 : m ≤ 12) (hv : validYmd ⟨baseYear, m, d⟩ = true)
    (hr : yearInRange ⟨baseYear, m, d⟩ = true) :
    offsetTextDateMatch ⟨monthFullName m, [' '], renderNat d, d, none⟩ 0 baseYear
      = some ((monthFullName m).toList ++ ' ' :: renderNat d) := by
  simp [offsetTextDateMatch, monthToNum_monthFullName h1 h2, shiftDays_zero, hv, hr]

theorem offsetTextDateMatch_zero_year {m d y : Nat} {baseYear : Int} (h1 : 1 ≤ m)
    (h2 : m ≤ 12) (hv : validYmd ⟨(y : Int), m, d⟩ = true)
    (hr : yearInRange ⟨(y : Int), m, d⟩ = true) {sp2 yl : List Char} :
    offsetTextDateMatch ⟨monthFullName m, [' '], renderNat d, d, some (sp2, yl, y)⟩ 0 baseYear
      = some ((monthFullName m).toList ++ ' ' :: (renderNat d ++ ' ' :: renderNat y)) := by
  simp [offsetTextDateMatch, monthToNum_monthFullName h1 h2, shiftDays_zero, hv, hr]

theorem runSubText_match_all {days baseYear : Int} {cs : List Char} {tm : TextMatch}
    {r : List Char} (hm : textTryMatch none cs = some (tm, []))
    (hr : offsetTextDateMatch tm days baseYear = some r) :
    runSubText days baseYear none cs = some r := by
  cases cs with
  | nil =>
      rw [show textTryMatch none ([] : List Char) = none from rfl] at hm
      exact Option.noConfusion hm
  | cons c cs2 =>
      rw [runSubText_cons_match hm hr, runSubText_nil]
      simp

/-! ### Zero-offset identity on canonical text-date literals -/

theorem textTryMatch_start {cs : List Char} :
    textTryMatch none cs = tryMonths allMonthNames cs := by
  simp [textTryMatch, boundaryBefore]

theorem renderNat_day_match {name : String} {d : Nat} (hd1 : 1 ≤ d) (hd2 : d ≤ 31) :
    monthCont name (' ' :: renderNat d) = some (⟨name, [' '], renderNat d, d, none⟩, []) := by
  by_cases h : d < 10
  · rw [renderNat_one h, monthCont_day1 (digitChar_isDigit h), digitVal_digitChar h]
  · rw [renderNat_two (by omega) (by omega),
      monthCont_day2 (digitChar_isDigit (by omega)) (digitChar_isDigit (by omega)),
      digitVal_digitChar (by omega), digitVal_digitChar (by omega)]
    have : 10 * (d / 10) + d % 10 = d := by omega
    rw [this]

theorem renderNat_day_year_match {name : String} {d y : Nat} (hd1 : 1 ≤ d) (hd2 : d ≤ 31)
    (hy1 : 1000 ≤ y) (hy2 : y ≤ 9999) :
    monthCont name (' ' :: (renderNat d ++ ' ' :: renderNat y))
      = some (⟨name, [' '], renderNat d, d, some ([' '], renderNat y, y)⟩, []) := by
  have hy4 : renderNat y = pad4 y := renderNat_four hy1 hy2
  have hyval : digitVal (digitChar (y / 1000)) * 1000 + digitVal (digitChar (y / 100 % 10)) * 100
      + digitVal (digitChar (y / 10 % 10)) * 10 + digitVal (digitChar (y % 10)) = y := by
    rw [digitVal_digitChar (by omega), digitVal_digitChar (by omega),
      digitVal_digitChar (by omega), digitVal_digitChar (by omega)]
    omega
  by_cases h : d < 10
  · rw [renderNat_one h, hy4]
    have hstep := @monthCont_day1_year name (digitChar d) (digitChar (y / 1000))
      (digitChar (y / 100 % 10)) (digitChar (y / 10 % 10)) (digitChar (y % 10))
      (digitChar_isDigit h) (digitChar_isDigit (by omega)) (digitChar_isDigit (by omega))
      (digitChar_isDigit (by omega)) (digitChar_isDigit (by omega))
    rw [show ([digitChar d] ++ ' ' :: pad4 y)
        = digitChar d :: ' ' :: [digitChar (y / 1000), digitChar (y / 100 % 10),
            digitChar (y / 10 % 10), digitChar (y % 10)] from rfl]
    rw [hstep, digitVal_digitChar h, hyval]
    rfl
  · rw [renderNat_two (by omega) (by omega), hy4]
    have hstep := @monthCont_day2_year name (digitChar (d / 10)) (digitChar (d % 10))
      (digitChar (y / 1000)) (digitChar (y / 100 % 10)) (digitChar (y / 10 % 10))
      (digitChar (y % 10)) (digitChar_isDigit (by omega)) (digitChar_isDigit (by omega))
      (digitChar_isDigit (by omega)) (digitChar_isDigit (by omega))
      (digitChar_isDigit (by omega)) (digitChar_isDigit (by omega))
    rw [show ([digitChar (d / 10), digitChar (d % 10)] ++ ' ' :: pad4 y)
        = digitChar (d / 10) :: digitChar (d % 10) :: ' ' :: [digitChar (y / 1000),
            digitChar (y / 100 % 10), digitChar (y / 10 % 10), digitChar (y % 10)] from rfl]
    rw [hstep, digitVal_digitChar (show d / 10 < 10 by omega), digitVal_digitChar (by omega),
      hyval]
    have : 10 * (d / 10) + d % 10 = d := by omega
    rw [this]
    rfl

theorem offsetTextDates_zero_noyear {m d : Nat} {baseYear : Int} (h1 : 1 ≤ m) (h2 : m ≤ 12)
    (hd1 : 1 ≤ d) (hd2 : d ≤ 31) (hv : validYmd ⟨baseYear, m, d⟩ = true)
    (hr : yearInRange ⟨baseYear, m, d⟩ = true) :
    offsetTextDates (String.mk ((monthFullName m).toList ++ ' ' :: renderNat d)) 0 baseYear
      = some (String.mk ((monthFullName m).toList ++ ' ' :: renderNat d)) := by
  unfold offsetTextDates
  rw [toList_mk]
  have hm : textTryMatch none ((monthFullName m).toList ++ ' ' :: renderNat d)
      = some (⟨monthFullName m, [' '], renderNat d, d, none⟩, []) := by
    rw [textTryMatch_start]
    exact tryMonths_complete_full (monthFullName_mem h1 h2) (renderNat_day_match hd1 hd2)
  rw [runSubText_match_all hm (offsetTextDateMatch_zero_noyear h1 h2 hv hr)]
  rfl

theorem offsetTextDates_zero_year {m d y : Nat} {baseYear : Int} (h1 : 1 ≤ m) (h2 : m ≤ 12)
    (hd1 : 1 ≤ d) (hd2 : d ≤ 31) (hy1 : 1000 ≤ y) (hy2 : y ≤ 9999)
    (hv : validYmd ⟨(y : Int), m, d⟩ = true) :
    offsetTextDates
        (String.mk ((monthFullName m).toList ++ ' ' :: (renderNat d ++ ' ' :: renderNat y)))
        0 baseYear
      = some (String.mk ((monthFullName m).toList ++ ' ' :: (renderNat d ++ ' ' :: renderNat y)))
      := by
  unfold offsetTextDates
  rw [toList_mk]
  have hm : textTryMatch none ((monthFullName m).toList ++ ' ' :: (renderNat d ++ ' ' :: renderNat y))
      = some (⟨monthFullName m, [' '], renderNat d, d, some ([' '], renderNat y, y)⟩, []) := by
    rw [textTryMatch_start]
    exact tryMonths_complete_full (monthFullName_mem h1 h2)
      (renderNat_day_year_match hd1 hd2 hy1 hy2)
  have hrange : yearInRange ⟨(y : Int), m, d⟩ = true := by
    simp [yearInRange]
    omega
  rw [runSubText_match_all hm (offsetTextDateMatch_zero_year h1 h2 hv hrange)]
  rfl

/-- C4.  As stated over all four formats the claim fails: an abbreviated
month name is rewritten to the full name even at offset 0 ("Jan 5" becomes
"January 5").  Amended statement: the zero-offset identity holds for ISO
dates, ISO timestamps, and text dates written with the *full* month name,
an unpadded day, and (optionally) a four-digit year. -/
theorem C4_offset_zero_identity :
    (∀ x : Ymd, validYmd x = true → yearInRange x = true →
      offsetIsoDate (String.mk (renderIsoDate x)) 0 = some (String.mk (renderIsoDate x))) ∧
    (∀ (x : Ymd) (t : Tod), validYmd x = true → yearInRange x = true → validTod t = true →
      offsetIsoTimestamp (String.mk (renderIsoTimestamp x t)) 0
        = some (String.mk (renderIsoTimestamp x t))) ∧
    (∀ (m d : Nat) (baseYear : Int), 1 ≤ m → m ≤ 12 → 1 ≤ d → d ≤ 31 →
      validYmd ⟨baseYear, m, d⟩ = true → yearInRange ⟨baseYear, m, d⟩ = true →
      offsetTextDates (String.mk ((monthFullName m).toList ++ ' ' :: renderNat d)) 0 baseYear
        = some (String.mk ((monthFullName m).toList ++ ' ' :: renderNat d))) ∧
    (∀ (m d y : Nat) (baseYear : Int), 1 ≤ m → m ≤ 12 → 1 ≤ d → d ≤ 31 →
      1000 ≤ y → y ≤ 9999 → validYmd ⟨(y : Int), m, d⟩ = true →
      offsetTextDates
          (String.mk ((monthFullName m).toList ++ ' ' :: (renderNat d ++ ' ' :: renderNat y)))
          0 baseYear
        = some (String.mk ((monthFullName m).toList ++ ' ' :: (renderNat d ++ ' ' :: renderNat y))))
    := by
  refine ⟨fun x hv hr => ?_, fun x t hv hr ht => ?_,
    fun m d baseYear h1 h2 hd1 hd2 hv hr => offsetTextDates_zero_noyear h1 h2 hd1 hd2 hv hr,
    fun m d y baseYear h1 h2 hd1 hd2 hy1 hy2 hv =>
      offsetTextDates_zero_year h1 h2 hd1 hd2 hy1 hy2 hv⟩
  · have h := @offsetIsoDate_of_parse (String.mk (renderIsoDate x)) x 0
      (by rw [toList_mk]; exact parseIsoDate_render hv hr) (by rw [shiftDays_zero]; exact hr)
    rwa [shiftDays_zero] at h
  · have h := @offsetIsoTimestamp_of_parse (String.mk (renderIsoTimestamp x t)) x t 0
      (by rw [toList_mk]; exact parseIsoTimestamp_render hv hr ht)
      (by rw [shiftDays_zero]; exact hr)
    rwa [shiftDays_zero] at h

/-- Witness: the amended zero-offset identity at concrete literals of each
of the four canonical forms. -/
theorem C4_offset_zero_identity_witness :
    offsetIsoDate "2024-05-15" 0 = some "2024-05-15" ∧
    offsetIsoTimestamp "2024-05-15T10:00:00" 0 = some "2024-05-15T10:00:00" ∧
    offsetTextDates "May 21" 0 2024 = some "May 21" ∧
    offsetTextDates "January 5 2024" 0 2024 = some "January 5 2024" :=
  ⟨C4_offset_zero_identity.1 ⟨2024, 5, 15⟩ (by decide) (by decide),
    C4_offset_zero_identity.2.1 ⟨2024, 5, 15⟩ ⟨10, 0, 0⟩ (by decide) (by decide) (by decide),
    C4_offset_zero_identity.2.2.1 5 21 2024 (by norm_num) (by norm_num) (by norm_num)
      (by norm_num) (by decide) (by decide),
    C4_offset_zero_identity.2.2.2 1 5 2024 2024 (by norm_num) (by norm_num) (by norm_num)
      (by norm_num) (by norm_num) (by norm_num) (by decide)⟩

/-- Counterexample to C4 as stated: at offset 0 the abbreviated-month date
"Jan 5" is rewritten to "January 5", so the byte-for-byte identity fails
for abbreviated month names. -/
theorem C4_counterexample :
    offsetTextDates "Jan 5" 0 2024 = some "January 5" ∧
    offsetTextDates "Jan 5" 0 2024 ≠ some "Jan 5" := by
  constructor
  · rfl
  · intro h
    rw [show offsetTextDates "Jan 5" 0 2024 = some "January 5" from rfl] at h
    exact absurd h (by decide)

/-! ### A concrete 365-day shift, evaluated in 30-day chunks -/

theorem iterate_chain {f : Ymd → Ymd} {m n : Nat} {x y z : Ymd}
    (h1 : f^[n] x = y) (h2 : f^[m] y = z) : f^[m + n] x = z := by
  rw [Function.iterate_add_apply, h1, h2]

set_option maxRecDepth 4000 in
theorem shiftDays_365_example : shiftDays 365 ⟨2024, 5, 15⟩ = ⟨2025, 5, 15⟩ := by
  have c1 : nextDay^[30] (⟨2024, 5, 15⟩ : Ymd) = ⟨2024, 6, 14⟩ := by decide
  have c2 : nextDay^[30] (⟨2024, 6, 14⟩ : Ymd) = ⟨2024, 7, 14⟩ := by decide
  have c3 : nextDay^[30] (⟨2024, 7, 14⟩ : Ymd) = ⟨2024, 8, 13⟩ := by decide
  have c4 : nextDay^[30] (⟨2024, 8, 13⟩ : Ymd) = ⟨2024, 9, 12⟩ := by decide
  have c5 : nextDay^[30] (⟨2024, 9, 12⟩ : Ymd) = ⟨2024, 10, 12⟩ := by decide
  have c6 : nextDay^[30] (⟨2024, 10, 12⟩ : Ymd) = ⟨2024, 11, 11⟩ := by decide
  have c7 : nextDay^[30] (⟨2024, 11, 11⟩ : Ymd) = ⟨2024, 12, 11⟩ := by decide
  have c8 : nextDay^[30] (⟨2024, 12, 11⟩ : Ymd) = ⟨2025, 1, 10⟩ := by decide
  have c9 : nextDay^[30] (⟨2025, 1, 10⟩ : Ymd) = ⟨2025, 2, 9⟩ := by decide
  have c10 : nextDay^[30] (⟨2025, 2, 9⟩ : Ymd) = ⟨2025, 3, 11⟩ := by decide
  have c11 : nextDay^[30] (⟨2025, 3, 11⟩ : Ymd) = ⟨2025, 4, 10⟩ := by decide
  have c12 : nextDay^[30] (⟨2025, 4, 10⟩ : Ymd) = ⟨2025, 5, 10⟩ := by decide
  have c13 : nextDay^[5] (⟨2025, 5, 10⟩ : Ymd) = ⟨2025, 5, 15⟩ := by decide
  have d2 : nextDay^[60] (⟨2024, 5, 15⟩ : Ymd) = ⟨2024, 7, 14⟩ := by
    rw [show (60 : Nat) = 30 + 30 from rfl, Function.iterate_add_apply, c1, c2]
  have d3 : nextDay^[90] (⟨2024, 5, 15⟩ : Ymd) = ⟨2024, 8, 13⟩ := by
    rw [show (90 : Nat) = 30 + 60 from rfl, Function.iterate_add_apply, d2, c3]
  have d4 : nextDay^[120] (⟨2024, 5, 15⟩ : Ymd) = ⟨2024, 9, 12⟩ := by
    rw [show (120 : Nat) = 30 + 90 from rfl, Function.iterate_add_apply, d3, c4]
  have d5 : nextDay^[150] (⟨2024, 5, 15⟩ : Ymd) = ⟨2024, 10, 12⟩ := by
    rw [show (150 : Nat) = 30 + 120 from rfl, Function.iterate_add_apply, d4, c5]
  have d6 : nextDay^[180] (⟨2024, 5, 15⟩ : Ymd) = ⟨2024, 11, 11⟩ := by
    rw [show (180 : Nat) = 30 + 150 from rfl, Function.iterate_add_apply, d5, c6]
  have d7 : nextDay^[210] (⟨2024, 5, 15⟩ : Ymd) = ⟨2024, 12, 11⟩ := by
    rw [show (210 : Nat) = 30 + 180 from rfl, Function.iterate_add_apply, d6, c7]
  have d8 : nextDay^[240] (⟨2024, 5, 15⟩ : Ymd) = ⟨2025, 1, 10⟩ := by
    rw [show (240 : Nat) = 30 + 210 from rfl, Function.iterate_add_apply, d7, c8]
  have d9 : nextDay^[270] (⟨2024, 5, 15⟩ : Ymd) = ⟨2025, 2, 9⟩ := by
    rw [show (270 : Nat) = 30 + 240 from rfl, Function.iterate_add_apply, d8, c9]
  have d10 : nextDay^[300] (⟨2024, 5, 15⟩ : Ymd) = ⟨2025, 3, 11⟩ := by
    rw [show (300 : Nat) = 30 + 270 from rfl, Function.iterate_add_apply, d9, c10]
  have d11 : nextDay^[330] (⟨2024, 5, 15⟩ : Ymd) = ⟨2025, 4, 10⟩ := by
    rw [show (330 : Nat) = 30 + 300 from rfl, Function.iterate_add_apply, d10, c11]
  have d12 : nextDay^[360] (⟨2024, 5, 15⟩ : Ymd) = ⟨2025, 5, 10⟩ := by
    rw [show (360 : Nat) = 30 + 330 from rfl, Function.iterate_add_apply, d11, c12]
  show nextDay^[365] ⟨2024, 5, 15⟩ = ⟨2025, 5, 15⟩
  rw [show (365 : Nat) = 5 + 360 from rfl, Function.iterate_add_apply, d12, c13]

/-- C6: for every valid in-range ISO date and every integer offset whose
application succeeds, offsetting by `n` and then by `-n` returns the
original date string; in particular `offset_iso_date("2024-05-15", 365)`
is `"2025-05-15"` and `offset_iso_date("2025-05-15", -365)` is
`"2024-05-15"`. -/
theorem C6_offset_negate_roundtrip :
    (∀ (x : Ymd) (t : String) (n : Int), validYmd x = true → yearInRange x = true →
      offsetIsoDate (String.mk (renderIsoDate x)) n = some t →
      offsetIsoDate t (-n) = some (String.mk (renderIsoDate x))) ∧
    offsetIsoDate "2024-05-15" 365 = some "2025-05-15" ∧
    offsetIsoDate "2025-05-15" (-365) = some "2024-05-15" := by
  have hfwd : offsetIsoDate "2024-05-15" 365 = some "2025-05-15" := by
    have hp : parseIsoDate ("2024-05-15" : String).toList = some ⟨2024, 5, 15⟩ := by decide
    have h := @offsetIsoDate_of_parse "2024-05-15" ⟨2024, 5, 15⟩ 365 hp
      (by rw [shiftDays_365_example]; decide)
    rw [shiftDays_365_example] at h
    exact h
  refine ⟨fun x t n hv hr h => offsetIsoDate_cancel hv hr h, hfwd, ?_⟩
  have h := @offsetIsoDate_cancel ⟨2024, 5, 15⟩ "2025-05-15" 365 (by decide) (by decide) hfwd
  exact h

/-- Witness: the round-trip with negation applied at the spec's own
365-day example. -/
theorem C6_offset_negate_roundtrip_witness :
    offsetIsoDate "2025-05-15" (-365) = some "2024-05-15" :=
  C6_offset_negate_roundtrip.1 ⟨2024, 5, 15⟩ "2025-05-15" 365 (by decide) (by decide)
    C6_offset_negate_roundtrip.2.1

/-! ### Bounds extracted from validity, and small glue lemmas -/

theorem daysInMonth_le_31 (y : Int) (m : Nat) : daysInMonth y m ≤ 31 := by
  unfold daysInMonth
  split <;> (try split) <;> omega

theorem validYmd_bounds {x : Ymd} (h : validYmd x = true) : x.m ≤ 99 ∧ x.d ≤ 99 := by
  obtain ⟨-, h2, -, h4⟩ := validYmd_iff.mp h
  have := daysInMonth_le_31 x.y x.m
  omega

theorem yearInRange_toNat {x : Ymd} (h : yearInRange x = true) : x.y.toNat ≤ 9999 := by
  simp only [yearInRange, Bool.and_eq_true, decide_eq_true_eq] at h
  omega

theorem validTod_bounds {t : Tod} (h : validTod t = true) :
    t.hh ≤ 99 ∧ t.mi ≤ 99 ∧ t.ss ≤ 99 := by
  simp only [validTod, Bool.and_eq_true, decide_eq_true_eq] at h
  omega

theorem prevAfter_ne_nil {b : List Char} (h : b ≠ []) (p : Option Char) :
    prevAfter b p = b.getLast? := by
  unfold prevAfter
  cases hg : b.getLast? with
  | none => exact absurd (List.getLast?_eq_none_iff.mp hg) h
  | some c => rfl

theorem endBoundary_append {b x : List Char} (h : b ≠ []) :
    endBoundary (b ++ x) = endBoundary b := by
  cases b with
  | nil => exact absurd rfl h
  | cons c bs => rfl

theorem runSubTs_match_front {days : Int} {prev : Option Char} {cs lit rest : List Char}
    {r : String} (hm : tsTryMatch prev cs = some (lit, rest))
    (hr : offsetIsoTimestamp (String.mk lit) days = some r) :
    runSubTs days prev cs = (runSubTs days lit.getLast? rest).map (r.toList ++ ·) := by
  obtain ⟨-, hl, hcs, -⟩ := tsTryMatch_some hm
  cases cs with
  | nil =>
      exfalso
      have := congrArg List.length hcs
      simp only [List.length_nil, List.length_append, hl] at this
      omega
  | cons c cs2 => exact runSubTs_cons_match hm hr

theorem runSubDate_match_front {days : Int} {prev : Option Char} {cs lit rest : List Char}
    {r : String} (hm : dateTryMatch prev cs = some (lit, rest))
    (hr : offsetIsoDate (String.mk lit) days = some r) :
    runSubDate days prev cs = (runSubDate days lit.getLast? rest).map (r.toList ++ ·) := by
  obtain ⟨-, hl, hcs, -⟩ := dateTryMatch_some hm
  cases cs with
  | nil =>
      exfalso
      have := congrArg List.length hcs
      simp only [List.length_nil, List.length_append, hl] at this
      omega
  | cons c cs2 => exact runSubDate_cons_match hm hr

theorem runSubTs_id_of_nodigits {days : Int} {prev : Option Char} {cs : List Char}
    (h : ∀ c ∈ cs, c.isDigit = false) : runSubTs days prev cs = some cs := by
  have h2 := @runSubTs_append_nodigit days prev cs [] h
  rw [runSubTs_nil] at h2
  simpa using h2

theorem runSubDate_id_of_nodigits {days : Int} {prev : Option Char} {cs : List Char}
    (h : ∀ c ∈ cs, c.isDigit = false) : runSubDate days prev cs = some cs := by
  have h2 := @runSubDate_append_nodigit days prev cs [] h
  rw [runSubDate_nil] at h2
  simpa using h2

theorem renderTs_headdigits {x : Ymd} {t : Tod} (hy : x.y.toNat ≤ 9999) (rest : List Char) :
    ∃ r1 r2 r3 R3, renderIsoTimestamp x t ++ rest = r1 :: r2 :: r3 :: R3 ∧
      r1.isDigit = true ∧ r2.isDigit = true ∧ r3.isDigit = true :=
  ⟨digitChar (x.y.toNat / 1000), digitChar (x.y.toNat / 100 % 10),
    digitChar (x.y.toNat / 10 % 10),
    digitChar (x.y.toNat % 10) :: '-' :: digitChar (x.m / 10) :: digitChar (x.m % 10) :: '-' ::
      digitChar (x.d / 10) :: digitChar (x.d % 10) :: 'T' ::
      digitChar (t.hh / 10) :: digitChar (t.hh % 10) :: ':' ::
      digitChar (t.mi / 10) :: digitChar (t.mi % 10) :: ':' ::
      digitChar (t.ss / 10) :: digitChar (t.ss % 10) :: rest,
    by rw [renderIsoTimestamp_explicit]; rfl, digitChar_isDigit (by omega),
    digitChar_isDigit (by omega), digitChar_isDigit (by omega)⟩

theorem renderDate_headdigits {x : Ymd} (hy : x.y.toNat ≤ 9999) (rest : List Char) :
    ∃ r1 r2 r3 R3, renderIsoDate x ++ rest = r1 :: r2 :: r3 :: R3 ∧
      r1.isDigit = true ∧ r2.isDigit = true ∧ r3.isDigit = true :=
  ⟨digitChar (x.y.toNat / 1000), digitChar (x.y.toNat / 100 % 10),
    digitChar (x.y.toNat / 10 % 10),
    digitChar (x.y.toNat % 10) :: '-' :: digitChar (x.m / 10) :: digitChar (x.m % 10) :: '-' ::
      digitChar (x.d / 10) :: digitChar (x.d % 10) :: rest,
    by rw [renderIsoDate_explicit]; rfl, digitChar_isDigit (by omega),
    digitChar_isDigit (by omega), digitChar_isDigit (by omega)⟩

/-- C3: in `offset_all_dates_in_text`, ISO timestamps are substituted
strictly before bare ISO dates.  For any text `a ++ ts ++ b ++ date ++ c`
holding one ISO timestamp and one separate bare ISO date between digit-free
ASCII context regions with word boundaries, one pass transforms the
timestamp as a unit (never splitting it into a date plus a stale time
suffix), one pass transforms the bare date, and no region is visited
twice: the result is exactly `a ++ ts' ++ b ++ date' ++ c`. -/
theorem C3_timestamp_before_date {a b c : List Char} {x y : Ymd} {t : Tod}
    {days baseYear : Int}
    (hvx : validYmd x = true) (hrx : yearInRange x = true) (htod : validTod t = true)
    (hvy : validYmd y = true) (hry : yearInRange y = true)
    (hsx : yearInRange (shiftDays days x) = true)
    (hsy : yearInRange (shiftDays days y) = true)
    (ha : ∀ ch ∈ a, ch.isDigit = false) (haA : ∀ ch ∈ a, ch.toNat < 128)
    (ha2 : boundaryBefore (prevAfter a none) = true)
    (hbne : b ≠ []) (hbdig : ∀ ch ∈ b, ch.isDigit = false)
    (hbA : ∀ ch ∈ b, ch.toNat < 128)
    (hb1 : endBoundary b = true) (hblast : boundaryBefore b.getLast? = true)
    (hc : ∀ ch ∈ c, ch.isDigit = false) (hcA : ∀ ch ∈ c, ch.toNat < 128)
    (hc1 : endBoundary c = true) :
    offsetAllDatesInText
        (String.mk (a ++ (renderIsoTimestamp x t ++ (b ++ (renderIsoDate y ++ c)))))
        days baseYear
      = some (String.mk (a ++ (renderIsoTimestamp (shiftDays days x) t ++
          (b ++ (renderIsoDate (shiftDays days y) ++ c))))) := by
  obtain ⟨hxm, hxd⟩ := validYmd_bounds hvx
  have hxy := yearInRange_toNat hrx
  obtain ⟨hth, htm, hts⟩ := validTod_bounds htod
  obtain ⟨hym, hyd⟩ := validYmd_bounds hvy
  have hyy := yearInRange_toNat hry
  obtain ⟨hxm2, hxd2⟩ := validYmd_bounds (validYmd_shiftDays hvx days)
  have hxy2 := yearInRange_toNat hsx
  obtain ⟨hym2, hyd2⟩ := validYmd_bounds (validYmd_shiftDays hvy days)
  have hyy2 := yearInRange_toNat hsy
  have hoff1 : offsetIsoTimestamp (String.mk (renderIsoTimestamp x t)) days
      = some (String.mk (renderIsoTimestamp (shiftDays days x) t)) :=
    offsetIsoTimestamp_of_parse
      (by rw [toList_mk]; exact parseIsoTimestamp_render hvx hrx htod) hsx
  have hoff2 : offsetIsoDate (String.mk (renderIsoDate y)) days
      = some (String.mk (renderIsoDate (shiftDays days y))) :=
    offsetIsoDate_of_parse (by rw [toList_mk]; exact parseIsoDate_render hvy hry) hsy
  have hmatch1 : tsTryMatch (prevAfter a none)
      (renderIsoTimestamp x t ++ (b ++ (renderIsoDate y ++ c)))
      = some (renderIsoTimestamp x t, b ++ (renderIsoDate y ++ c)) :=
    tsTryMatch_render hxy hxm hxd hth htm hts ha2
      (by rw [endBoundary_append hbne]; exact hb1)
  have hmatch2 : dateTryMatch b.getLast? (renderIsoDate y ++ c)
      = some (renderIsoDate y, c) :=
    dateTryMatch_render hyy hym hyd hblast hc1
  have hpass1 : runSubTs days none
      (a ++ (renderIsoTimestamp x t ++ (b ++ (renderIsoDate y ++ c))))
      = some (a ++ (renderIsoTimestamp (shiftDays days x) t ++
          (b ++ (renderIsoDate y ++ c)))) := by
    rw [runSubTs_append_nodigit ha, runSubTs_match_front hmatch1 hoff1,
      runSubTs_append_nodigit hbdig, runSubTs_skip_renderDate hc1,
      runSubTs_id_of_nodigits hc]
    simp
  have hpass2 : runSubDate days none
      (a ++ (renderIsoTimestamp (shiftDays days x) t ++ (b ++ (renderIsoDate y ++ c))))
      = some (a ++ (renderIsoTimestamp (shiftDays days x) t ++
          (b ++ (renderIsoDate (shiftDays days y) ++ c)))) := by
    rw [runSubDate_append_nodigit ha,
      runSubDate_skip_renderTs (by rw [endBoundary_append hbne]; exact hb1),
      runSubDate_append_nodigit hbdig, prevAfter_ne_nil hbne,
      runSubDate_match_front hmatch2 hoff2, runSubDate_id_of_nodigits hc]
    simp
  have hpass3 : runSubText days baseYear none
      (a ++ (renderIsoTimestamp (shiftDays days x) t ++
        (b ++ (renderIsoDate (shiftDays days y) ++ c))))
      = some (a ++ (renderIsoTimestamp (shiftDays days x) t ++
          (b ++ (renderIsoDate (shiftDays days y) ++ c)))) := by
    rw [runSubText_append_skip ha (Or.inr (renderTs_headdigits hxy2 _)),
      runSubText_append_notinitial
        (renderIsoTimestamp_notinitial hxy2 hxm2 hxd2 hth htm hts),
      runSubText_append_skip hbdig (Or.inr (renderDate_headdigits hyy2 _)),
      runSubText_append_notalpha (renderIsoDate_notalpha hyy2 hym2 hyd2),
      runSubText_id_of_nodigits hc]
    simp
  simp only [offsetAllDatesInText, toList_mk, hpass1, hpass2, hpass3, Option.map_some]
  rfl

/-- Witness: one pass over a text holding a timestamp and a separate bare
date, at offset 1. -/
theorem C3_timestamp_before_date_witness :
    offsetAllDatesInText "on 2024-05-15T10:00:00 and 2024-06-01 ok" 1 2024
      = some "on 2024-05-16T10:00:00 and 2024-06-02 ok" :=
  @C3_timestamp_before_date ['o', 'n', ' '] [' ', 'a', 'n', 'd', ' '] [' ', 'o', 'k']
    ⟨2024, 5, 15⟩ ⟨2024, 6, 1⟩ ⟨10, 0, 0⟩ 1 2024
    (by decide) (by decide) (by decide) (by decide) (by decide) (by decide) (by decide)
    (by decide) (by decide) (by decide) (by decide) (by decide) (by decide) (by decide)
    (by decide) (by decide) (by decide) (by decide)

/-- C2.  As stated over all four formats the claim fails: an invalid
calendar date reached through the ISO-date path raises an uncaught
`ValueError` (e.g. "2024-02-30").  Amended statement: the soft-fail
behaviour holds for the text-date engine only — a match whose month name
is unrecognized, or whose month/day/year combination is not a valid
calendar date, is replaced by its own original substring for every
integer offset, and a whole text-date pass over such a literal returns
the text unchanged. -/
theorem C2_soft_fail_text_only :
    (∀ (tm : TextMatch) (days baseYear : Int), monthToNum tm.monthName = none →
      offsetTextDateMatch tm days baseYear = some (textMatchGroup0 tm)) ∧
    (∀ (tm : TextMatch) (days baseYear : Int) (m : Nat),
      monthToNum tm.monthName = some m →
      validYmd ⟨(match tm.yearPart with
          | some (_, _, yv) => ((yv : Nat) : Int)
          | none => baseYear), m, tm.dayVal⟩ = false →
      offsetTextDateMatch tm days baseYear = some (textMatchGroup0 tm)) ∧
    (∀ days baseYear : Int,
      offsetTextDates "February 30" days baseYear = some "February 30") := by
  refine ⟨fun tm days baseYear h => by simp [offsetTextDateMatch, h],
    fun tm days baseYear m hm hv => ?_, fun days baseYear => ?_⟩
  · simp only [offsetTextDateMatch, hm]
    rw [if_neg]
    simp only [hv, Bool.false_and, Bool.false_eq_true, not_false_eq_true]
  · unfold offsetTextDates
    rw [show ("February 30" : String).toList = "February".toList ++ (' ' :: ['3', '0'])
      from rfl]
    have hmm : textTryMatch none ("February".toList ++ (' ' :: ['3', '0']))
        = some (⟨"February", [' '], ['3', '0'], 10 * digitVal '3' + digitVal '0', none⟩, []) := by
      rw [textTryMatch_start]
      exact tryMonths_complete_full (by decide) (monthCont_day2 (by decide) (by decide))
    have hval : validYmd ⟨baseYear, 2, (30 : Nat)⟩ = false := by
      rw [Bool.eq_false_iff]
      intro hv
      obtain ⟨-, -, -, h4⟩ := validYmd_iff.mp hv
      simp only [daysInMonth] at h4
      split at h4 <;> omega
    have hr : offsetTextDateMatch
        ⟨"February", [' '], ['3', '0'], 10 * digitVal '3' + digitVal '0', none⟩ days baseYear
        = some (textMatchGroup0
            ⟨"February", [' '], ['3', '0'], 10 * digitVal '3' + digitVal '0', none⟩) := by
      simp only [offsetTextDateMatch, show monthToNum "February" = some 2 from rfl,
        show 10 * digitVal '3' + digitVal '0' = 30 from by decide]
      rw [if_neg]
      simp only [hval, Bool.false_and, Bool.false_eq_true, not_false_eq_true]
    rw [runSubText_match_all hmm hr]
    rfl

/-- Witness: the soft-fail clauses at a concrete unknown-month match, a
concrete February-30 match, and a whole pass over "February 30". -/
theorem C2_soft_fail_text_only_witness :
    offsetTextDateMatch ⟨"Smarch", [' '], ['1', '3'], 13, none⟩ 250 2024
      = some "Smarch 13".toList ∧
    offsetTextDateMatch ⟨"February", [' '], ['3', '0'], 30, none⟩ 250 2024
      = some "February 30".toList ∧
    offsetTextDates "February 30" 250 2024 = some "February 30" :=
  ⟨C2_soft_fail_text_only.1 ⟨"Smarch", [' '], ['1', '3'], 13, none⟩ 250 2024 (by decide),
    C2_soft_fail_text_only.2.1 ⟨"February", [' '], ['3', '0'], 30, none⟩ 250 2024 2
      (by decide) (by decide),
    C2_soft_fail_text_only.2.2 250 2024⟩

/-- Counterexample to C2 as stated: the invalid calendar date 2024-02-30,
recognized by the bare ISO-date pattern, raises an uncaught `ValueError`
(modelled as `none`) instead of being returned unchanged. -/
theorem C2_counterexample : offsetAllDatesInText "2024-02-30" 1 2024 = none := by rfl

/-! ## A model of Python JSON values

`JVal` models the values produced by `json.load`: null, booleans,
integers (the numeric fragment used by this repository's data files),
strings, arrays, and objects as insertion-ordered association lists
(Python dicts preserve insertion order; objects read from JSON have
pairwise-distinct keys).  `deepcopy` is the identity on values. -/

inductive JVal where
  | jnull : JVal
  | jbool : Bool → JVal
  | jnum : Int → JVal
  | jstr : String → JVal
  | jarr : List JVal → JVal
  | jobj : List (String × JVal) → JVal

/-- Python truthiness of a JSON value. -/
def jtruthy : JVal → Bool
  | JVal.jnull => false
  | JVal.jbool b => b
  | JVal.jnum n => n != 0
  | JVal.jstr s => s.toList != []
  | JVal.jarr [] => false
  | JVal.jarr (_ :: _) => true
  | JVal.jobj [] => false
  | JVal.jobj (_ :: _) => true

/-- Python `p in s` on strings (substring containment). -/
def isSubstr (p s : String) : Bool :=
  (List.range (s.toList.length + 1)).any (fun i => p.toList.isPrefixOf (s.toList.drop i))

/-- Python `key in l` for a list: `==` against each element; a string
compares equal only to an equal string. -/
def strElemEq (key : String) : JVal → Bool
  | JVal.jstr s => s == key
  | _ => false

/-- Python dict assignment `d[k] = x`: replace the value in place when the
key exists, append a new entry otherwise. -/
def setKey : List (String × JVal) → String → JVal → List (String × JVal)
  | [], k, x => [(k, x)]
  | (k', v) :: t, k, x => if k' = k then (k, x) :: t else (k', v) :: setKey t k x

/-- First value stored under a key. -/
def findKey (kvs : List (String × JVal)) (k : String) : Option JVal :=
  (kvs.find? (fun p => p.1 == k)).map (fun p => p.2)

/-- Effectful map in the `Option` monad, short-circuiting on the first
exception, in source order. -/
def mapMO {α β : Type} (f : α → Option β) : List α → Option (List β)
  | [] => some []
  | a :: t =>
      match f a with
      | none => none
      | some b => (mapMO f t).map (b :: ·)

/-- Embedding of the statement pattern
`if key in v and v[key]: v[key] = f(v[key])` on an arbitrary value `v`,
where `f` raises on a non-string argument (`strptime`).  `none` is an
uncaught exception: `in` on a number/bool/None (`TypeError`), subscripting
a list by a string or indexing into a string (`TypeError`), or `f` itself
raising. -/
def keyTransformStep (key : String) (f : String → Option String) (v : JVal) : Option JVal :=
  match v with
  | JVal.jobj kvs =>
      match findKey kvs key with
      | none => some v
      | some w =>
          if jtruthy w then
            match w with
            | JVal.jstr s => (f s).map (fun s2 => JVal.jobj (setKey kvs key (JVal.jstr s2)))
            | _ => none
          else some v
  | JVal.jarr l => if l.any (strElemEq key) then none else some v
  | JVal.jstr s => if isSubstr key s then none else some v
  | _ => none

/-- Embedding of the pattern
`if listKey in v: for item in v[listKey]: <keyTransformStep itemKey>`.
Iterating a dict yields its keys (strings), iterating a string yields
one-character strings; assigning into either raises. -/
def listFieldStep (listKey itemKey : String) (f : String → Option String) (v : JVal) :
    Option JVal :=
  match v with
  | JVal.jobj kvs =>
      match findKey kvs listKey with
      | none => some v
      | some w =>
          match w with
          | JVal.jarr items =>
              (mapMO (keyTransformStep itemKey f) items).map
                (fun items2 => JVal.jobj (setKey kvs listKey (JVal.jarr items2)))
          | JVal.jobj kvs2 =>
              if kvs2.any (fun q => isSubstr itemKey q.1) then none else some v
          | JVal.jstr s =>
              if s.toList.any (fun c => isSubstr itemKey (String.mk [c])) then none
              else some v
          | _ => none
  | JVal.jarr l => if l.any (strElemEq listKey) then none else some v
  | JVal.jstr s => if isSubstr listKey s then none else some v
  | _ => none

/-- Embedding of the pattern
`if key in v: for _, entry in v[key].items(): <transform entry>`, the
entry values transformed in place (keys unchanged). -/
def objSection (key : String) (f : JVal → Option JVal) (v : JVal) : Option JVal :=
  match v with
  | JVal.jobj kvs =>
      match findKey kvs key with
      | none => some v
      | some w =>
          match w with
          | JVal.jobj entries =>
              (mapMO (fun q => (f q.2).map (fun w2 => (q.1, w2))) entries).map
                (fun entries2 => JVal.jobj (setKey kvs key (JVal.jobj entries2)))
          | _ => none
  | JVal.jarr l => if l.any (strElemEq key) then none else some v
  | JVal.jstr s => if isSubstr key s then none else some v
  | _ => none

/-- Embedding of the user branch of `transform_db` (generate_dataset.py
lines 51-59): the top-level `dob`, then each entry of `passengers`. -/
def transformUser (days : Int) (user : JVal) : Option JVal :=
  match keyTransformStep "dob" (fun s => offsetIsoDate s days) user with
  | none => none
  | some u1 => listFieldStep "passengers" "dob" (fun s => offsetIsoDate s days) u1

/-- Embedding of `_transform_flight_status` (generate_dataset.py lines
95-111): the four timestamp fields in order. -/
def transformFlightStatus (days : Int) (status : JVal) : Option JVal :=
  match keyTransformStep "actual_departure_time_est"
      (fun s => offsetIsoTimestamp s days) status with
  | none => none
  | some s1 =>
      match keyTransformStep "actual_arrival_time_est"
          (fun s => offsetIsoTimestamp s days) s1 with
      | none => none
      | some s2 =>
          match keyTransformStep "estimated_departure_time_est"
              (fun s => offsetIsoTimestamp s days) s2 with
          | none => none
          | some s3 =>
              keyTransformStep "estimated_arrival_time_est"
                (fun s => offsetIsoTimestamp s days) s3

/-- `new_dates` built by repeated dict assignment. -/
def buildDict (l : List (String × JVal)) : List (String × JVal) :=
  l.foldl (fun acc q => setKey acc q.1 q.2) []

/-- Embedding of the flight branch of `transform_db` (generate_dataset.py
lines 62-72): each date key offset, each status transformed, the `dates`
dict rebuilt by assignment into a fresh dict. -/
def transformFlight (days : Int) (flight : JVal) : Option JVal :=
  match flight with
  | JVal.jobj kvs =>
      match findKey kvs "dates" with
      | none => some flight
      | some w =>
          match w with
          | JVal.jobj dateEntries =>
              (mapMO (fun (q : String × JVal) =>
                  match offsetIsoDate q.1 days with
                  | none => none
                  | some k2 =>
                      match transformFlightStatus days q.2 with
                      | none => none
                      | some st2 => some (k2, st2)) dateEntries).map
                (fun newEntries =>
                  JVal.jobj (setKey kvs "dates" (JVal.jobj (buildDict newEntries))))
          | _ => none
  | JVal.jarr l => if l.any (strElemEq "dates") then none else some flight
  | JVal.jstr s => if isSubstr "dates" s then none else some flight
  | _ => none

/-- Embedding of the reservation branch of `transform_db`
(generate_dataset.py lines 76-90): `created_at`, then `flights` dates,
then `passengers` DOBs. -/
def transformReservation (days : Int) (res : JVal) : Option JVal :=
  match keyTransformStep "created_at" (fun s => offsetIsoTimestamp s days) res with
  | none => none
  | some r1 =>
      match listFieldStep "flights" "date" (fun s => offsetIsoDate s days) r1 with
      | none => none
      | some r2 => listFieldStep "passengers" "dob" (fun s => offsetIsoDate s days) r2

/-- Embedding of `transform_db` (generate_dataset.py lines 37-92): the
users, flights and reservations sections in order, on a deep copy. -/
def transformDb (db : JVal) (days : Int) : Option JVal :=
  match objSection "users" (transformUser days) db with
  | none => none
  | some d1 =>
      match objSection "flights" (transformFlight days) d1 with
      | none => none
      | some d2 => objSection "reservations" (transformReservation days) d2

/-- The flight-date-key mapping of a dataset: for each flight, its list of
date keys, in order. -/
def flightDateKeys (db : JVal) : List (String × List String) :=
  match db with
  | JVal.jobj kvs =>
      match findKey kvs "flights" with
      | some (JVal.jobj flights) =>
          flights.map (fun q =>
            (q.1,
              match q.2 with
              | JVal.jobj fkvs =>
                  match findKey fkvs "dates" with
                  | some (JVal.jobj ds) => ds.map (fun r => r.1)
                  | _ => []
              | _ => []))
      | _ => []
  | _ => []

/-- Keys that survive repeated dict assignment starting from keys `seen`:
first occurrences, in order. -/
def dedupFrom (seen : List String) : List String → List String
  | [] => []
  | k :: t => if seen.contains k then dedupFrom seen t else k :: dedupFrom (k :: seen) t

/-! ### Association-list lemmas -/

theorem findKey_setKey (kvs : List (String × JVal)) (k : String) (x : JVal) :
    findKey (setKey kvs k x) k = some x := by
  induction kvs with
  | nil => simp [setKey, findKey]
  | cons q t ih =>
      by_cases hq : q.1 = k
      · simp [setKey, hq, findKey]
      · simp only [setKey, if_neg hq]
        simp only [findKey, List.find?_cons] at ih ⊢
        rw [show (q.1 == k) = false from by simp [hq]]
        exact ih

theorem findKey_setKey_ne (kvs : List (String × JVal)) {k k2 : String} (x : JVal)
    (hne : k2 ≠ k) : findKey (setKey kvs k x) k2 = findKey kvs k2 := by
  induction kvs with
  | nil => simp [setKey, findKey, show (k == k2) = false from by simp [Ne.symm hne]]
  | cons q t ih =>
      by_cases hq : q.1 = k
      · simp only [setKey, if_pos hq]
        simp only [findKey, List.find?_cons]
        rw [show (k == k2) = false from by simp [Ne.symm hne],
          show (q.1 == k2) = false from by simp [hq, Ne.symm hne]]
      · simp only [setKey, if_neg hq]
        simp only [findKey, List.find?_cons] at ih ⊢
        cases hq2 : (q.1 == k2) with
        | true => rfl
        | false => exact ih

theorem keys_setKey_mem (kvs : List (String × JVal)) {k : String} (x : JVal)
    (h : k ∈ kvs.map Prod.fst) :
    (setKey kvs k x).map Prod.fst = kvs.map Prod.fst := by
  induction kvs with
  | nil => simp at h
  | cons q t ih =>
      by_cases hq : q.1 = k
      · simp [setKey, hq]
      · simp only [List.map_cons, List.mem_cons] at h
        rcases h with h | h
        · exact absurd h.symm hq
        · simp [setKey, if_neg hq, ih h]

theorem keys_setKey_not_mem (kvs : List (String × JVal)) {k : String} (x : JVal)
    (h : ¬ k ∈ kvs.map Prod.fst) :
    (setKey kvs k x).map Prod.fst = kvs.map Prod.fst ++ [k] := by
  induction kvs with
  | nil => simp [setKey]
  | cons q t ih =>
      simp only [List.map_cons, List.mem_cons, not_or] at h
      have hne : ¬ q.1 = k := fun e => h.1 e.symm
      simp [setKey, if_neg hne, ih h.2]

theorem dedupFrom_congr {s1 s2 : List String} (h : ∀ x, x ∈ s1 ↔ x ∈ s2) :
    ∀ l : List String, dedupFrom s1 l = dedupFrom s2 l
  | [] => rfl
  | k :: t => by
      have hc : s1.contains k = s2.contains k := by
        by_cases hk : k ∈ s1
        · rw [show s1.contains k = true from by simpa using hk,
            show s2.contains k = true from by simpa using (h k).mp hk]
        · have hk2 : k ∉ s2 := fun hx => hk ((h k).mpr hx)
          rw [show s1.contains k = false from by simpa using hk,
            show s2.contains k = false from by simpa using hk2]
      simp only [dedupFrom, hc]
      cases hc2 : s2.contains k with
      | true => simp only [hc2, if_true]; exact dedupFrom_congr h t
      | false =>
          simp only [hc2, Bool.false_eq_true, if_false]
          exact congrArg (k :: ·) (dedupFrom_congr (fun x => by simp [h x]) t)

theorem keys_buildDict_aux (l : List (String × JVal)) :
    ∀ acc : List (String × JVal),
      (l.foldl (fun acc q => setKey acc q.1 q.2) acc).map Prod.fst
        = acc.map Prod.fst ++ dedupFrom (acc.map Prod.fst) (l.map Prod.fst) := by
  induction l with
  | nil => intro acc; simp [dedupFrom]
  | cons q t ih =>
      intro acc
      simp only [List.foldl_cons, List.map_cons, dedupFrom]
      by_cases hq : q.1 ∈ acc.map Prod.fst
      · rw [show (acc.map Prod.fst).contains q.1 = true from by simpa using hq]
        rw [ih (setKey acc q.1 q.2), keys_setKey_mem acc q.2 hq]
        simp
      · rw [show (acc.map Prod.fst).contains q.1 = false from by simpa using hq]
        rw [ih (setKey acc q.1 q.2), keys_setKey_not_mem acc q.2 hq]
        simp only [List.append_assoc, List.singleton_append, List.append_cancel_left_eq]
        exact congrArg (q.1 :: ·)
          (@dedupFrom_congr (acc.map Prod.fst ++ [q.1]) (q.1 :: acc.map Prod.fst)
            (fun x => by simp [or_comm]) (t.map Prod.fst))

theorem keys_buildDict (l : List (String × JVal)) :
    (buildDict l).map Prod.fst = dedupFrom [] (l.map Prod.fst) := by
  have h := keys_buildDict_aux l []
  simpa [buildDict] using h

theorem mem_dedupFrom {x : String} : ∀ {seen l : List String},
    x ∈ dedupFrom seen l ↔ x ∈ l ∧ x ∉ seen := by
  intro seen l
  induction l generalizing seen with
  | nil => simp [dedupFrom]
  | cons k t ih =>
      simp only [dedupFrom]
      cases hc : seen.contains k with
      | true =>
          have hk : k ∈ seen := by simpa using hc
          simp only [if_true, ih, List.mem_cons]
          constructor
          · exact fun ⟨h1, h2⟩ => ⟨Or.inr h1, h2⟩
          · rintro ⟨h1 | h1, h2⟩
            · exact absurd (h1 ▸ hk) h2
            · exact ⟨h1, h2⟩
      | false =>
          have hk : k ∉ seen := by simpa using hc
          simp only [Bool.false_eq_true, if_false, List.mem_cons, ih]
          constructor
          · rintro (rfl | ⟨h1, h2⟩)
            · exact ⟨Or.inl rfl, hk⟩
            · simp only [List.mem_cons, not_or] at h2
              exact ⟨Or.inr h1, h2.2⟩
          · rintro ⟨rfl | h1, h2⟩
            · exact Or.inl rfl
            · by_cases hxk : x = k
              · exact Or.inl hxk
              · exact Or.inr ⟨h1, by simp [hxk, h2]⟩

theorem nodup_dedupFrom : ∀ (seen l : List String), (dedupFrom seen l).Nodup := by
  intro seen l
  induction l generalizing seen with
  | nil => simp [dedupFrom]
  | cons k t ih =>
      simp only [dedupFrom]
      cases hc : seen.contains k with
      | true => exact ih seen
      | false =>
          simp only [Bool.false_eq_true, if_false, List.nodup_cons]
          refine ⟨fun hmem => ?_, ih (k :: seen)⟩
          have := mem_dedupFrom.mp hmem
          simp at this
  termination_by _ l => l.length

theorem dedupFrom_eq_self : ∀ {seen l : List String}, (∀ x ∈ l, x ∉ seen) → l.Nodup →
    dedupFrom seen l = l := by
  intro seen l
  induction l generalizing seen with
  | nil => intro _ _; rfl
  | cons k t ih =>
      intro hdisj hnd
      simp only [dedupFrom]
      rw [show seen.contains k = false from by simpa using hdisj k (by simp)]
      simp only [Bool.false_eq_true, if_false]
      rw [ih ?_ (List.nodup_cons.mp hnd).2]
      intro x hx
      simp only [List.mem_cons, not_or]
      exact ⟨fun e => (List.nodup_cons.mp hnd).1 (e ▸ hx), hdisj x (by simp [hx])⟩

theorem map_dedupFrom {g : String → String} : ∀ {seen l : List String},
    (∀ x, (x ∈ seen ∨ x ∈ l) → ∀ y, (y ∈ seen ∨ y ∈ l) → g x = g y → x = y) →
    (dedupFrom seen l).map g = dedupFrom (seen.map g) (l.map g) := by
  intro seen l
  induction l generalizing seen with
  | nil => intro _; rfl
  | cons k t ih =>
      intro hinj
      simp only [dedupFrom, List.map_cons]
      cases hc : seen.contains k with
      | true =>
          have hk : k ∈ seen := by simpa using hc
          rw [show (seen.map g).contains (g k) = true from by
            simpa using List.mem_map_of_mem g hk]
          simp only [if_true]
          exact ih (fun x hx y hy => hinj x (by tauto) y (by tauto))
      | false =>
          have hk : k ∉ seen := by simpa using hc
          rw [show (seen.map g).contains (g k) = false from ?_]
          · simp only [Bool.false_eq_true, if_false, List.map_cons]
            rw [ih ?_]
            · rfl
            · intro x hx y hy
              refine hinj x ?_ y ?_
              · rcases hx with hx | hx
                · rcases List.mem_cons.mp hx with rfl | hx2
                  · exact Or.inr (by simp)
                  · exact Or.inl hx2
                · exact Or.inr (by simp [hx])
              · rcases hy with hy | hy
                · rcases List.mem_cons.mp hy with rfl | hy2
                  · exact Or.inr (by simp)
                  · exact Or.inl hy2
                · exact Or.inr (by simp [hy])
          · rw [Bool.eq_false_iff]
            intro hcon
            have : g k ∈ seen.map g := by simpa using hcon
            obtain ⟨x, hx, hgx⟩ := List.mem_map.mp this
            exact hk ((hinj x (Or.inl hx) k (Or.inr (by simp)) hgx) ▸ hx)

/-! ### Canonical date strings and injectivity of a successful offset -/

/-- A canonical rendered ISO date (the form `offset_iso_date` outputs). -/
def canonDate (k : String) : Prop :=
  ∃ x : Ymd, validYmd x = true ∧ yearInRange x = true ∧ k = String.mk (renderIsoDate x)

theorem offsetIsoDate_canon {s t : String} {n : Int} (h : offsetIsoDate s n = some t) :
    canonDate t := by
  obtain ⟨x, hp, hr, rfl⟩ := offsetIsoDate_some h
  obtain ⟨hv, -⟩ := parseIsoDate_sound hp
  exact ⟨shiftDays n x, validYmd_shiftDays hv n, hr, rfl⟩

theorem offsetIsoDate_canon_inj {k1 k2 r1 r2 : String} {b : Int}
    (h1 : canonDate k1) (h2 : canonDate k2)
    (e1 : offsetIsoDate k1 b = some r1) (e2 : offsetIsoDate k2 b = some r2)
    (hr : r1 = r2) : k1 = k2 := by
  obtain ⟨x1, hv1, hg1, rfl⟩ := h1
  obtain ⟨x2, hv2, hg2, rfl⟩ := h2
  obtain ⟨z1, hp1, hr1, rfl⟩ := offsetIsoDate_some e1
  obtain ⟨z2, hp2, hr2, he⟩ := offsetIsoDate_some e2
  rw [toList_mk, parseIsoDate_render hv1 hg1] at hp1
  rw [toList_mk, parseIsoDate_render hv2 hg2] at hp2
  obtain rfl : x1 = z1 := by simpa using hp1
  obtain rfl : x2 = z2 := by simpa using hp2
  rw [he] at hr
  have hlist : renderIsoDate (shiftDays b x1) = renderIsoDate (shiftDays b x2) := by
    have := congrArg String.toList hr
    simpa [toList_mk] using this
  have hx : shiftDays b x1 = shiftDays b x2 := by
    have p1 := parseIsoDate_render (validYmd_shiftDays hv1 b) hr1
    have p2 := parseIsoDate_render (validYmd_shiftDays hv2 b) hr2
    rw [hlist, p2] at p1
    simpa using p1.symm
  have := congrArg (shiftDays (-b)) hx
  rw [shiftDays_cancel hv1, shiftDays_cancel hv2] at this
  rw [this]

/-! ### Pointwise reading of `mapMO` -/

theorem mapMO_forall2 {α β : Type} {f : α → Option β} :
    ∀ {l : List α} {l' : List β}, mapMO f l = some l' →
      List.Forall₂ (fun x y => f x = some y) l l'
  | [], l', h => by
      simp only [mapMO, Option.some.injEq] at h
      rw [← h]
      exact List.Forall₂.nil
  | a :: t, l', h => by
      simp only [mapMO] at h
      rcases hfa : f a with _ | b <;> rw [hfa] at h
      · exact Option.noConfusion h
      · rcases hmt : mapMO f t with _ | t' <;> rw [hmt] at h
        · exact Option.noConfusion h
        · replace h : b :: t' = l' := by simpa using h
          rw [← h]
          exact List.Forall₂.cons hfa (mapMO_forall2 hmt)

theorem forall2_mem_left {α β : Type} {R : α → β → Prop} :
    ∀ {l : List α} {l' : List β}, List.Forall₂ R l l' → ∀ x ∈ l, ∃ y ∈ l', R x y := by
  intro l l' h
  induction h with
  | nil => intro x hx; simp at hx
  | cons hr _ ih =>
      intro x hx
      rcases List.mem_cons.mp hx with rfl | hx2
      · exact ⟨_, by simp, hr⟩
      · obtain ⟨y, hy, hry⟩ := ih x hx2
        exact ⟨y, by simp [hy], hry⟩

theorem forall2_map_eq {α β : Type} {R : α → β → Prop} {g : α → β}
    (hg : ∀ a b, R a b → g a = b) :
    ∀ {l : List α} {l' : List β}, List.Forall₂ R l l' → l' = l.map g := by
  intro l l' h
  induction h with
  | nil => rfl
  | cons hr _ ih => simp [ih, hg _ _ hr]

theorem forall2_keys (R : String → String → Prop) {entries m : List (String × JVal)}
    (h : List.Forall₂ (fun (q q' : String × JVal) => R q.1 q'.1) entries m) :
    List.Forall₂ R (entries.map Prod.fst) (m.map Prod.fst) := by
  induction h with
  | nil => exact List.Forall₂.nil
  | cons hr _ ih => exact List.Forall₂.cons hr ih

theorem forall2_mem_right {α β : Type} {R : α → β → Prop} :
    ∀ {l : List α} {l' : List β}, List.Forall₂ R l l' → ∀ y ∈ l', ∃ x ∈ l, R x y := by
  intro l l' h
  induction h with
  | nil => intro y hy; simp at hy
  | cons hr _ ih =>
      intro y hy
      rcases List.mem_cons.mp hy with rfl | hy2
      · exact ⟨_, by simp, hr⟩
      · obtain ⟨x, hx, hrx⟩ := ih y hy2
        exact ⟨x, by simp [hx], hrx⟩

/-- The total key map that agrees with a successful `offset_iso_date`. -/
def offsetKeyFun (n : Int) (k : String) : String := (offsetIsoDate k n).getD k

theorem offsetKeyFun_eq {n : Int} {k r : String} (h : offsetIsoDate k n = some r) :
    offsetKeyFun n k = r := by simp [offsetKeyFun, h]

/-- Date keys of one flight object. -/
def datesKeysOf (flight : JVal) : List String :=
  match flight with
  | JVal.jobj fkvs =>
      match findKey fkvs "dates" with
      | some (JVal.jobj ds) => ds.map Prod.fst
      | _ => []
  | _ => []

theorem transformFlight_comp_keys {a b : Int} {flight f1 f2 f3 : JVal}
    (h1 : transformFlight a flight = some f1)
    (h2 : transformFlight b f1 = some f2)
    (h3 : transformFlight (a + b) flight = some f3) :
    datesKeysOf f2 = datesKeysOf f3 := by
  cases flight with
  | jnull => exact Option.noConfusion h1
  | jbool v => exact Option.noConfusion h1
  | jnum v => exact Option.noConfusion h1
  | jstr s =>
      replace h1 : (if isSubstr "dates" s = true then none else some (JVal.jstr s))
          = some f1 := h1
      replace h3 : (if isSubstr "dates" s = true then none else some (JVal.jstr s))
          = some f3 := h3
      by_cases hs : isSubstr "dates" s = true
      · rw [if_pos hs] at h1
        exact Option.noConfusion h1
      · rw [if_neg hs] at h1 h3
        obtain rfl : JVal.jstr s = f1 := by simpa using h1
        obtain rfl : JVal.jstr s = f3 := by simpa using h3
        replace h2 : (if isSubstr "dates" s = true then none else some (JVal.jstr s))
            = some f2 := h2
        rw [if_neg hs] at h2
        obtain rfl : JVal.jstr s = f2 := by simpa using h2
        rfl
  | jarr l =>
      replace h1 : (if l.any (strElemEq "dates") = true then none else some (JVal.jarr l))
          = some f1 := h1
      replace h3 : (if l.any (strElemEq "dates") = true then none else some (JVal.jarr l))
          = some f3 := h3
      by_cases hs : l.any (strElemEq "dates") = true
      · rw [if_pos hs] at h1
        exact Option.noConfusion h1
      · rw [if_neg hs] at h1 h3
        obtain rfl : JVal.jarr l = f1 := by simpa using h1
        obtain rfl : JVal.jarr l = f3 := by simpa using h3
        replace h2 : (if l.any (strElemEq "dates") = true then none else some (JVal.jarr l))
            = some f2 := h2
        rw [if_neg hs] at h2
        obtain rfl : JVal.jarr l = f2 := by simpa using h2
        rfl
  | jobj kvs =>
      simp only [transformFlight] at h1 h3
      rcases hfk : findKey kvs "dates" with _ | w <;> rw [hfk] at h1 h3
      · obtain rfl : JVal.jobj kvs = f1 := by simpa using h1
        obtain rfl : JVal.jobj kvs = f3 := by simpa using h3
        simp only [transformFlight] at h2
        rw [hfk] at h2
        obtain rfl : JVal.jobj kvs = f2 := by simpa using h2
        rfl
      · cases w with
        | jnull => exact Option.noConfusion h1
        | jbool v => exact Option.noConfusion h1
        | jnum v => exact Option.noConfusion h1
        | jstr s2 => exact Option.noConfusion h1
        | jarr l2 => exact Option.noConfusion h1
        | jobj dateEntries =>
            replace h1 : (mapMO (fun (q : String × JVal) =>
                match offsetIsoDate q.1 a with
                | none => none
                | some k2 =>
                    match transformFlightStatus a q.2 with
                    | none => none
                    | some st2 => some (k2, st2)) dateEntries).map
                  (fun newEntries =>
                    JVal.jobj (setKey kvs "dates" (JVal.jobj (buildDict newEntries))))
                = some f1 := h1
            replace h3 : (mapMO (fun (q : String × JVal) =>
                match offsetIsoDate q.1 (a + b) with
                | none => none
                | some k2 =>
                    match transformFlightStatus (a + b) q.2 with
                    | none => none
                    | some st2 => some (k2, st2)) dateEntries).map
                  (fun newEntries =>
                    JVal.jobj (setKey kvs "dates" (JVal.jobj (buildDict newEntries))))
                = some f3 := h3
            rcases hma : mapMO (fun (q : String × JVal) =>
                match offsetIsoDate q.1 a with
                | none => none
                | some k2 =>
                    match transformFlightStatus a q.2 with
                    | none => none
                    | some st2 => some (k2, st2)) dateEntries with _ | ma <;>
              rw [hma] at h1
            · exact Option.noConfusion h1
            rcases hmc : mapMO (fun (q : String × JVal) =>
                match offsetIsoDate q.1 (a + b) with
                | none => none
                | some k2 =>
                    match transformFlightStatus (a + b) q.2 with
                    | none => none
                    | some st2 => some (k2, st2)) dateEntries with _ | mc <;>
              rw [hmc] at h3
            · exact Option.noConfusion h3
            obtain rfl : JVal.jobj (setKey kvs "dates" (JVal.jobj (buildDict ma))) = f1 := by
              simpa using h1
            obtain rfl : JVal.jobj (setKey kvs "dates" (JVal.jobj (buildDict mc))) = f3 := by
              simpa using h3
            simp only [transformFlight] at h2
            rw [findKey_setKey] at h2
            replace h2 : (mapMO (fun (q : String × JVal) =>
                match offsetIsoDate q.1 b with
                | none => none
                | some k2 =>
                    match transformFlightStatus b q.2 with
                    | none => none
                    | some st2 => some (k2, st2)) (buildDict ma)).map
                  (fun newEntries =>
                    JVal.jobj (setKey (setKey kvs "dates" (JVal.jobj (buildDict ma)))
                      "dates" (JVal.jobj (buildDict newEntries))))
                = some f2 := h2
            rcases hmb : mapMO (fun (q : String × JVal) =>
                match offsetIsoDate q.1 b with
                | none => none
                | some k2 =>
                    match transformFlightStatus b q.2 with
                    | none => none
                    | some st2 => some (k2, st2)) (buildDict ma) with _ | mb <;>
              rw [hmb] at h2
            · exact Option.noConfusion h2
            obtain rfl : JVal.jobj (setKey (setKey kvs "dates" (JVal.jobj (buildDict ma)))
                "dates" (JVal.jobj (buildDict mb))) = f2 := by simpa using h2
            have dk2 : datesKeysOf (JVal.jobj (setKey
                (setKey kvs "dates" (JVal.jobj (buildDict ma))) "dates"
                (JVal.jobj (buildDict mb)))) = (buildDict mb).map Prod.fst := by
              simp [datesKeysOf, findKey_setKey]
            have dk3 : datesKeysOf (JVal.jobj (setKey kvs "dates"
                (JVal.jobj (buildDict mc)))) = (buildDict mc).map Prod.fst := by
              simp [datesKeysOf, findKey_setKey]
            have hKA : List.Forall₂
                (fun (q q' : String × JVal) => offsetIsoDate q.1 a = some q'.1)
                dateEntries ma := by
              refine List.Forall₂.imp ?_ (mapMO_forall2 hma)
              intro q q' hq
              split at hq
              · exact Option.noConfusion hq
              · split at hq
                · exact Option.noConfusion hq
                · rw [← Option.some_inj.mp hq]
                  assumption
            have hKB : List.Forall₂
                (fun (q q' : String × JVal) => offsetIsoDate q.1 b = some q'.1)
                (buildDict ma) mb := by
              refine List.Forall₂.imp ?_ (mapMO_forall2 hmb)
              intro q q' hq
              split at hq
              · exact Option.noConfusion hq
              · split at hq
                · exact Option.noConfusion hq
                · rw [← Option.some_inj.mp hq]
                  assumption
            have hKC : List.Forall₂
                (fun (q q' : String × JVal) => offsetIsoDate q.1 (a + b) = some q'.1)
                dateEntries mc := by
              refine List.Forall₂.imp ?_ (mapMO_forall2 hmc)
              intro q q' hq
              split at hq
              · exact Option.noConfusion hq
              · split at hq
                · exact Option.noConfusion hq
                · rw [← Option.some_inj.mp hq]
                  assumption
            have keysEq_a : ma.map Prod.fst
                = (dateEntries.map Prod.fst).map (offsetKeyFun a) :=
              forall2_map_eq (fun k k' h => offsetKeyFun_eq h) (forall2_keys (fun k k2 => offsetIsoDate k a = some k2) hKA)
            have keysEq_b : mb.map Prod.fst
                = ((buildDict ma).map Prod.fst).map (offsetKeyFun b) :=
              forall2_map_eq (fun k k' h => offsetKeyFun_eq h) (forall2_keys (fun k k2 => offsetIsoDate k b = some k2) hKB)
            have keysEq_c : mc.map Prod.fst
                = (dateEntries.map Prod.fst).map (offsetKeyFun (a + b)) :=
              forall2_map_eq (fun k k' h => offsetKeyFun_eq h) (forall2_keys (fun k k2 => offsetIsoDate k (a + b) = some k2) hKC)
            have succB : ∀ k ∈ ma.map Prod.fst, ∃ r, offsetIsoDate k b = some r := by
              intro k hk
              have hk2 : k ∈ (buildDict ma).map Prod.fst := by
                rw [keys_buildDict]
                exact mem_dedupFrom.mpr ⟨hk, by simp⟩
              obtain ⟨r, hr, hrel⟩ := forall2_mem_left (forall2_keys (fun k k2 => offsetIsoDate k b = some k2) hKB) k hk2
              exact ⟨r, hrel⟩
            have canonA : ∀ k ∈ ma.map Prod.fst, canonDate k := by
              intro k hk
              obtain ⟨k0, hk0, hrel⟩ := forall2_mem_right (forall2_keys (fun k k2 => offsetIsoDate k a = some k2) hKA) k hk
              exact offsetIsoDate_canon hrel
            have hinj : ∀ x, (x ∈ ([] : List String) ∨ x ∈ ma.map Prod.fst) →
                ∀ y, (y ∈ ([] : List String) ∨ y ∈ ma.map Prod.fst) →
                offsetKeyFun b x = offsetKeyFun b y → x = y := by
              intro x hx y hy he
              simp only [List.not_mem_nil, false_or] at hx hy
              obtain ⟨r1, e1⟩ := succB x hx
              obtain ⟨r2, e2⟩ := succB y hy
              refine offsetIsoDate_canon_inj (canonA x hx) (canonA y hy) e1 e2 ?_
              rw [← offsetKeyFun_eq e1, ← offsetKeyFun_eq e2, he]
            have hpt : ∀ k ∈ dateEntries.map Prod.fst,
                offsetKeyFun b (offsetKeyFun a k) = offsetKeyFun (a + b) k := by
              intro k hk
              obtain ⟨k1, hk1mem, e1⟩ := forall2_mem_left (forall2_keys (fun k k2 => offsetIsoDate k a = some k2) hKA) k hk
              obtain ⟨r, e2⟩ := succB k1 hk1mem
              have ec : offsetIsoDate k (a + b) = some r := offsetIsoDate_comp e1 e2
              rw [offsetKeyFun_eq e1, offsetKeyFun_eq e2, offsetKeyFun_eq ec]
            have step1 : (buildDict mb).map Prod.fst
                = dedupFrom [] ((ma.map Prod.fst).map (offsetKeyFun b)) := by
              rw [keys_buildDict, keysEq_b, keys_buildDict, map_dedupFrom hinj]
              simp only [List.map_nil]
              exact dedupFrom_eq_self (fun x _ => by simp)
                (nodup_dedupFrom [] ((ma.map Prod.fst).map (offsetKeyFun b)))
            have step2 : (ma.map Prod.fst).map (offsetKeyFun b)
                = (dateEntries.map Prod.fst).map (offsetKeyFun (a + b)) := by
              rw [keysEq_a, List.map_map]
              exact List.map_congr_left (fun k hk => hpt k hk)
            rw [dk2, dk3, step1, step2, keys_buildDict, keysEq_c]

/-- The value stored under the top-level "flights" key. -/
def flightsVal (db : JVal) : Option JVal :=
  match db with
  | JVal.jobj kvs => findKey kvs "flights"
  | _ => none

/-- The flight-date-key mapping read off a "flights" value. -/
def flightDateKeysV (w : Option JVal) : List (String × List String) :=
  match w with
  | some (JVal.jobj flights) => flights.map (fun q => (q.1, datesKeysOf q.2))
  | _ => []

theorem flightDateKeys_eq (db : JVal) : flightDateKeys db = flightDateKeysV (flightsVal db) := by
  cases db with
  | jobj kvs =>
      simp only [flightDateKeys, flightsVal, flightDateKeysV]
      rcases findKey kvs "flights" with _ | w
      · rfl
      · cases w <;> rfl
  | jnull => rfl
  | jbool v => rfl
  | jnum v => rfl
  | jstr s => rfl
  | jarr l => rfl

theorem objSection_flightsVal_ne {k : String} {f : JVal → Option JVal} {db d : JVal}
    (hk : k ≠ "flights") (h : objSection k f db = some d) :
    flightsVal d = flightsVal db := by
  cases db with
  | jobj kvs =>
      simp only [objSection] at h
      rcases hfk : findKey kvs k with _ | w <;> rw [hfk] at h
      · obtain rfl : JVal.jobj kvs = d := by simpa using h
        rfl
      · cases w with
        | jobj entries =>
            replace h : (mapMO (fun q => (f q.2).map (fun w2 => (q.1, w2))) entries).map
                (fun entries2 => JVal.jobj (setKey kvs k (JVal.jobj entries2)))
                = some d := h
            rcases hm : mapMO (fun q => (f q.2).map (fun w2 => (q.1, w2))) entries
              with _ | entries2 <;> rw [hm] at h
            · exact Option.noConfusion h
            · obtain rfl : JVal.jobj (setKey kvs k (JVal.jobj entries2)) = d := by
                simpa using h
              simp only [flightsVal]
              exact findKey_setKey_ne kvs _ (Ne.symm hk)
        | jnull => exact Option.noConfusion h
        | jbool v => exact Option.noConfusion h
        | jnum v => exact Option.noConfusion h
        | jstr s => exact Option.noConfusion h
        | jarr l => exact Option.noConfusion h
  | jnull => exact Option.noConfusion h
  | jbool v => exact Option.noConfusion h
  | jnum v => exact Option.noConfusion h
  | jstr s =>
      replace h : (if isSubstr k s = true then none else some (JVal.jstr s)) = some d := h
      by_cases hs : isSubstr k s = true
      · rw [if_pos hs] at h
        exact Option.noConfusion h
      · rw [if_neg hs] at h
        obtain rfl : JVal.jstr s = d := by simpa using h
        rfl
  | jarr l =>
      replace h : (if l.any (strElemEq k) = true then none else some (JVal.jarr l))
          = some d := h
      by_cases hs : l.any (strElemEq k) = true
      · rw [if_pos hs] at h
        exact Option.noConfusion h
      · rw [if_neg hs] at h
        obtain rfl : JVal.jarr l = d := by simpa using h
        rfl

theorem objSection_flights_none {f : JVal → Option JVal} {db d : JVal}
    (h : objSection "flights" f db = some d) (hfv : flightsVal db = none) :
    flightsVal d = none := by
  cases db with
  | jobj kvs =>
      simp only [flightsVal] at hfv
      simp only [objSection, hfv] at h
      obtain rfl : JVal.jobj kvs = d := by simpa using h
      simpa [flightsVal] using hfv
  | jnull => exact Option.noConfusion h
  | jbool v => exact Option.noConfusion h
  | jnum v => exact Option.noConfusion h
  | jstr s =>
      replace h : (if isSubstr "flights" s = true then none else some (JVal.jstr s))
          = some d := h
      by_cases hs : isSubstr "flights" s = true
      · rw [if_pos hs] at h
        exact Option.noConfusion h
      · rw [if_neg hs] at h
        obtain rfl : JVal.jstr s = d := by simpa using h
        rfl
  | jarr l =>
      replace h : (if l.any (strElemEq "flights") = true then none else some (JVal.jarr l))
          = some d := h
      by_cases hs : l.any (strElemEq "flights") = true
      · rw [if_pos hs] at h
        exact Option.noConfusion h
      · rw [if_neg hs] at h
        obtain rfl : JVal.jarr l = d := by simpa using h
        rfl

theorem objSection_flights_some {f : JVal → Option JVal} {db d : JVal}
    {entries : List (String × JVal)}
    (h : objSection "flights" f db = some d)
    (hfv : flightsVal db = some (JVal.jobj entries)) :
    ∃ entries2, mapMO (fun q => (f q.2).map (fun w2 => (q.1, w2))) entries = some entries2 ∧
      flightsVal d = some (JVal.jobj entries2) := by
  cases db with
  | jobj kvs =>
      simp only [flightsVal] at hfv
      simp only [objSection, hfv] at h
      replace h : (mapMO (fun q => (f q.2).map (fun w2 => (q.1, w2))) entries).map
          (fun entries2 => JVal.jobj (setKey kvs "flights" (JVal.jobj entries2)))
          = some d := h
      rcases hm : mapMO (fun q => (f q.2).map (fun w2 => (q.1, w2))) entries
        with _ | entries2 <;> rw [hm] at h
      · exact Option.noConfusion h
      · obtain rfl : JVal.jobj (setKey kvs "flights" (JVal.jobj entries2)) = d := by
          simpa using h
        exact ⟨entries2, hm, by simp [flightsVal, findKey_setKey]⟩
  | jnull => exact Option.noConfusion hfv
  | jbool v => exact Option.noConfusion hfv
  | jnum v => exact Option.noConfusion hfv
  | jstr s => exact Option.noConfusion hfv
  | jarr l => exact Option.noConfusion hfv

theorem objSection_flights_not_obj {f : JVal → Option JVal} {db d w : JVal}
    (h : objSection "flights" f db = some d)
    (hfv : flightsVal db = some w)
    (hw : ∀ entries, w ≠ JVal.jobj entries) : False := by
  cases db with
  | jobj kvs =>
      simp only [flightsVal] at hfv
      simp only [objSection, hfv] at h
      cases w with
      | jobj entries => exact hw entries rfl
      | jnull => exact Option.noConfusion h
      | jbool v => exact Option.noConfusion h
      | jnum v => exact Option.noConfusion h
      | jstr s => exact Option.noConfusion h
      | jarr l => exact Option.noConfusion h
  | jnull => exact Option.noConfusion hfv
  | jbool v => exact Option.noConfusion hfv
  | jnum v => exact Option.noConfusion hfv
  | jstr s => exact Option.noConfusion hfv
  | jarr l => exact Option.noConfusion hfv

theorem objSection_entry_rel {f : JVal → Option JVal} {entries entries2 : List (String × JVal)}
    (h : mapMO (fun q => (f q.2).map (fun w2 => (q.1, w2))) entries = some entries2) :
    List.Forall₂ (fun (q q' : String × JVal) => q'.1 = q.1 ∧ f q.2 = some q'.2)
      entries entries2 := by
  refine List.Forall₂.imp ?_ (mapMO_forall2 h)
  intro q q' hq
  rcases hf : f q.2 with _ | w2 <;> rw [hf] at hq
  · exact Option.noConfusion hq
  · replace hq : (q.1, w2) = q' := by simpa using hq
    rw [← hq]
    exact ⟨rfl, rfl⟩

theorem flights_pointwise {a b : Int} :
    ∀ {l0 l1 l2 l3 : List (String × JVal)},
      List.Forall₂ (fun (q q' : String × JVal) =>
        q'.1 = q.1 ∧ transformFlight a q.2 = some q'.2) l0 l1 →
      List.Forall₂ (fun (q q' : String × JVal) =>
        q'.1 = q.1 ∧ transformFlight b q.2 = some q'.2) l1 l2 →
      List.Forall₂ (fun (q q' : String × JVal) =>
        q'.1 = q.1 ∧ transformFlight (a + b) q.2 = some q'.2) l0 l3 →
      l2.map (fun q => (q.1, datesKeysOf q.2)) = l3.map (fun q => (q.1, datesKeysOf q.2)) := by
  intro l0
  induction l0 with
  | nil =>
      intro l1 l2 l3 h1 h2 h3
      cases h1
      cases h2
      cases h3
      rfl
  | cons q0 t0 ih =>
      intro l1 l2 l3 h1 h2 h3
      cases h1 with
      | cons hr1 ht1 =>
          cases h2 with
          | cons hr2 ht2 =>
              cases h3 with
              | cons hr3 ht3 =>
                  simp only [List.map_cons, List.cons.injEq]
                  obtain ⟨e1, f1⟩ := hr1
                  obtain ⟨e2, f2⟩ := hr2
                  obtain ⟨e3, f3⟩ := hr3
                  refine ⟨?_, ih ht1 ht2 ht3⟩
                  have hks := transformFlight_comp_keys f1 f2 f3
                  rw [Prod.mk.injEq]
                  exact ⟨by rw [e2, e1, e3], hks⟩

/-- C5: the flight-date-key mapping obtained by transforming a dataset by
`a` days and then the result by `b` days equals the one obtained by
transforming the original dataset by `a + b` days directly, whenever all
three transforms succeed. -/
theorem C5_flight_key_composition (db db1 db2 db3 : JVal) (a b : Int)
    (h1 : transformDb db a = some db1) (h2 : transformDb db1 b = some db2)
    (h3 : transformDb db (a + b) = some db3) :
    flightDateKeys db2 = flightDateKeys db3 := by
  unfold transformDb at h1 h2 h3
  rcases hU1 : objSection "users" (transformUser a) db with _ | u1 <;> rw [hU1] at h1
  · exact Option.noConfusion h1
  replace h1 : (match objSection "flights" (transformFlight a) u1 with
      | none => none
      | some d2 => objSection "reservations" (transformReservation a) d2) = some db1 := h1
  rcases hF1 : objSection "flights" (transformFlight a) u1 with _ | v1 <;>
    rw [hF1] at h1
  · exact Option.noConfusion h1
  replace h1 : objSection "reservations" (transformReservation a) v1 = some db1 := h1
  rcases hU2 : objSection "users" (transformUser b) db1 with _ | u2 <;> rw [hU2] at h2
  · exact Option.noConfusion h2
  replace h2 : (match objSection "flights" (transformFlight b) u2 with
      | none => none
      | some d2 => objSection "reservations" (transformReservation b) d2) = some db2 := h2
  rcases hF2 : objSection "flights" (transformFlight b) u2 with _ | v2 <;>
    rw [hF2] at h2
  · exact Option.noConfusion h2
  replace h2 : objSection "reservations" (transformReservation b) v2 = some db2 := h2
  rcases hU3 : objSection "users" (transformUser (a + b)) db with _ | u3 <;> rw [hU3] at h3
  · exact Option.noConfusion h3
  replace h3 : (match objSection "flights" (transformFlight (a + b)) u3 with
      | none => none
      | some d2 => objSection "reservations" (transformReservation (a + b)) d2) = some db3 := h3
  rcases hF3 : objSection "flights" (transformFlight (a + b)) u3 with _ | v3 <;>
    rw [hF3] at h3
  · exact Option.noConfusion h3
  replace h3 : objSection "reservations" (transformReservation (a + b)) v3 = some db3 := h3
  have hkeys2 : flightDateKeys db2 = flightDateKeysV (flightsVal v2) := by
    rw [flightDateKeys_eq, objSection_flightsVal_ne (by decide) h2]
  have hkeys3 : flightDateKeys db3 = flightDateKeysV (flightsVal v3) := by
    rw [flightDateKeys_eq, objSection_flightsVal_ne (by decide) h3]
  have hu1db : flightsVal u1 = flightsVal db := objSection_flightsVal_ne (by decide) hU1
  have hu3db : flightsVal u3 = flightsVal db := objSection_flightsVal_ne (by decide) hU3
  have hu2db1 : flightsVal u2 = flightsVal db1 := objSection_flightsVal_ne (by decide) hU2
  have hdb1v1 : flightsVal db1 = flightsVal v1 := objSection_flightsVal_ne (by decide) h1
  rw [hkeys2, hkeys3]
  rcases hfv : flightsVal u1 with _ | w
  · have hv1 : flightsVal v1 = none := objSection_flights_none hF1 hfv
    have hu2 : flightsVal u2 = none := by rw [hu2db1, hdb1v1, hv1]
    have hv2 : flightsVal v2 = none := objSection_flights_none hF2 hu2
    have hu3 : flightsVal u3 = none := by rw [hu3db, ← hu1db, hfv]
    have hv3 : flightsVal v3 = none := objSection_flights_none hF3 hu3
    rw [hv2, hv3]
  · cases w with
    | jobj entries0 =>
        obtain ⟨entries1, hm1, hv1⟩ := objSection_flights_some hF1 hfv
        have hu2 : flightsVal u2 = some (JVal.jobj entries1) := by
          rw [hu2db1, hdb1v1, hv1]
        obtain ⟨entries2, hm2, hv2⟩ := objSection_flights_some hF2 hu2
        have hu3 : flightsVal u3 = some (JVal.jobj entries0) := by
          rw [hu3db, ← hu1db, hfv]
        obtain ⟨entries3, hm3, hv3⟩ := objSection_flights_some hF3 hu3
        rw [hv2, hv3]
        simp only [flightDateKeysV]
        exact flights_pointwise (objSection_entry_rel hm1) (objSection_entry_rel hm2)
          (objSection_entry_rel hm3)
    | jnull => exact (objSection_flights_not_obj hF1 hfv
        (fun entries he => JVal.noConfusion he)).elim
    | jbool v => exact (objSection_flights_not_obj hF1 hfv
        (fun entries he => JVal.noConfusion he)).elim
    | jnum v => exact (objSection_flights_not_obj hF1 hfv
        (fun entries he => JVal.noConfusion he)).elim
    | jstr s => exact (objSection_flights_not_obj hF1 hfv
        (fun entries he => JVal.noConfusion he)).elim
    | jarr l => exact (objSection_flights_not_obj hF1 hfv
        (fun entries he => JVal.noConfusion he)).elim

/-- Witness: composing offsets 1 and 2 on a one-flight dataset agrees with
offsetting by 3 directly. -/
theorem C5_flight_key_composition_witness :
    flightDateKeys (JVal.jobj [("flights", JVal.jobj [("HAT001", JVal.jobj [("dates",
        JVal.jobj [("2024-05-18", JVal.jobj [])])])])])
      = flightDateKeys (JVal.jobj [("flights", JVal.jobj [("HAT001", JVal.jobj [("dates",
        JVal.jobj [("2024-05-18", JVal.jobj [])])])])]) :=
  C5_flight_key_composition
    (JVal.jobj [("flights", JVal.jobj [("HAT001", JVal.jobj [("dates",
      JVal.jobj [("2024-05-15", JVal.jobj [])])])])])
    (JVal.jobj [("flights", JVal.jobj [("HAT001", JVal.jobj [("dates",
      JVal.jobj [("2024-05-16", JVal.jobj [])])])])])
    (JVal.jobj [("flights", JVal.jobj [("HAT001", JVal.jobj [("dates",
      JVal.jobj [("2024-05-18", JVal.jobj [])])])])])
    (JVal.jobj [("flights", JVal.jobj [("HAT001", JVal.jobj [("dates",
      JVal.jobj [("2024-05-18", JVal.jobj [])])])])])
    1 2 (by rfl) (by rfl) (by rfl)

/-! ## The action-arguments transformer (C9)

`_transform_action_arguments` (generate_dataset.py lines 181-198). -/

/-- `re.match(r"^\d{4}-\d{2}-\d{2}$", s)`: anchored ISO date; `$` also
matches just before one trailing newline. -/
def isoDateAnchor (s : String) : Bool :=
  match s.toList with
  | y1 :: y2 :: y3 :: y4 :: '-' :: m1 :: m2 :: '-' :: d1 :: d2 :: rest =>
      y1.isDigit && y2.isDigit && y3.isDigit && y4.isDigit && m1.isDigit && m2.isDigit &&
        d1.isDigit && d2.isDigit && (rest.isEmpty || rest == ['\n'])
  | _ => false

/-- `re.match(r"^\d{4}-\d{2}-\d{2}T\d{2}:\d{2}:\d{2}$", s)`. -/
def isoTsAnchor (s : String) : Bool :=
  match s.toList with
  | y1 :: y2 :: y3 :: y4 :: '-' :: m1 :: m2 :: '-' :: d1 :: d2 :: 'T' ::
      h1 :: h2 :: ':' :: i1 :: i2 :: ':' :: s1 :: s2 :: rest =>
      y1.isDigit && y2.isDigit && y3.isDigit && y4.isDigit && m1.isDigit && m2.isDigit &&
        d1.isDigit && d2.isDigit && h1.isDigit && h2.isDigit && i1.isDigit && i2.isDigit &&
        s1.isDigit && s2.isDigit && (rest.isEmpty || rest == ['\n'])
  | _ => false

/-- One value of the arguments dict, as `_transform_action_arguments`
treats it: a string gets the ISO-date rule, else the ISO-timestamp rule;
a list has dict items recursed into and string items put through the
ISO-date rule only, everything else (nested lists included) untouched; a
dict is recursed into; other values are unchanged. -/
def argValueRuleF (days : Int) (recur : JVal → Option JVal) (w : JVal) : Option JVal :=
  match w with
  | JVal.jstr s =>
      if isoDateAnchor s then (offsetIsoDate s days).map JVal.jstr
      else if isoTsAnchor s then (offsetIsoTimestamp s days).map JVal.jstr
      else some (JVal.jstr s)
  | JVal.jarr items =>
      (mapMO (fun item =>
        match item with
        | JVal.jobj kvs2 => recur (JVal.jobj kvs2)
        | JVal.jstr s =>
            if isoDateAnchor s then (offsetIsoDate s days).map JVal.jstr
            else some (JVal.jstr s)
        | other => some other) items).map JVal.jarr
  | JVal.jobj kvs2 => recur (JVal.jobj kvs2)
  | other => some other

/-- Embedding of `_transform_action_arguments` (generate_dataset.py lines
181-198), fuel-indexed on recursion depth (the Python recursion is
bounded by the interpreter's recursion limit; theorems below supply
adequate fuel explicitly).  `none` is an uncaught exception (a non-dict
argument value reached the `.items()` iteration) or exhausted fuel. -/
def transformActionArgumentsF (days : Int) : Nat → JVal → Option JVal
  | 0, _ => none
  | fuel + 1, v =>
      match v with
      | JVal.jobj kvs =>
          (mapMO (fun q =>
            (argValueRuleF days (transformActionArgumentsF days fuel) q.2).map
              (fun w2 => (q.1, w2))) kvs).map JVal.jobj
      | _ => none

theorem findKey_forall2 (R : JVal → JVal → Prop) :
    ∀ {kvs kvs' : List (String × JVal)},
      List.Forall₂ (fun (q q' : String × JVal) => q'.1 = q.1 ∧ R q.2 q'.2) kvs kvs' →
      ∀ {k : String} {w : JVal}, findKey kvs k = some w →
        ∃ w', findKey kvs' k = some w' ∧ R w w' := by
  intro kvs kvs' h
  induction h with
  | nil =>
      intro k w hw
      simp [findKey] at hw
  | cons hr ht ih =>
      intro k w hw
      rename_i q q' t t'
      obtain ⟨he, hR⟩ := hr
      simp only [findKey, List.find?_cons] at hw ⊢
      cases hk : (q.1 == k) with
      | true =>
          rw [hk] at hw
          replace hw : q.2 = w := by simpa using hw
          rw [show (q'.1 == k) = true from by rw [he]; exact hk]
          exact ⟨q'.2, by simp, hw ▸ hR⟩
      | false =>
          rw [hk] at hw
          rw [show (q'.1 == k) = false from by rw [he]; exact hk]
          exact ih hw

theorem transformArgs_obj_rel {days : Int} {fuel : Nat} {kvs : List (String × JVal)}
    {res : JVal}
    (h : transformActionArgumentsF days (fuel + 1) (JVal.jobj kvs) = some res) :
    ∃ kvs', res = JVal.jobj kvs' ∧
      List.Forall₂ (fun (q q' : String × JVal) => q'.1 = q.1 ∧
        argValueRuleF days (transformActionArgumentsF days fuel) q.2 = some q'.2) kvs kvs' := by
  replace h : (mapMO (fun q =>
      (argValueRuleF days (transformActionArgumentsF days fuel) q.2).map
        (fun w2 => (q.1, w2))) kvs).map JVal.jobj = some res := h
  rcases hm : mapMO (fun q =>
      (argValueRuleF days (transformActionArgumentsF days fuel) q.2).map
        (fun w2 => (q.1, w2))) kvs with _ | kvs' <;> rw [hm] at h
  · exact Option.noConfusion h
  · refine ⟨kvs', by simpa using h.symm, ?_⟩
    refine List.Forall₂.imp ?_ (mapMO_forall2 hm)
    intro q q' hq
    rcases hf : argValueRuleF days (transformActionArgumentsF days fuel) q.2
      with _ | w2 <;> rw [hf] at hq
    · exact Option.noConfusion hq
    · replace hq : (q.1, w2) = q' := by simpa using hq
      rw [← hq]
      exact ⟨rfl, rfl⟩

/-- C9.  As stated the claim fails: inside lists only the ISO-date rule is
applied (timestamp strings in lists are left unchanged), and recursion
does not descend into lists nested in lists.  Amended statement: in the
transformed arguments dict, a string value matching the anchored ISO-date
pattern is replaced via the date rule and one matching the anchored
ISO-timestamp pattern via the timestamp rule; a dict value is recursed
into; inside a list value, string items are subject to the ISO-date rule
only (an item that does not match the date anchor, a timestamp literal
included, stays unchanged) and list items are left untouched. -/
theorem C9_action_arguments_rules :
    (∀ (days : Int) (fuel : Nat) (kvs : List (String × JVal)) (res : JVal)
        (k s : String),
      transformActionArgumentsF days (fuel + 1) (JVal.jobj kvs) = some res →
      findKey kvs k = some (JVal.jstr s) → isoDateAnchor s = true →
      ∃ kvs' r, res = JVal.jobj kvs' ∧ offsetIsoDate s days = some r ∧
        findKey kvs' k = some (JVal.jstr r)) ∧
    (∀ (days : Int) (fuel : Nat) (kvs : List (String × JVal)) (res : JVal)
        (k s : String),
      transformActionArgumentsF days (fuel + 1) (JVal.jobj kvs) = some res →
      findKey kvs k = some (JVal.jstr s) → isoDateAnchor s = false →
      isoTsAnchor s = true →
      ∃ kvs' r, res = JVal.jobj kvs' ∧ offsetIsoTimestamp s days = some r ∧
        findKey kvs' k = some (JVal.jstr r)) ∧
    (∀ (days : Int) (fuel : Nat) (kvs inner : List (String × JVal)) (res : JVal)
        (k : String),
      transformActionArgumentsF days (fuel + 1) (JVal.jobj kvs) = some res →
      findKey kvs k = some (JVal.jobj inner) →
      ∃ kvs' inner2, res = JVal.jobj kvs' ∧
        transformActionArgumentsF days fuel (JVal.jobj inner) = some inner2 ∧
        findKey kvs' k = some inner2) ∧
    (∀ (days : Int) (fuel : Nat) (kvs : List (String × JVal)) (items : List JVal)
        (res : JVal) (k : String),
      transformActionArgumentsF days (fuel + 1) (JVal.jobj kvs) = some res →
      findKey kvs k = some (JVal.jarr items) →
      ∃ kvs' items', res = JVal.jobj kvs' ∧ findKey kvs' k = some (JVal.jarr items') ∧
        List.Forall₂ (fun it it' =>
          (∀ s2 : String, it = JVal.jstr s2 → isoDateAnchor s2 = false → it' = it) ∧
          (∀ l2 : List JVal, it = JVal.jarr l2 → it' = it)) items items') := by
  refine ⟨?_, ?_, ?_, ?_⟩
  · intro days fuel kvs res k s h hk hanch
    obtain ⟨kvs', rfl, hrel⟩ := transformArgs_obj_rel h
    obtain ⟨w', hw', hrule⟩ := findKey_forall2 (fun w w' =>
      argValueRuleF days (transformActionArgumentsF days fuel) w = some w') hrel hk
    simp only [argValueRuleF, hanch, if_true] at hrule
    rcases ho : offsetIsoDate s days with _ | r <;> rw [ho] at hrule
    · exact Option.noConfusion hrule
    · replace hrule : JVal.jstr r = w' := by simpa using hrule
      exact ⟨kvs', r, rfl, rfl, by rw [hw', ← hrule]⟩
  · intro days fuel kvs res k s h hk hanch hts
    obtain ⟨kvs', rfl, hrel⟩ := transformArgs_obj_rel h
    obtain ⟨w', hw', hrule⟩ := findKey_forall2 (fun w w' =>
      argValueRuleF days (transformActionArgumentsF days fuel) w = some w') hrel hk
    simp only [argValueRuleF, hanch, hts, Bool.false_eq_true, if_false, if_true] at hrule
    rcases ho : offsetIsoTimestamp s days with _ | r <;> rw [ho] at hrule
    · exact Option.noConfusion hrule
    · replace hrule : JVal.jstr r = w' := by simpa using hrule
      exact ⟨kvs', r, rfl, rfl, by rw [hw', ← hrule]⟩
  · intro days fuel kvs inner res k h hk
    obtain ⟨kvs', rfl, hrel⟩ := transformArgs_obj_rel h
    obtain ⟨w', hw', hrule⟩ := findKey_forall2 (fun w w' =>
      argValueRuleF days (transformActionArgumentsF days fuel) w = some w') hrel hk
    exact ⟨kvs', w', rfl, hrule, hw'⟩
  · intro days fuel kvs items res k h hk
    obtain ⟨kvs', rfl, hrel⟩ := transformArgs_obj_rel h
    obtain ⟨w', hw', hrule⟩ := findKey_forall2 (fun w w' =>
      argValueRuleF days (transformActionArgumentsF days fuel) w = some w') hrel hk
    replace hrule : (mapMO (fun item =>
        match item with
        | JVal.jobj kvs2 => transformActionArgumentsF days fuel (JVal.jobj kvs2)
        | JVal.jstr s =>
            if isoDateAnchor s then (offsetIsoDate s days).map JVal.jstr
            else some (JVal.jstr s)
        | other => some other) items).map JVal.jarr = some w' := hrule
    rcases hm : mapMO (fun item =>
        match item with
        | JVal.jobj kvs2 => transformActionArgumentsF days fuel (JVal.jobj kvs2)
        | JVal.jstr s =>
            if isoDateAnchor s then (offsetIsoDate s days).map JVal.jstr
            else some (JVal.jstr s)
        | other => some other) items with _ | items' <;> rw [hm] at hrule
    · exact Option.noConfusion hrule
    · replace hrule : JVal.jarr items' = w' := by simpa using hrule
      refine ⟨kvs', items', rfl, by rw [hw', ← hrule], ?_⟩
      refine List.Forall₂.imp ?_ (mapMO_forall2 hm)
      intro it it' hit
      constructor
      · intro s2 he hanch
        rw [he] at hit
        replace hit : (if isoDateAnchor s2 = true then (offsetIsoDate s2 days).map JVal.jstr
            else some (JVal.jstr s2)) = some it' := hit
        rw [if_neg (by simp [hanch])] at hit
        rw [he]
        exact (by simpa using hit : JVal.jstr s2 = it').symm
      · intro l2 he
        rw [he] at hit
        replace hit : some (JVal.jarr l2) = some it' := hit
        rw [he]
        exact (by simpa using hit : JVal.jarr l2 = it').symm

/-- Witness: the amended rules at a concrete arguments dict of each shape. -/
theorem C9_action_arguments_rules_witness :
    (∃ kvs' r, (JVal.jobj [("outbound", JVal.jstr "2024-05-16")]) = JVal.jobj kvs' ∧
      offsetIsoDate "2024-05-15" 1 = some r ∧
      findKey kvs' "outbound" = some (JVal.jstr r)) ∧
    (∃ kvs' r, (JVal.jobj [("at", JVal.jstr "2024-05-16T10:00:00")]) = JVal.jobj kvs' ∧
      offsetIsoTimestamp "2024-05-15T10:00:00" 1 = some r ∧
      findKey kvs' "at" = some (JVal.jstr r)) ∧
    (∃ kvs' items', (JVal.jobj [("flights", JVal.jarr [JVal.jstr "2024-05-16",
        JVal.jstr "2024-05-15T10:00:00"])]) = JVal.jobj kvs' ∧
      findKey kvs' "flights" = some (JVal.jarr items') ∧
      List.Forall₂ (fun it it' =>
        (∀ s2 : String, it = JVal.jstr s2 → isoDateAnchor s2 = false → it' = it) ∧
        (∀ l2 : List JVal, it = JVal.jarr l2 → it' = it))
        [JVal.jstr "2024-05-15", JVal.jstr "2024-05-15T10:00:00"] items') :=
  ⟨C9_action_arguments_rules.1 1 2 [("outbound", JVal.jstr "2024-05-15")]
      (JVal.jobj [("outbound", JVal.jstr "2024-05-16")]) "outbound" "2024-05-15"
      (by rfl) (by rfl) (by rfl),
    C9_action_arguments_rules.2.1 1 2 [("at", JVal.jstr "2024-05-15T10:00:00")]
      (JVal.jobj [("at", JVal.jstr "2024-05-16T10:00:00")]) "at" "2024-05-15T10:00:00"
      (by rfl) (by rfl) (by rfl) (by rfl),
    C9_action_arguments_rules.2.2.2 1 2
      [("flights", JVal.jarr [JVal.jstr "2024-05-15", JVal.jstr "2024-05-15T10:00:00"])]
      [JVal.jstr "2024-05-15", JVal.jstr "2024-05-15T10:00:00"]
      (JVal.jobj [("flights", JVal.jarr [JVal.jstr "2024-05-16",
        JVal.jstr "2024-05-15T10:00:00"])]) "flights" (by rfl) (by rfl)⟩

/-- Counterexample to C9 as stated: a timestamp literal inside a list is
not transformed (the list branch applies the ISO-date rule only), and a
list nested in a list is not descended into. -/
theorem C9_counterexample :
    transformActionArgumentsF 1 5
        (JVal.jobj [("k", JVal.jarr [JVal.jstr "2024-05-15T10:00:00",
          JVal.jarr [JVal.jstr "2024-05-15"]])])
      = some (JVal.jobj [("k", JVal.jarr [JVal.jstr "2024-05-15T10:00:00",
          JVal.jarr [JVal.jstr "2024-05-15"]])]) ∧
    offsetIsoTimestamp "2024-05-15T10:00:00" 1 = some "2024-05-16T10:00:00" ∧
    offsetIsoDate "2024-05-15" 1 = some "2024-05-16" :=
  ⟨rfl, rfl, rfl⟩

/-! ## The validator (C10, C1)

`ValidationResult` (validate.py lines 32-48) and
`_validate_dobs_reasonable` (validate.py lines 124-158). -/

structure ValidationResult where
  passed : Bool
  errors : List String
  warnings : List String
deriving DecidableEq, Repr

/-- `add_error`: records the message and marks the result failed. -/
def addError (r : ValidationResult) (m : String) : ValidationResult :=
  ⟨false, r.errors ++ [m], r.warnings⟩

/-- `add_warning`: records the message; `passed` is untouched. -/
def addWarning (r : ValidationResult) (m : String) : ValidationResult :=
  ⟨r.passed, r.errors, r.warnings ++ [m]⟩

/-- `datetime` comparison on midnight datetimes: lexicographic on
(year, month, day). -/
def ymdLt (x y : Ymd) : Bool :=
  x.y < y.y || (x.y == y.y && (x.m < y.m || (x.m == y.m && x.d < y.d)))

/-- One user of the `_validate_dobs_reasonable` loop.  The age conditions
`(offset_current - dob).days / 365.25 > 150` and `... < 0` are embedded
exactly: for every integer day difference `d` in datetime range the
double-precision comparison `d / 365.25 > 150` holds iff `2 * d > 109575`
(the boundary 54787.5 is not an integer and the quotient is computed from
an exactly-representable divisor with error far below the margin), and
`d / 365.25 < 0` iff `d < 0` iff the DOB is after the current date.
`none` is an uncaught exception (`in` on a number, subscripting by a
string, or `strptime` applied to a non-string: only `ValueError` is
caught). -/
def dobFutureMsg (cur : Ymd) (uid s : String) : String :=
  "User " ++ uid ++ ": DOB " ++ s ++ " is in the future " ++
    "(current date: " ++ String.mk (renderIsoDate cur) ++ ")"

def dobAgeMsg (uid s : String) : String :=
  "User " ++ uid ++ ": DOB " ++ s ++ " results in age > 150 years"

def dobNegMsg (uid s : String) : String :=
  "User " ++ uid ++ ": DOB " ++ s ++ " is in the future"

def dobFormatMsg (uid s : String) : String :=
  "User " ++ uid ++ ": Invalid DOB format: " ++ s

/-- The `try` body for one truthy string DOB.  The age conditions
`(offset_current - dob).days / 365.25 > 150` and `... < 0` are embedded
exactly: for every integer day difference `d` in datetime range the
double-precision comparison `d / 365.25 > 150` holds iff `2 * d > 109575`
(the boundary 54787.5 is not an integer, the divisor 365.25 is exactly
representable, and the rounding error is far below the margin), and
`d / 365.25 < 0` iff `d < 0`. -/
def dobStringCheck (cur : Ymd) (uid s : String) (r : ValidationResult) : ValidationResult :=
  match parseIsoDate s.toList with
  | none => addError r (dobFormatMsg uid s)
  | some x =>
      let r1 := if ymdLt cur x then addError r (dobFutureMsg cur uid s) else r
      let r2 := if 2 * (pyOrdinal cur - pyOrdinal x) > 109575 then
          addWarning r1 (dobAgeMsg uid s)
        else r1
      if pyOrdinal cur - pyOrdinal x < 0 then addError r2 (dobNegMsg uid s) else r2

/-- One user of the `_validate_dobs_reasonable` loop.  `none` is an
uncaught exception (`in` on a number, subscripting by a string, or
`strptime` applied to a non-string: only `ValueError` is caught). -/
def checkDob (cur : Ymd) (uid : String) (user : JVal) (r : ValidationResult) :
    Option ValidationResult :=
  match user with
  | JVal.jobj ukvs =>
      match findKey ukvs "dob" with
      | none => some r
      | some w =>
          if jtruthy w then
            match w with
            | JVal.jstr s => some (dobStringCheck cur uid s r)
            | _ => none
          else some r
  | JVal.jarr l => if l.any (strElemEq "dob") then none else some r
  | JVal.jstr s2 => if isSubstr "dob" s2 then none else some r
  | _ => none

/-- The loop over `db_data.get("users", {}).items()`. -/
def foldUsers (cur : Ymd) : List (String × JVal) → ValidationResult →
    Option ValidationResult
  | [], r => some r
  | (uid, user) :: t, r =>
      match checkDob cur uid user r with
      | none => none
      | some r2 => foldUsers cur t r2

/-- Embedding of `_validate_dobs_reasonable` (validate.py lines 124-158):
the current date is `datetime(2024, 5, 15) + timedelta(days=offset_days)`
(an out-of-range shift is an uncaught `OverflowError`), and only the
top-level `dob` of each user record is examined. -/
def validateDobsReasonable (db : JVal) (offsetDays : Int) (r0 : ValidationResult) :
    Option ValidationResult :=
  let cur := shiftDays offsetDays ⟨2024, 5, 15⟩
  if yearInRange cur then
    match db with
    | JVal.jobj kvs =>
        match findKey kvs "users" with
        | none => some r0
        | some (JVal.jobj users) => foldUsers cur users r0
        | some _ => none
    | _ => none
  else none

theorem dobStringCheck_mono (cur : Ymd) (uid s : String) (r : ValidationResult) :
    ∃ es ws, (dobStringCheck cur uid s r).errors = r.errors ++ es ∧
      (dobStringCheck cur uid s r).warnings = r.warnings ++ ws := by
  unfold dobStringCheck
  rcases parseIsoDate s.toList with _ | x
  · exact ⟨[dobFormatMsg uid s], [], rfl, by simp [addError]⟩
  · dsimp only
    split <;> split <;> split <;>
      simp [addError, addWarning, List.append_assoc]

theorem checkDob_mono {cur : Ymd} {uid : String} {user : JVal} {r r2 : ValidationResult}
    (h : checkDob cur uid user r = some r2) :
    ∃ es ws, r2.errors = r.errors ++ es ∧ r2.warnings = r.warnings ++ ws := by
  cases user with
  | jobj ukvs =>
      simp only [checkDob] at h
      rcases hfk : findKey ukvs "dob" with _ | w <;> rw [hfk] at h
      · obtain rfl : r = r2 := by simpa using h
        exact ⟨[], [], by simp, by simp⟩
      · cases w with
        | jstr s =>
            replace h : (if jtruthy (JVal.jstr s) = true
                then some (dobStringCheck cur uid s r) else some r) = some r2 := h
            by_cases ht : jtruthy (JVal.jstr s) = true
            · rw [if_pos ht] at h
              obtain rfl : dobStringCheck cur uid s r = r2 := by simpa using h
              exact dobStringCheck_mono cur uid s r
            · rw [if_neg ht] at h
              obtain rfl : r = r2 := by simpa using h
              exact ⟨[], [], by simp, by simp⟩
        | jnull =>
            replace h : (if jtruthy JVal.jnull = true then none else some r) = some r2 := h
            rw [if_neg (by decide)] at h
            obtain rfl : r = r2 := by simpa using h
            exact ⟨[], [], by simp, by simp⟩
        | jbool v =>
            replace h : (if jtruthy (JVal.jbool v) = true then none else some r)
                = some r2 := h
            by_cases ht : jtruthy (JVal.jbool v) = true
            · rw [if_pos ht] at h
              exact Option.noConfusion h
            · rw [if_neg ht] at h
              obtain rfl : r = r2 := by simpa using h
              exact ⟨[], [], by simp, by simp⟩
        | jnum v =>
            replace h : (if jtruthy (JVal.jnum v) = true then none else some r)
                = some r2 := h
            by_cases ht : jtruthy (JVal.jnum v) = true
            · rw [if_pos ht] at h
              exact Option.noConfusion h
            · rw [if_neg ht] at h
              obtain rfl : r = r2 := by simpa using h
              exact ⟨[], [], by simp, by simp⟩
        | jarr l =>
            replace h : (if jtruthy (JVal.jarr l) = true then none else some r)
                = some r2 := h
            by_cases ht : jtruthy (JVal.jarr l) = true
            · rw [if_pos ht] at h
              exact Option.noConfusion h
            · rw [if_neg ht] at h
              obtain rfl : r = r2 := by simpa using h
              exact ⟨[], [], by simp, by simp⟩
        | jobj kvs2 =>
            replace h : (if jtruthy (JVal.jobj kvs2) = true then none else some r)
                = some r2 := h
            by_cases ht : jtruthy (JVal.jobj kvs2) = true
            · rw [if_pos ht] at h
              exact Option.noConfusion h
            · rw [if_neg ht] at h
              obtain rfl : r = r2 := by simpa using h
              exact ⟨[], [], by simp, by simp⟩
  | jarr l =>
      replace h : (if l.any (strElemEq "dob") = true then none else some r) = some r2 := h
      by_cases hs : l.any (strElemEq "dob") = true
      · rw [if_pos hs] at h
        exact Option.noConfusion h
      · rw [if_neg hs] at h
        obtain rfl : r = r2 := by simpa using h
        exact ⟨[], [], by simp, by simp⟩
  | jstr s2 =>
      replace h : (if isSubstr "dob" s2 = true then none else some r) = some r2 := h
      by_cases hs : isSubstr "dob" s2 = true
      · rw [if_pos hs] at h
        exact Option.noConfusion h
      · rw [if_neg hs] at h
        obtain rfl : r = r2 := by simpa using h
        exact ⟨[], [], by simp, by simp⟩
  | jnull => exact Option.noConfusion h
  | jbool v => exact Option.noConfusion h
  | jnum v => exact Option.noConfusion h

theorem foldUsers_mono {cur : Ymd} :
    ∀ {users : List (String × JVal)} {r r2 : ValidationResult},
      foldUsers cur users r = some r2 →
      ∃ es ws, r2.errors = r.errors ++ es ∧ r2.warnings = r.warnings ++ ws := by
  intro users
  induction users with
  | nil =>
      intro r r2 h
      obtain rfl : r = r2 := by simpa [foldUsers] using h
      exact ⟨[], [], by simp, by simp⟩
  | cons q t ih =>
      intro r r2 h
      obtain ⟨uid, user⟩ := q
      simp only [foldUsers] at h
      rcases hc : checkDob cur uid user r with _ | r1 <;> rw [hc] at h
      · exact Option.noConfusion h
      · obtain ⟨es1, ws1, he1, hw1⟩ := checkDob_mono hc
        obtain ⟨es2, ws2, he2, hw2⟩ := ih h
        exact ⟨es1 ++ es2, ws1 ++ ws2, by rw [he2, he1, List.append_assoc],
          by rw [hw2, hw1, List.append_assoc]⟩

theorem foldUsers_append {cur : Ymd} :
    ∀ {pre rest : List (String × JVal)} {r : ValidationResult},
      foldUsers cur (pre ++ rest) r =
        match foldUsers cur pre r with
        | none => none
        | some r1 => foldUsers cur rest r1 := by
  intro pre
  induction pre with
  | nil => intro rest r; rfl
  | cons q t ih =>
      intro rest r
      obtain ⟨uid, user⟩ := q
      simp only [List.cons_append, foldUsers]
      rcases hc : checkDob cur uid user r with _ | r1
      · rfl
      · exact ih

theorem dobStringCheck_inv (cur : Ymd) (uid s : String) (r : ValidationResult)
    (h : r.passed = r.errors.isEmpty) :
    (dobStringCheck cur uid s r).passed = (dobStringCheck cur uid s r).errors.isEmpty := by
  unfold dobStringCheck
  rcases parseIsoDate s.toList with _ | x
  · simp [addError]
  · dsimp only
    split <;> split <;> split <;> simp_all [addError, addWarning]

theorem checkDob_inv {cur : Ymd} {uid : String} {user : JVal} {r r2 : ValidationResult}
    (hinv : r.passed = r.errors.isEmpty) (h : checkDob cur uid user r = some r2) :
    r2.passed = r2.errors.isEmpty := by
  cases user with
  | jobj ukvs =>
      simp only [checkDob] at h
      rcases hfk : findKey ukvs "dob" with _ | w <;> rw [hfk] at h
      · obtain rfl : r = r2 := by simpa using h
        exact hinv
      · cases w with
        | jstr s =>
            replace h : (if jtruthy (JVal.jstr s) = true
                then some (dobStringCheck cur uid s r) else some r) = some r2 := h
            by_cases ht : jtruthy (JVal.jstr s) = true
            · rw [if_pos ht] at h
              obtain rfl : dobStringCheck cur uid s r = r2 := by simpa using h
              exact dobStringCheck_inv cur uid s r hinv
            · rw [if_neg ht] at h
              obtain rfl : r = r2 := by simpa using h
              exact hinv
        | jnull =>
            replace h : (if jtruthy JVal.jnull = true then none else some r) = some r2 := h
            rw [if_neg (by decide)] at h
            obtain rfl : r = r2 := by simpa using h
            exact hinv
        | jbool v =>
            replace h : (if jtruthy (JVal.jbool v) = true then none else some r)
                = some r2 := h
            by_cases ht : jtruthy (JVal.jbool v) = true
            · rw [if_pos ht] at h
              exact Option.noConfusion h
            · rw [if_neg ht] at h
              obtain rfl : r = r2 := by simpa using h
              exact hinv
        | jnum v =>
            replace h : (if jtruthy (JVal.jnum v) = true then none else some r)
                = some r2 := h
            by_cases ht : jtruthy (JVal.jnum v) = true
            · rw [if_pos ht] at h
              exact Option.noConfusion h
            · rw [if_neg ht] at h
              obtain rfl : r = r2 := by simpa using h
              exact hinv
        | jarr l =>
            replace h : (if jtruthy (JVal.jarr l) = true then none else some r)
                = some r2 := h
            by_cases ht : jtruthy (JVal.jarr l) = true
            · rw [if_pos ht] at h
              exact Option.noConfusion h
            · rw [if_neg ht] at h
              obtain rfl : r = r2 := by simpa using h
              exact hinv
        | jobj kvs2 =>
            replace h : (if jtruthy (JVal.jobj kvs2) = true then none else some r)
                = some r2 := h
            by_cases ht : jtruthy (JVal.jobj kvs2) = true
            · rw [if_pos ht] at h
              exact Option.noConfusion h
            · rw [if_neg ht] at h
              obtain rfl : r = r2 := by simpa using h
              exact hinv
  | jarr l =>
      replace h : (if l.any (strElemEq "dob") = true then none else some r) = some r2 := h
      by_cases hs : l.any (strElemEq "dob") = true
      · rw [if_pos hs] at h
        exact Option.noConfusion h
      · rw [if_neg hs] at h
        obtain rfl : r = r2 := by simpa using h
        exact hinv
  | jstr s2 =>
      replace h : (if isSubstr "dob" s2 = true then none else some r) = some r2 := h
      by_cases hs : isSubstr "dob" s2 = true
      · rw [if_pos hs] at h
        exact Option.noConfusion h
      · rw [if_neg hs] at h
        obtain rfl : r = r2 := by simpa using h
        exact hinv
  | jnull => exact Option.noConfusion h
  | jbool v => exact Option.noConfusion h
  | jnum v => exact Option.noConfusion h

theorem foldUsers_inv {cur : Ymd} :
    ∀ {users : List (String × JVal)} {r r2 : ValidationResult},
      r.passed = r.errors.isEmpty → foldUsers cur users r = some r2 →
      r2.passed = r2.errors.isEmpty := by
  intro users
  induction users with
  | nil =>
      intro r r2 hinv h
      obtain rfl : r = r2 := by simpa [foldUsers] using h
      exact hinv
  | cons q t ih =>
      intro r r2 hinv h
      obtain ⟨uid, user⟩ := q
      simp only [foldUsers] at h
      rcases hc : checkDob cur uid user r with _ | r1 <;> rw [hc] at h
      · exact Option.noConfusion h
      · exact ih (checkDob_inv hinv hc) h

theorem dobStringCheck_future_mem {cur : Ymd} {uid s : String} {x : Ymd}
    (r : ValidationResult) (hp : parseIsoDate s.toList = some x)
    (hlt : ymdLt cur x = true) :
    dobFutureMsg cur uid s ∈ (dobStringCheck cur uid s r).errors := by
  unfold dobStringCheck
  rw [hp]
  dsimp only
  rw [if_pos hlt]
  split <;> split <;> simp [addError, addWarning]

theorem dobStringCheck_age_mem {cur : Ymd} {uid s : String} {x : Ymd}
    (r : ValidationResult) (hp : parseIsoDate s.toList = some x)
    (hage : 2 * (pyOrdinal cur - pyOrdinal x) > 109575) :
    dobAgeMsg uid s ∈ (dobStringCheck cur uid s r).warnings := by
  unfold dobStringCheck
  rw [hp]
  dsimp only
  rw [if_pos hage]
  split <;> simp [addError, addWarning]

theorem checkDob_future_mem {cur : Ymd} {uid : String} {ukvs : List (String × JVal)}
    {s : String} {x : Ymd} {r r2 : ValidationResult}
    (hdob : findKey ukvs "dob" = some (JVal.jstr s))
    (hp : parseIsoDate s.toList = some x) (hlt : ymdLt cur x = true)
    (h : checkDob cur uid (JVal.jobj ukvs) r = some r2) :
    dobFutureMsg cur uid s ∈ r2.errors := by
  have hne : s.toList ≠ [] := by
    intro he
    rw [he] at hp
    exact Option.noConfusion ((show parseIsoDate [] = none from rfl) ▸ hp)
  have ht : jtruthy (JVal.jstr s) = true := by
    simpa [jtruthy] using hne
  simp only [checkDob] at h
  rw [hdob] at h
  replace h : (if jtruthy (JVal.jstr s) = true
      then some (dobStringCheck cur uid s r) else some r) = some r2 := h
  rw [if_pos ht] at h
  obtain rfl : dobStringCheck cur uid s r = r2 := by simpa using h
  exact dobStringCheck_future_mem r hp hlt

theorem validateDobs_inv {db : JVal} {offsetDays : Int} {r : ValidationResult}
    (h : validateDobsReasonable db offsetDays ⟨true, [], []⟩ = some r) :
    r.passed = r.errors.isEmpty := by
  simp only [validateDobsReasonable] at h
  split at h
  · cases db with
    | jobj kvs =>
        replace h : (match findKey kvs "users" with
          | none => some (⟨true, [], []⟩ : ValidationResult)
          | some (JVal.jobj users) =>
              foldUsers (shiftDays offsetDays ⟨2024, 5, 15⟩) users ⟨true, [], []⟩
          | some _ => none) = some r := h
        rcases hfk : findKey kvs "users" with _ | w <;> rw [hfk] at h
        · obtain rfl : (⟨true, [], []⟩ : ValidationResult) = r := by simpa using h
          rfl
        · cases w with
          | jobj users => exact foldUsers_inv rfl h
          | jnull => exact Option.noConfusion h
          | jbool v => exact Option.noConfusion h
          | jnum v => exact Option.noConfusion h
          | jstr s => exact Option.noConfusion h
          | jarr l => exact Option.noConfusion h
    | jnull => exact Option.noConfusion h
    | jbool v => exact Option.noConfusion h
    | jnum v => exact Option.noConfusion h
    | jstr s => exact Option.noConfusion h
    | jarr l => exact Option.noConfusion h
  · exact Option.noConfusion h

theorem validateDobs_foldUsers {kvs users : List (String × JVal)} {offsetDays : Int}
    {r : ValidationResult}
    (hfk : findKey kvs "users" = some (JVal.jobj users))
    (h : validateDobsReasonable (JVal.jobj kvs) offsetDays ⟨true, [], []⟩ = some r) :
    foldUsers (shiftDays offsetDays ⟨2024, 5, 15⟩) users ⟨true, [], []⟩ = some r := by
  have hy : yearInRange (shiftDays offsetDays ⟨2024, 5, 15⟩) = true := by
    by_contra hy
    simp only [validateDobsReasonable] at h
    rw [if_neg hy] at h
    exact Option.noConfusion h
  simp only [validateDobsReasonable] at h
  rw [if_pos hy, hfk] at h
  exact h

/-- C10: the validator recomputes the variant's current date as
`datetime(2024, 5, 15) + timedelta(days=offset_days)` and, for user
records' dates of birth, (1) `add_warning` never changes `passed`;
(2) a validation run passes iff it recorded zero errors; (3) a user-record
DOB strictly after the recomputed current date yields a fatal error naming
the user, the DOB and the recomputed current date; (4) a DOB older than
150 years (and not in the future) yields exactly a non-fatal warning with
`passed` and `errors` untouched.  (The claim's further assertion that
nested passenger records are checked alike is refuted by the
counterexample: only the top-level `dob` of each user record is
examined.) -/
theorem C10_dob_validation :
    (∀ (r : ValidationResult) (m : String), (addWarning r m).passed = r.passed) ∧
    (∀ (db : JVal) (offsetDays : Int) (r : ValidationResult),
        validateDobsReasonable db offsetDays ⟨true, [], []⟩ = some r →
        (r.passed = true ↔ r.errors = [])) ∧
    (∀ (kvs pre post ukvs : List (String × JVal)) (uid s : String) (x : Ymd)
        (offsetDays : Int) (r : ValidationResult),
        findKey kvs "users" = some (JVal.jobj (pre ++ (uid, JVal.jobj ukvs) :: post)) →
        findKey ukvs "dob" = some (JVal.jstr s) →
        parseIsoDate s.toList = some x →
        ymdLt (shiftDays offsetDays ⟨2024, 5, 15⟩) x = true →
        validateDobsReasonable (JVal.jobj kvs) offsetDays ⟨true, [], []⟩ = some r →
        dobFutureMsg (shiftDays offsetDays ⟨2024, 5, 15⟩) uid s ∈ r.errors ∧
          r.passed = false) ∧
    (∀ (cur : Ymd) (uid s : String) (x : Ymd) (r : ValidationResult),
        parseIsoDate s.toList = some x →
        ymdLt cur x = false →
        2 * (pyOrdinal cur - pyOrdinal x) > 109575 →
        dobStringCheck cur uid s r = addWarning r (dobAgeMsg uid s)) := by
  refine ⟨fun r m => rfl, ?_, ?_, ?_⟩
  · intro db offsetDays r h
    rw [validateDobs_inv h]
    cases r.errors <;> simp
  · intro kvs pre post ukvs uid s x offsetDays r hfk hdob hp hlt h
    have hfold := validateDobs_foldUsers hfk h
    rw [foldUsers_append] at hfold
    rcases h1 : foldUsers (shiftDays offsetDays ⟨2024, 5, 15⟩) pre ⟨true, [], []⟩
        with _ | r1 <;> rw [h1] at hfold
    · exact Option.noConfusion hfold
    · simp only [foldUsers] at hfold
      rcases hc : checkDob (shiftDays offsetDays ⟨2024, 5, 15⟩) uid (JVal.jobj ukvs) r1
          with _ | rA <;> rw [hc] at hfold
      · exact Option.noConfusion hfold
      · have hmem := checkDob_future_mem hdob hp hlt hc
        obtain ⟨es, ws, he, hw⟩ := foldUsers_mono hfold
        have hmem2 : dobFutureMsg (shiftDays offsetDays ⟨2024, 5, 15⟩) uid s ∈ r.errors := by
          rw [he]
          exact List.mem_append_left _ hmem
        refine ⟨hmem2, ?_⟩
        rw [validateDobs_inv h]
        rcases hr : r.errors with _ | ⟨a, t⟩
        · rw [hr] at hmem2
          exact absurd hmem2 (List.not_mem_nil _)
        · rfl
  · intro cur uid s x r hp hlt hage
    unfold dobStringCheck
    rw [hp]
    dsimp only
    rw [if_neg (show ¬ pyOrdinal cur - pyOrdinal x < 0 by omega), if_pos hage,
      if_neg (by simp [hlt])]

/-- C10 witness: concrete instantiations of all four conjuncts; the user
DOB `2030-01-01` at offset 0 is after the recomputed current date
`2024-05-15` and yields both fatal error messages, while `1850-01-01`
yields exactly the age warning. -/
theorem C10_dob_validation_witness :
    (addWarning ⟨true, [], []⟩ "w").passed = (⟨true, [], []⟩ : ValidationResult).passed ∧
    ((⟨false,
        [dobFutureMsg (shiftDays 0 ⟨2024, 5, 15⟩) "u1" "2030-01-01",
          dobNegMsg "u1" "2030-01-01"], []⟩ : ValidationResult).passed = true ↔
      (⟨false,
        [dobFutureMsg (shiftDays 0 ⟨2024, 5, 15⟩) "u1" "2030-01-01",
          dobNegMsg "u1" "2030-01-01"], []⟩ : ValidationResult).errors = []) ∧
    (dobFutureMsg (shiftDays 0 ⟨2024, 5, 15⟩) "u1" "2030-01-01" ∈
        (⟨false,
          [dobFutureMsg (shiftDays 0 ⟨2024, 5, 15⟩) "u1" "2030-01-01",
            dobNegMsg "u1" "2030-01-01"], []⟩ : ValidationResult).errors ∧
      (⟨false,
        [dobFutureMsg (shiftDays 0 ⟨2024, 5, 15⟩) "u1" "2030-01-01",
          dobNegMsg "u1" "2030-01-01"], []⟩ : ValidationResult).passed = false) ∧
    dobStringCheck (shiftDays 0 ⟨2024, 5, 15⟩) "u2" "1850-01-01" ⟨true, [], []⟩ =
      addWarning ⟨true, [], []⟩ (dobAgeMsg "u2" "1850-01-01") := by
  refine ⟨C10_dob_validation.1 ⟨true, [], []⟩ "w", ?_, ?_, ?_⟩
  · exact C10_dob_validation.2.1
      (JVal.jobj [("users", JVal.jobj [("u1", JVal.jobj [("dob", JVal.jstr "2030-01-01")])])])
      0 _ rfl
  · exact C10_dob_validation.2.2.1
      [("users", JVal.jobj [("u1", JVal.jobj [("dob", JVal.jstr "2030-01-01")])])]
      [] [] [("dob", JVal.jstr "2030-01-01")] "u1" "2030-01-01" ⟨2030, 1, 1⟩ 0 _
      rfl rfl (by decide) (by decide) rfl
  · exact C10_dob_validation.2.2.2 (shiftDays 0 ⟨2024, 5, 15⟩) "u2" "1850-01-01"
      ⟨1850, 1, 1⟩ ⟨true, [], []⟩ (by decide) (by decide) (by decide)

/-- C10 counterexample to the passenger clause: a passenger record nested
inside a user holds DOB `9999-01-01`, a valid ISO date strictly after the
recomputed current date `2024-05-15`, yet validation records no error and
passes: only the top-level `dob` of each user record is examined. -/
theorem C10_counterexample :
    validateDobsReasonable
        (JVal.jobj [("users", JVal.jobj [("u1", JVal.jobj [("passengers",
          JVal.jarr [JVal.jobj [("dob", JVal.jstr "9999-01-01")]])])])])
        0 ⟨true, [], []⟩ = some ⟨true, [], []⟩ ∧
    parseIsoDate ("9999-01-01" : String).toList = some ⟨9999, 1, 1⟩ ∧
    ymdLt (shiftDays 0 ⟨2024, 5, 15⟩) ⟨9999, 1, 1⟩ = true := by
  exact ⟨rfl, by decide, by decide⟩

/-! ## The Validator's flight-date referential check

`_validate_flight_dates_exist` (validate.py lines 89-121) JSON-serialises
each action's `arguments` (`json.dumps`: ASCII output, `", "` and `": "`
separators), scans the serialisation with the ISO-date pattern, and
records an error for each match that starts with `"202"`, is absent from
the collected flight-date keys, and has first-four-characters integer at
least 2020. -/

/-- Lowercase hexadecimal digit, as used by `json.dumps` escapes. -/
def hexDigitChar (n : Nat) : Char :=
  if n < 10 then Char.ofNat (48 + n) else Char.ofNat (87 + n)

/-- Four lowercase hex digits of a code unit (the `XXXX` of `\uXXXX`). -/
def hex4 (n : Nat) : List Char :=
  [hexDigitChar (n / 4096 % 16), hexDigitChar (n / 256 % 16),
    hexDigitChar (n / 16 % 16), hexDigitChar (n % 16)]

/-- `json.dumps` (default `ensure_ascii=True`) escaping of one character:
`\"` and `\\`, the short escapes for backspace, tab, newline, form feed
and carriage return, `\uXXXX` for the remaining code points below 0x20 or
above 0x7e, and UTF-16 surrogate pairs for code points above 0xffff. -/
def escChar (c : Char) : List Char :=
  if c.toNat = 34 then [Char.ofNat 92, Char.ofNat 34]
  else if c.toNat = 92 then [Char.ofNat 92, Char.ofNat 92]
  else if c.toNat = 8 then [Char.ofNat 92, 'b']
  else if c.toNat = 9 then [Char.ofNat 92, 't']
  else if c.toNat = 10 then [Char.ofNat 92, 'n']
  else if c.toNat = 12 then [Char.ofNat 92, 'f']
  else if c.toNat = 13 then [Char.ofNat 92, 'r']
  else if c.toNat < 32 || c.toNat > 126 then
    if c.toNat < 65536 then Char.ofNat 92 :: 'u' :: hex4 c.toNat
    else Char.ofNat 92 :: 'u' :: hex4 (55296 + (c.toNat - 65536) / 1024) ++
      Char.ofNat 92 :: 'u' :: hex4 (56320 + (c.toNat - 65536) % 1024)
  else [c]

/-- A JSON string literal: quote, escaped characters, quote. -/
def escString (cs : List Char) : List Char :=
  Char.ofNat 34 :: (cs.map escChar).join ++ [Char.ofNat 34]

/-- Decimal rendering of an integer (`str(n)` for Python ints). -/
def renderInt (n : Int) : List Char :=
  if n < 0 then '-' :: renderNat n.natAbs else renderNat n.natAbs

/-- `sep.join` over already-rendered items. -/
def sepJoin (sep : List Char) : List (List Char) → List Char
  | [] => []
  | [x] => x
  | x :: y :: t => x ++ sep ++ sepJoin sep (y :: t)

/-- Fuel-indexed `json.dumps` with the default separators `", "` and
`": "` (no `indent`), over the JSON model: object keys are already
strings.  `none` only at fuel exhaustion; any fuel exceeding the nesting
depth gives the dump. -/
def jsonDumpsF : Nat → JVal → Option (List Char)
  | 0, _ => none
  | fuel + 1, v =>
      match v with
      | JVal.jnull => some ('n' :: 'u' :: 'l' :: ['l'])
      | JVal.jbool true => some ('t' :: 'r' :: 'u' :: ['e'])
      | JVal.jbool false => some ('f' :: 'a' :: 'l' :: 's' :: ['e'])
      | JVal.jnum n => some (renderInt n)
      | JVal.jstr s => some (escString s.toList)
      | JVal.jarr l =>
          (mapMO (jsonDumpsF fuel) l).map (fun ds => '[' :: sepJoin (',' :: [' ']) ds ++ [']'])
      | JVal.jobj kvs =>
          (mapMO (fun q => (jsonDumpsF fuel q.2).map
              (fun d => escString q.1.toList ++ ':' :: ' ' :: d)) kvs).map
            (fun ds => Char.ofNat 123 :: sepJoin (',' :: [' ']) ds ++ [Char.ofNat 125])

/-- Python iteration (`for x in v`): lists yield elements, dicts yield
their keys, strings yield one-character strings; numbers, booleans and
`None` are not iterable (uncaught `TypeError`). -/
def pyIter : JVal → Option (List JVal)
  | JVal.jarr l => some l
  | JVal.jobj kvs => some (kvs.map (fun q => JVal.jstr q.1))
  | JVal.jstr s => some (s.toList.map (fun c => JVal.jstr (String.mk [c])))
  | _ => none

/-- `str(x)` for scalar JSON values, exactly as CPython renders them.
Container task ids would render through `repr`, whose Unicode
printability tables lie outside this model: the embedding stops (`none`)
there, and no theorem below exercises that case. -/
def pyStrAtom : JVal → Option String
  | JVal.jstr s => some s
  | JVal.jnum n => some (String.mk (renderInt n))
  | JVal.jbool true => some "True"
  | JVal.jbool false => some "False"
  | JVal.jnull => some "None"
  | _ => none

/-- `flight.get("dates", {}).keys()` for one flight record; non-dict
flights or `dates` values raise `AttributeError` (uncaught). -/
def datesKeysOfFlight : JVal → Option (List String)
  | JVal.jobj fkvs =>
      match findKey fkvs "dates" with
      | none => some []
      | some (JVal.jobj ds) => some (ds.map Prod.fst)
      | some _ => none
  | _ => none

/-- The `available_dates` set of `_validate_flight_dates_exist`, collected
from `db_data.get("flights", {}).items()`; a list models the set, since
only string membership is consumed. -/
def availableDatesOf : JVal → Option (List String)
  | JVal.jobj kvs =>
      match findKey kvs "flights" with
      | none => some []
      | some (JVal.jobj flights) =>
          (mapMO (fun q => datesKeysOfFlight q.2) flights).map List.join
      | some _ => none
  | _ => none

/-- `s.startswith(p)`. -/
def strStartsWith (p s : String) : Bool := p.toList.isPrefixOf s.toList

/-- `int(cs)` on the digit strings arising here: defined exactly on
nonempty all-digit strings (the full `int` also accepts signs and
whitespace, which the date pattern excludes). -/
def intOfDigits (cs : List Char) : Option Nat :=
  if cs ≠ [] ∧ cs.all Char.isDigit then
    some (cs.foldl (fun a c => a * 10 + digitVal c) 0)
  else none

/-- The error message of `_validate_flight_dates_exist`. -/
def c1Msg (tid date : String) : String :=
  "Task " ++ tid ++ ": Flight date " ++ date ++ " not found in db.json"

/-- The body of the per-match loop: error iff the match starts with
`"202"`, is not an available date, and its first four characters read as
an integer at least 2020. -/
def dateCheckStep (avail : List String) (tid : String) (acc : ValidationResult)
    (date : String) : Option ValidationResult :=
  if strStartsWith "202" date && !(avail.contains date) then
    match intOfDigits (date.toList.take 4) with
    | none => none
    | some y => if 2020 ≤ y then some (addError acc (c1Msg tid date)) else some acc
  else some acc

/-- The per-match loop over the dates found in one dumped `arguments`. -/
def dateCheckFold (avail : List String) (tid : String) :
    List String → ValidationResult → Option ValidationResult
  | [], r => some r
  | d :: t, r =>
      match dateCheckStep avail tid r d with
      | none => none
      | some r2 => dateCheckFold avail tid t r2

/-- One action of the inner loop: only dict actions with an `arguments`
key are dumped and scanned; `"arguments" in action` on strings and lists
either skips or raises `TypeError` at the subscription. -/
def actionCheck (fuel : Nat) (avail : List String) (tid : String) (action : JVal)
    (r : ValidationResult) : Option ValidationResult :=
  match action with
  | JVal.jobj akvs =>
      match findKey akvs "arguments" with
      | none => some r
      | some args =>
          match jsonDumpsF fuel args with
          | none => none
          | some s => dateCheckFold avail tid (isoDateMatches (String.mk s)) r
  | JVal.jstr s1 => if isSubstr "arguments" s1 then none else some r
  | JVal.jarr l => if l.any (strElemEq "arguments") then none else some r
  | _ => none

/-- Sequential fold of a per-element check over an iterated value. -/
def foldOptJ (f : JVal → ValidationResult → Option ValidationResult) :
    List JVal → ValidationResult → Option ValidationResult
  | [], r => some r
  | a :: t, r =>
      match f a r with
      | none => none
      | some r2 => foldOptJ f t r2

/-- One task of the outer loop of `_validate_flight_dates_exist`:
`task.get("id", "unknown")` (dict tasks only), the guarded descent
through `evaluation_criteria` and `actions`, and the action loop. -/
def taskCheck (fuel : Nat) (avail : List String) (task : JVal) (r : ValidationResult) :
    Option ValidationResult :=
  match task with
  | JVal.jobj tkvs =>
      match pyStrAtom (match findKey tkvs "id" with
        | none => JVal.jstr "unknown"
        | some v => v) with
      | none => none
      | some tid =>
          match findKey tkvs "evaluation_criteria" with
          | none => some r
          | some c =>
              if jtruthy c then
                match c with
                | JVal.jobj ckvs =>
                    match findKey ckvs "actions" with
                    | none => some r
                    | some av =>
                        if jtruthy av then
                          match pyIter av with
                          | none => none
                          | some acts => foldOptJ (actionCheck fuel avail tid) acts r
                        else some r
                | JVal.jstr s => if isSubstr "actions" s then none else some r
                | JVal.jarr l => if l.any (strElemEq "actions") then none else some r
                | _ => none
              else some r
  | _ => none

/-- Embedding of `_validate_flight_dates_exist` (validate.py lines
89-121). -/
def validateFlightDatesExist (fuel : Nat) (db tasks : JVal) (r : ValidationResult) :
    Option ValidationResult :=
  match availableDatesOf db with
  | none => none
  | some avail =>
      match pyIter tasks with
      | none => none
      | some ts => foldOptJ (taskCheck fuel avail) ts r

theorem digitVal_lt_ten {c : Char} (h : c.isDigit = true) : digitVal c < 10 := by
  simp only [Char.isDigit, Bool.and_eq_true, decide_eq_true_eq] at h
  obtain ⟨h1, h2⟩ := h
  have hle : c.val.toNat ≤ 57 := by exact_mod_cast h2
  simp only [digitVal, Char.toNat]
  omega

theorem dateCheckStep_pos {avail : List String} {tid d : String} {y : Nat}
    (r : ValidationResult)
    (hs : strStartsWith "202" d = true) (hc : avail.contains d = false)
    (hlen : 4 ≤ d.toList.length) (hy : intOfDigits (d.toList.take 4) = some y) :
    dateCheckStep avail tid r d = some (addError r (c1Msg tid d)) ∧
      2020 ≤ y ∧ y < 2030 := by
  have hpre : ("202" : String).toList <+: d.toList := by
    simpa [strStartsWith, List.isPrefixOf_iff_prefix] using hs
  obtain ⟨t, ht⟩ := hpre
  rcases t with _ | ⟨c, t2⟩
  · exfalso
    rw [← ht] at hlen
    simp at hlen
  · have htake : d.toList.take 4 = ['2', '0', '2', c] := by
      rw [← ht]
      rfl
    have hy2 := hy
    rw [htake] at hy2
    simp only [intOfDigits] at hy2
    split at hy2
    · rename_i hcond
      have hcdig : c.isDigit = true := by
        have hall := hcond.2
        simp only [List.all_cons, List.all_nil, Bool.and_eq_true, Bool.and_true] at hall
        exact hall.2.2.2
      replace hy2 : some (2020 + digitVal c) = some y := hy2
      have hyv : 2020 + digitVal c = y := Option.some_inj.mp hy2
      have hlt := digitVal_lt_ten hcdig
      refine ⟨?_, by omega, by omega⟩
      unfold dateCheckStep
      rw [hs, hc]
      rw [if_pos (show (true && !false) = true from rfl)]
      rw [hy]
      show (if 2020 ≤ y then some (addError r (c1Msg tid d)) else some r) =
        some (addError r (c1Msg tid d))
      rw [if_pos (by omega)]
    · exact Option.noConfusion hy2

theorem dateCheckStep_neg (avail : List String) (tid : String) (r : ValidationResult)
    {d : String} (hs : strStartsWith "202" d = false) :
    dateCheckStep avail tid r d = some r := by
  unfold dateCheckStep
  rw [hs]
  rfl

theorem dateCheckFold_append (avail : List String) (tid : String) :
    ∀ (l1 l2 : List String) (r : ValidationResult),
      dateCheckFold avail tid (l1 ++ l2) r =
        match dateCheckFold avail tid l1 r with
        | none => none
        | some r1 => dateCheckFold avail tid l2 r1 := by
  intro l1
  induction l1 with
  | nil => intro l2 r; rfl
  | cons d t ih =>
      intro l2 r
      simp only [List.cons_append, dateCheckFold]
      rcases dateCheckStep avail tid r d with _ | r2
      · rfl
      · exact ih l2 r2

theorem dateCheckStep_errors {avail : List String} {tid d : String}
    {r r2 : ValidationResult} (h : dateCheckStep avail tid r d = some r2) :
    ∃ es, r2.errors = r.errors ++ es := by
  unfold dateCheckStep at h
  split at h
  · split at h
    · exact Option.noConfusion h
    · split at h
      · obtain rfl := Option.some_inj.mp h
        exact ⟨[c1Msg tid d], rfl⟩
      · obtain rfl := Option.some_inj.mp h
        exact ⟨[], (List.append_nil _).symm⟩
  · obtain rfl := Option.some_inj.mp h
    exact ⟨[], (List.append_nil _).symm⟩

theorem dateCheckFold_errors {avail : List String} {tid : String} :
    ∀ {ds : List String} {r r2 : ValidationResult},
      dateCheckFold avail tid ds r = some r2 → ∃ es, r2.errors = r.errors ++ es := by
  intro ds
  induction ds with
  | nil =>
      intro r r2 h
      obtain rfl := Option.some_inj.mp h
      exact ⟨[], (List.append_nil _).symm⟩
  | cons d t ih =>
      intro r r2 h
      simp only [dateCheckFold] at h
      rcases hstep : dateCheckStep avail tid r d with _ | r1 <;> rw [hstep] at h
      · exact Option.noConfusion h
      · obtain ⟨es1, he1⟩ := dateCheckStep_errors hstep
        obtain ⟨es2, he2⟩ := ih h
        exact ⟨es1 ++ es2, by rw [he2, he1, List.append_assoc]⟩

theorem dateCheckFold_mem {avail : List String} {tid d : String} {y : Nat}
    {ds : List String} {r r2 : ValidationResult}
    (hd : d ∈ ds) (hs : strStartsWith "202" d = true) (hc : avail.contains d = false)
    (hlen : 4 ≤ d.toList.length) (hy : intOfDigits (d.toList.take 4) = some y)
    (h : dateCheckFold avail tid ds r = some r2) :
    c1Msg tid d ∈ r2.errors := by
  obtain ⟨pre, post, rfl⟩ := List.append_of_mem hd
  rw [dateCheckFold_append] at h
  rcases h1 : dateCheckFold avail tid pre r with _ | r1 <;> rw [h1] at h
  · exact Option.noConfusion h
  · simp only [dateCheckFold] at h
    obtain ⟨hstep, -, -⟩ := dateCheckStep_pos r1 hs hc hlen hy
    rw [hstep] at h
    obtain ⟨es, he⟩ := dateCheckFold_errors h
    rw [he]
    apply List.mem_append_left
    simp [addError]

theorem validateFDE_single (fuel : Nat) (db : JVal) (avail : List String) (tid : String)
    (args : JVal) (r : ValidationResult) (s : List Char)
    (hav : availableDatesOf db = some avail) (hdump : jsonDumpsF fuel args = some s) :
    validateFlightDatesExist fuel db
      (JVal.jarr [JVal.jobj [("id", JVal.jstr tid),
        ("evaluation_criteria", JVal.jobj [("actions",
          JVal.jarr [JVal.jobj [("arguments", args)]])])]]) r =
    dateCheckFold avail tid (isoDateMatches (String.mk s)) r := by
  unfold validateFlightDatesExist
  rw [hav]
  show (match (match (match jsonDumpsF fuel args with
        | none => none
        | some s2 => dateCheckFold avail tid (isoDateMatches (String.mk s2)) r) with
      | none => none
      | some r2 => foldOptJ (actionCheck fuel avail tid) [] r2) with
    | none => none
    | some r2 => foldOptJ (taskCheck fuel avail) [] r2) =
    dateCheckFold avail tid (isoDateMatches (String.mk s)) r
  rw [hdump]
  show (match (match dateCheckFold avail tid (isoDateMatches (String.mk s)) r with
      | none => none
      | some r2 => foldOptJ (actionCheck fuel avail tid) [] r2) with
    | none => none
    | some r2 => foldOptJ (taskCheck fuel avail) [] r2) =
    dateCheckFold avail tid (isoDateMatches (String.mk s)) r
  rcases hf : dateCheckFold avail tid (isoDateMatches (String.mk s)) r with _ | r2 <;> rfl

/-- C1: in `_validate_flight_dates_exist`, a date matched in the dumped
action arguments is flagged iff it starts with `"202"` and is absent from
the flight-date keys: (1) such a date is recorded as a fatal error naming
the task and the date, and its leading four-digit year necessarily lies in
2020–2029 (so the source's `year >= 2020` re-check is vacuous there);
(2) a matched date not starting with `"202"` — in particular every date
with year below 2020, but also every date with year 2030 or later — never
adds an error; (3) the error message survives to the end of the per-match
loop; (4) for a task whose `arguments` dump to `s`, the validator reduces
to the per-match loop over the ISO-date matches of `s`.  (The claim's
assertion that every missing date with year ≥ 2020 is flagged is refuted
by the counterexample: year 2030 escapes the `"202"` prefix guard.) -/
theorem C1_flight_date_check :
    (∀ (avail : List String) (tid d : String) (y : Nat) (r : ValidationResult),
        strStartsWith "202" d = true → avail.contains d = false →
        4 ≤ d.toList.length → intOfDigits (d.toList.take 4) = some y →
        dateCheckStep avail tid r d = some (addError r (c1Msg tid d)) ∧
          2020 ≤ y ∧ y < 2030) ∧
    (∀ (avail : List String) (tid d : String) (r : ValidationResult),
        strStartsWith "202" d = false → dateCheckStep avail tid r d = some r) ∧
    (∀ (avail : List String) (tid d : String) (y : Nat) (ds : List String)
        (r r2 : ValidationResult),
        d ∈ ds → strStartsWith "202" d = true → avail.contains d = false →
        4 ≤ d.toList.length → intOfDigits (d.toList.take 4) = some y →
        dateCheckFold avail tid ds r = some r2 →
        c1Msg tid d ∈ r2.errors) ∧
    (∀ (fuel : Nat) (db : JVal) (avail : List String) (tid : String) (args : JVal)
        (r : ValidationResult) (s : List Char),
        availableDatesOf db = some avail → jsonDumpsF fuel args = some s →
        validateFlightDatesExist fuel db
          (JVal.jarr [JVal.jobj [("id", JVal.jstr tid),
            ("evaluation_criteria", JVal.jobj [("actions",
              JVal.jarr [JVal.jobj [("arguments", args)]])])]]) r =
        dateCheckFold avail tid (isoDateMatches (String.mk s)) r) := by
  refine ⟨?_, ?_, ?_, ?_⟩
  · intro avail tid d y r hs hc hlen hy
    exact dateCheckStep_pos r hs hc hlen hy
  · intro avail tid d r hs
    exact dateCheckStep_neg avail tid r hs
  · intro avail tid d y ds r r2 hd hs hc hlen hy h
    exact dateCheckFold_mem hd hs hc hlen hy h
  · intro fuel db avail tid args r s hav hdump
    exact validateFDE_single fuel db avail tid args r s hav hdump

/-- C1 witness: the missing date `2024-05-15` is flagged with the exact
message, `2019-01-01` is skipped, the message survives the loop, and the
one-task validator run reduces to the per-match loop. -/
theorem C1_flight_date_check_witness :
    (dateCheckStep [] "t1" ⟨true, [], []⟩ "2024-05-15" =
        some (addError ⟨true, [], []⟩ (c1Msg "t1" "2024-05-15")) ∧
      2020 ≤ 2024 ∧ 2024 < 2030) ∧
    dateCheckStep [] "t1" ⟨true, [], []⟩ "2019-01-01" = some ⟨true, [], []⟩ ∧
    c1Msg "t1" "2024-05-15" ∈ (addError ⟨true, [], []⟩ (c1Msg "t1" "2024-05-15")).errors ∧
    validateFlightDatesExist 2 (JVal.jobj [])
      (JVal.jarr [JVal.jobj [("id", JVal.jstr "t1"),
        ("evaluation_criteria", JVal.jobj [("actions",
          JVal.jarr [JVal.jobj [("arguments", JVal.jstr "x")]])])]]) ⟨true, [], []⟩ =
    dateCheckFold [] "t1" (isoDateMatches (String.mk (escString ("x" : String).toList)))
      ⟨true, [], []⟩ := by
  refine ⟨?_, ?_, ?_, ?_⟩
  · exact C1_flight_date_check.1 [] "t1" "2024-05-15" 2024 ⟨true, [], []⟩
      (by decide) (by decide) (by decide) (by decide)
  · exact C1_flight_date_check.2.1 [] "t1" "2019-01-01" ⟨true, [], []⟩ (by decide)
  · exact C1_flight_date_check.2.2.1 [] "t1" "2024-05-15" 2024 ["2024-05-15"]
      ⟨true, [], []⟩ (addError ⟨true, [], []⟩ (c1Msg "t1" "2024-05-15"))
      (by decide) (by decide) (by decide) (by decide) (by decide) rfl
  · exact C1_flight_date_check.2.2.2 2 (JVal.jobj []) [] "t1" (JVal.jstr "x")
      ⟨true, [], []⟩ (escString ("x" : String).toList) rfl rfl

/-- C1 counterexample: the date `2030-01-01` is embedded in the dumped
arguments, its year 2030 is at least 2020, it is absent from the (empty)
flight-date keys, yet the validator records no error: the
`date.startswith("202")` guard restricts the check to years 2020–2029. -/
theorem C1_counterexample :
    validateFlightDatesExist 3 (JVal.jobj [])
      (JVal.jarr [JVal.jobj [("id", JVal.jstr "t1"),
        ("evaluation_criteria", JVal.jobj [("actions",
          JVal.jarr [JVal.jobj [("arguments",
            JVal.jobj [("flight_date", JVal.jstr "2030-01-01")])]])])]])
      ⟨true, [], []⟩ = some ⟨true, [], []⟩ ∧
    availableDatesOf (JVal.jobj []) = some [] ∧
    (jsonDumpsF 3 (JVal.jobj [("flight_date", JVal.jstr "2030-01-01")])).map
        (fun cs => isoDateMatches (String.mk cs)) = some ["2030-01-01"] ∧
    intOfDigits (("2030-01-01" : String).toList.take 4) = some 2030 := by
  exact ⟨rfl, rfl, rfl, by decide⟩

/-! ## The Dataset Generator's preconditions

`generate_offset_dataset` (generate_dataset.py lines 337-379) validates
its preconditions before touching the filesystem.  The filesystem is
modelled by the list of existing paths (consulted by `Path.exists`), and
the function returns the raised error or, on success, the trace of
mutations (`mkdir`/`open(..., "w")`/`shutil.copy`) in source order — the
success trace lists the writes assuming the reads and transforms they
feed on succeed, which is all the precondition claims consume.  `Path`
roots (`DATA_DIR`, `SRC_DIR`) are rendered symbolically. -/

inductive GenError where
  | valueError : String → GenError
  | fileExistsError : String → GenError
deriving DecidableEq, Repr

inductive FsOp where
  | mkdirOp : String → FsOp
  | writeOp : String → FsOp
  | copyOp : String → String → FsOp
deriving DecidableEq, Repr

/-- `get_offset_domain_name` (config.py): `airline` at 0, otherwise
`airline_offset_{p|n}{abs(offset_days)}d`. -/
def offsetDomainName (offsetDays : Int) : String :=
  if offsetDays = 0 then "airline"
  else "airline_offset_" ++ (if offsetDays > 0 then "p" else "n") ++
    String.mk (renderNat offsetDays.natAbs) ++ "d"

/-- `get_offset_data_dir`: `OFFSET_DATA_DIR / domain_name`. -/
def offsetDataDir (offsetDays : Int) : String :=
  "DATA_DIR/tau2/domains/" ++ offsetDomainName offsetDays

/-- `get_offset_src_dir`: `SRC_DIR / "tau2" / "domains" / domain_name`. -/
def offsetSrcDir (offsetDays : Int) : String :=
  "SRC_DIR/tau2/domains/" ++ offsetDomainName offsetDays

/-- Embedding of `generate_offset_dataset`: the zero-offset guard, the two
existence guards (short-circuited by `force`), then the directory
creations and file writes of `_generate_data_files` and
`_generate_src_files` in source order. -/
def generateOffsetDataset (fs : List String) (offsetDays : Int) (force : Bool) :
    Except GenError Unit × List FsOp :=
  if offsetDays = 0 then
    (Except.error (GenError.valueError
      "Offset of 0 is the original dataset, no generation needed"), [])
  else
    let dataDir := offsetDataDir offsetDays
    let srcDir := offsetSrcDir offsetDays
    if fs.contains dataDir && !force then
      (Except.error (GenError.fileExistsError
        ("Data directory already exists: " ++ dataDir ++
          ". Use force=True to overwrite.")), [])
    else if fs.contains srcDir && !force then
      (Except.error (GenError.fileExistsError
        ("Source directory already exists: " ++ srcDir ++
          ". Use force=True to overwrite.")), [])
    else
      (Except.ok (),
        [FsOp.mkdirOp dataDir, FsOp.mkdirOp srcDir,
          FsOp.writeOp (dataDir ++ "/db.json"), FsOp.writeOp (dataDir ++ "/tasks.json"),
          FsOp.writeOp (dataDir ++ "/policy.md"),
          FsOp.copyOp "DATA_DIR/tau2/domains/airline/split_tasks.json"
            (dataDir ++ "/split_tasks.json"),
          FsOp.writeOp (srcDir ++ "/__init__.py"), FsOp.writeOp (srcDir ++ "/tools.py"),
          FsOp.writeOp (srcDir ++ "/environment.py"), FsOp.writeOp (srcDir ++ "/utils.py"),
          FsOp.copyOp "SRC_DIR/tau2/domains/airline/data_model.py"
            (srcDir ++ "/data_model.py")] ++
        (if fs.contains "SRC_DIR/tau2/domains/airline/user_tools.py" then
          [FsOp.copyOp "SRC_DIR/tau2/domains/airline/user_tools.py"
            (srcDir ++ "/user_tools.py")]
        else []))

/-- C7: the generator fails fast with a descriptive typed error and an
empty mutation trace (no directory created, no file written, filesystem
unchanged) when: (1) the offset is zero, for any filesystem and force
flag; (2) the data directory already exists and force is unset; (3) the
source directory already exists and force is unset (the data-directory
guard running first). -/
theorem C7_generator_preconditions :
    (∀ (fs : List String) (force : Bool),
        generateOffsetDataset fs 0 force =
          (Except.error (GenError.valueError
            "Offset of 0 is the original dataset, no generation needed"), [])) ∧
    (∀ (fs : List String) (offsetDays : Int),
        offsetDays ≠ 0 → fs.contains (offsetDataDir offsetDays) = true →
        generateOffsetDataset fs offsetDays false =
          (Except.error (GenError.fileExistsError
            ("Data directory already exists: " ++ offsetDataDir offsetDays ++
              ". Use force=True to overwrite.")), [])) ∧
    (∀ (fs : List String) (offsetDays : Int),
        offsetDays ≠ 0 → fs.contains (offsetDataDir offsetDays) = false →
        fs.contains (offsetSrcDir offsetDays) = true →
        generateOffsetDataset fs offsetDays false =
          (Except.error (GenError.fileExistsError
            ("Source directory already exists: " ++ offsetSrcDir offsetDays ++
              ". Use force=True to overwrite.")), [])) := by
  refine ⟨?_, ?_, ?_⟩
  · intro fs force
    rfl
  · intro fs offsetDays h hdc
    unfold generateOffsetDataset
    rw [if_neg h]
    dsimp only
    rw [hdc]
    rw [if_pos (show (true && !false) = true from rfl)]
  · intro fs offsetDays h hdc hsc
    unfold generateOffsetDataset
    rw [if_neg h]
    dsimp only
    rw [hdc, hsc]
    rw [if_neg (show ¬ ((false && !false) = true) from by decide)]
    rw [if_pos (show (true && !false) = true from rfl)]

/-- C7 witness: offset 0 rejected on any filesystem; offset 365 rejected
without force when its data (resp. source) directory exists; each with an
empty mutation trace. -/
theorem C7_generator_preconditions_witness :
    generateOffsetDataset ["DATA_DIR/tau2/domains/airline"] 0 true =
      (Except.error (GenError.valueError
        "Offset of 0 is the original dataset, no generation needed"), []) ∧
    generateOffsetDataset ["DATA_DIR/tau2/domains/airline_offset_p365d"] 365 false =
      (Except.error (GenError.fileExistsError
        ("Data directory already exists: " ++ offsetDataDir 365 ++
          ". Use force=True to overwrite.")), []) ∧
    generateOffsetDataset ["SRC_DIR/tau2/domains/airline_offset_n30d"] (-30) false =
      (Except.error (GenError.fileExistsError
        ("Source directory already exists: " ++ offsetSrcDir (-30) ++
          ". Use force=True to overwrite.")), []) := by
  refine ⟨C7_generator_preconditions.1 ["DATA_DIR/tau2/domains/airline"] true,
    C7_generator_preconditions.2.1 ["DATA_DIR/tau2/domains/airline_offset_p365d"] 365
      (by decide) (by decide),
    C7_generator_preconditions.2.2 ["SRC_DIR/tau2/domains/airline_offset_n30d"] (-30)
      (by decide) (by decide) (by decide)⟩

/-! ## A heap model for the Structured Transformer's frame property

`transform_db` and `transform_tasks` deep-copy their input and then
mutate the copy in place.  Mutation is invisible to the pure value
embedding, so the two functions are re-embedded here over an explicit
heap: scalars are immutable values, dicts and lists are cells addressed
by naturals, allocation uses the next free address.  (CPython's `deepcopy`
memo additionally preserves internal sharing; that affects only object
identities inside the copy, not the untouchedness of pre-existing cells
nor decoded values, and is omitted.) -/

inductive HVal where
  | hnull : HVal
  | hbool : Bool → HVal
  | hnum : Int → HVal
  | hstr : String → HVal
  | href : Nat → HVal
deriving DecidableEq, Repr

inductive HObj where
  | hdict : List (String × HVal) → HObj
  | hlist : List HVal → HObj
deriving DecidableEq, Repr

structure Heap where
  cells : List (Nat × HObj)
  next : Nat
deriving DecidableEq, Repr

def lookupH : List (Nat × HObj) → Nat → Option HObj
  | [], _ => none
  | q :: t, a => if q.1 = a then some q.2 else lookupH t a

/-- Replace the cell at an address (no-op on dangling addresses, which no
run reaches). -/
def writeH : List (Nat × HObj) → Nat → HObj → List (Nat × HObj)
  | [], _, _ => []
  | q :: t, a, o => if q.1 = a then (a, o) :: t else q :: writeH t a o

def allocH (h : Heap) (o : HObj) : Heap × Nat :=
  (⟨(h.next, o) :: h.cells, h.next + 1⟩, h.next)

def writeHeap (h : Heap) (a : Nat) (o : HObj) : Heap :=
  ⟨writeH h.cells a o, h.next⟩

/-- All cell addresses lie below the allocation counter. -/
def wfHeap (h : Heap) : Bool :=
  h.cells.all (fun q => q.1 < h.next)

/-- A value mentions no address below `n0`. -/
def hvalAbove (n0 : Nat) : HVal → Bool
  | HVal.href a => n0 ≤ a
  | _ => true

def hobjAbove (n0 : Nat) : HObj → Bool
  | HObj.hdict kvs => kvs.all (fun q => hvalAbove n0 q.2)
  | HObj.hlist l => l.all (hvalAbove n0)

/-- Every cell at an address at least `n0` mentions only addresses at
least `n0`: the region above `n0` is closed. -/
def heapAbove (n0 : Nat) (h : Heap) : Bool :=
  h.cells.all (fun q => q.1 < n0 || hobjAbove n0 q.2)

/-- The cells below `n0` are untouched. -/
def sameBelow (n0 : Nat) (h h2 : Heap) : Prop :=
  ∀ a, a < n0 → lookupH h2.cells a = lookupH h.cells a

/-- The postcondition bundle every mutating step of the transformer
satisfies relative to the baseline `n0`: well-formedness, counter
monotonicity, the frame below `n0`, and closure of the region above
`n0`. -/
def frameOk (n0 : Nat) (h h2 : Heap) : Prop :=
  wfHeap h2 = true ∧ h.next ≤ h2.next ∧ sameBelow n0 h h2 ∧ heapAbove n0 h2 = true

theorem frameOk_rfl {n0 : Nat} {h : Heap} (hwf : wfHeap h = true)
    (hreg : heapAbove n0 h = true) : frameOk n0 h h :=
  ⟨hwf, le_refl _, fun _ _ => rfl, hreg⟩

theorem frameOk_trans {n0 : Nat} {h h1 h2 : Heap} (a : frameOk n0 h h1)
    (b : frameOk n0 h1 h2) : frameOk n0 h h2 :=
  ⟨b.1, le_trans a.2.1 b.2.1, fun x hx => (b.2.2.1 x hx).trans (a.2.2.1 x hx), b.2.2.2⟩

theorem lookupH_writeH (cells : List (Nat × HObj)) (a : Nat) (o : HObj) (x : Nat)
    (hne : x ≠ a) : lookupH (writeH cells a o) x = lookupH cells x := by
  induction cells with
  | nil => rfl
  | cons q t ih =>
      simp only [writeH]
      by_cases hq : q.1 = a
      · rw [if_pos hq]
        simp only [lookupH]
        rw [if_neg (by omega), if_neg (by rw [hq]; omega)]
      · rw [if_neg hq]
        simp only [lookupH]
        by_cases hx : q.1 = x
        · rw [if_pos hx, if_pos hx]
        · rw [if_neg hx, if_neg hx]
          exact ih

theorem writeH_mem {cells : List (Nat × HObj)} {a : Nat} {o : HObj} :
    ∀ {q : Nat × HObj}, q ∈ writeH cells a o →
      (∃ p, p ∈ cells ∧ q.1 = p.1) ∧ (q ∈ cells ∨ q = (a, o)) := by
  induction cells with
  | nil =>
      intro q hq
      simp [writeH] at hq
  | cons p t ih =>
      intro q hq
      simp only [writeH] at hq
      by_cases hp : p.1 = a
      · rw [if_pos hp] at hq
        rcases List.mem_cons.mp hq with h1 | h1
        · subst h1
          exact ⟨⟨p, List.mem_cons_self _ _, hp.symm⟩, Or.inr rfl⟩
        · exact ⟨⟨q, List.mem_cons.mpr (Or.inr h1), rfl⟩,
            Or.inl (List.mem_cons.mpr (Or.inr h1))⟩
      · rw [if_neg hp] at hq
        rcases List.mem_cons.mp hq with h1 | h1
        · subst h1
          exact ⟨⟨q, List.mem_cons_self _ _, rfl⟩, Or.inl (List.mem_cons_self _ _)⟩
        · obtain ⟨⟨p2, hp2, he⟩, hor⟩ := ih h1
          exact ⟨⟨p2, List.mem_cons.mpr (Or.inr hp2), he⟩,
            hor.imp (fun hx => List.mem_cons.mpr (Or.inr hx)) id⟩

theorem wfHeap_writeHeap {h : Heap} {a : Nat} {o : HObj} (hwf : wfHeap h = true) :
    wfHeap (writeHeap h a o) = true := by
  simp only [wfHeap, writeHeap, List.all_eq_true] at hwf ⊢
  intro q hq
  obtain ⟨⟨p, hp, he⟩, -⟩ := writeH_mem hq
  have := hwf p hp
  simp only [decide_eq_true_eq] at this ⊢
  omega

theorem heapAbove_writeHeap {n0 : Nat} {h : Heap} {a : Nat} {o : HObj}
    (hreg : heapAbove n0 h = true) (ho : hobjAbove n0 o = true) :
    heapAbove n0 (writeHeap h a o) = true := by
  simp only [heapAbove, writeHeap, List.all_eq_true] at hreg ⊢
  intro q hq
  obtain ⟨-, hor⟩ := writeH_mem hq
  rcases hor with h1 | h1
  · exact hreg q h1
  · subst h1
    exact Bool.or_eq_true_iff.mpr (Or.inr ho)

theorem frameOk_writeHeap {n0 : Nat} {h : Heap} {a : Nat} {o : HObj}
    (hwf : wfHeap h = true) (hreg : heapAbove n0 h = true)
    (ha : n0 ≤ a) (ho : hobjAbove n0 o = true) :
    frameOk n0 h (writeHeap h a o) :=
  ⟨wfHeap_writeHeap hwf, le_refl _,
    fun x hx => lookupH_writeH h.cells a o x (by omega),
    heapAbove_writeHeap hreg ho⟩

theorem frameOk_allocH {n0 : Nat} {h : Heap} {o : HObj}
    (hwf : wfHeap h = true) (hreg : heapAbove n0 h = true)
    (hn0 : n0 ≤ h.next) (ho : hobjAbove n0 o = true) :
    frameOk n0 h (allocH h o).1 ∧ n0 ≤ (allocH h o).2 ∧ (allocH h o).2 < (allocH h o).1.next := by
  refine ⟨⟨?_, ?_, ?_, ?_⟩, hn0, by simp [allocH]⟩
  · simp only [wfHeap, allocH, List.all_cons, List.all_eq_true, Bool.and_eq_true] at hwf ⊢
    refine ⟨by simp, fun q hq => ?_⟩
    have := hwf q hq
    simp only [decide_eq_true_eq] at this ⊢
    omega
  · simp [allocH]
  · intro x hx
    simp only [allocH, lookupH]
    rw [if_neg (by omega)]
  · simp only [heapAbove, allocH, List.all_cons, List.all_eq_true, Bool.and_eq_true] at hreg ⊢
    exact ⟨by simp [ho], fun q hq => hreg q hq⟩

/-! Fuel-indexed `copy.deepcopy`: scalars are returned as is, dicts and
lists are rebuilt bottom-up in fresh cells. -/
mutual
def deepcopyValF : Nat → Heap → HVal → Option (Heap × HVal)
  | 0, _, _ => none
  | fuel + 1, h, v =>
      match v with
      | HVal.href a =>
          match lookupH h.cells a with
          | none => none
          | some (HObj.hdict kvs) =>
              match deepcopyPairsF fuel h kvs with
              | none => none
              | some (h2, kvs2) =>
                  some ((allocH h2 (HObj.hdict kvs2)).1, HVal.href (allocH h2 (HObj.hdict kvs2)).2)
          | some (HObj.hlist l) =>
              match deepcopyListF fuel h l with
              | none => none
              | some (h2, l2) =>
                  some ((allocH h2 (HObj.hlist l2)).1, HVal.href (allocH h2 (HObj.hlist l2)).2)
      | w => some (h, w)

def deepcopyPairsF : Nat → Heap → List (String × HVal) → Option (Heap × List (String × HVal))
  | 0, _, _ => none
  | _ + 1, h, [] => some (h, [])
  | fuel + 1, h, q :: t =>
      match deepcopyValF fuel h q.2 with
      | none => none
      | some (h2, w) =>
          match deepcopyPairsF fuel h2 t with
          | none => none
          | some (h3, t2) => some (h3, (q.1, w) :: t2)

def deepcopyListF : Nat → Heap → List HVal → Option (Heap × List HVal)
  | 0, _, _ => none
  | _ + 1, h, [] => some (h, [])
  | fuel + 1, h, x :: t =>
      match deepcopyValF fuel h x with
      | none => none
      | some (h2, w) =>
          match deepcopyListF fuel h2 t with
          | none => none
          | some (h3, t2) => some (h3, w :: t2)
end

theorem deepcopyF_frame : ∀ fuel : Nat,
    (∀ (h : Heap) (v : HVal) (h2 : Heap) (v2 : HVal) (n0 : Nat),
        deepcopyValF fuel h v = some (h2, v2) → wfHeap h = true → n0 ≤ h.next →
        heapAbove n0 h = true → frameOk n0 h h2 ∧ hvalAbove n0 v2 = true) ∧
    (∀ (h : Heap) (kvs : List (String × HVal)) (h2 : Heap)
        (kvs2 : List (String × HVal)) (n0 : Nat),
        deepcopyPairsF fuel h kvs = some (h2, kvs2) → wfHeap h = true → n0 ≤ h.next →
        heapAbove n0 h = true →
        frameOk n0 h h2 ∧ kvs2.all (fun q => hvalAbove n0 q.2) = true) ∧
    (∀ (h : Heap) (l : List HVal) (h2 : Heap) (l2 : List HVal) (n0 : Nat),
        deepcopyListF fuel h l = some (h2, l2) → wfHeap h = true → n0 ≤ h.next →
        heapAbove n0 h = true → frameOk n0 h h2 ∧ l2.all (hvalAbove n0) = true) := by
  intro fuel
  induction fuel with
  | zero =>
      refine ⟨?_, ?_, ?_⟩ <;> intro h x h2 x2 n0 hrun <;> exact Option.noConfusion hrun
  | succ f ih =>
      refine ⟨?_, ?_, ?_⟩
      · intro h v h2 v2 n0 hrun hwf hn0 hreg
        cases v with
        | href a =>
            simp only [deepcopyValF] at hrun
            rcases hl : lookupH h.cells a with _ | o <;> rw [hl] at hrun
            · exact Option.noConfusion hrun
            · cases o with
              | hdict kvs =>
                  replace hrun : (match deepcopyPairsF f h kvs with
                      | none => none
                      | some (hx, kx) =>
                          some ((allocH hx (HObj.hdict kx)).1,
                            HVal.href (allocH hx (HObj.hdict kx)).2)) = some (h2, v2) := hrun
                  rcases hrec : deepcopyPairsF f h kvs with _ | p <;> rw [hrec] at hrun
                  · exact Option.noConfusion hrun
                  · obtain ⟨hm, kvs2⟩ := p
                    have heq := Option.some_inj.mp hrun
                    rw [Prod.mk.injEq] at heq
                    obtain ⟨he1, he2⟩ := heq
                    subst he1
                    subst he2
                    obtain ⟨hfr, hall⟩ := ih.2.1 h kvs hm kvs2 n0 hrec hwf hn0 hreg
                    have halloc := frameOk_allocH hfr.1 hfr.2.2.2
                      (le_trans hn0 hfr.2.1)
                      (show hobjAbove n0 (HObj.hdict kvs2) = true from hall)
                    refine ⟨frameOk_trans hfr halloc.1, ?_⟩
                    simp only [allocH, hvalAbove, decide_eq_true_eq]
                    exact le_trans hn0 hfr.2.1
              | hlist l =>
                  replace hrun : (match deepcopyListF f h l with
                      | none => none
                      | some (hx, kx) =>
                          some ((allocH hx (HObj.hlist kx)).1,
                            HVal.href (allocH hx (HObj.hlist kx)).2)) = some (h2, v2) := hrun
                  rcases hrec : deepcopyListF f h l with _ | p <;> rw [hrec] at hrun
                  · exact Option.noConfusion hrun
                  · obtain ⟨hm, l2⟩ := p
                    have heq := Option.some_inj.mp hrun
                    rw [Prod.mk.injEq] at heq
                    obtain ⟨he1, he2⟩ := heq
                    subst he1
                    subst he2
                    obtain ⟨hfr, hall⟩ := ih.2.2 h l hm l2 n0 hrec hwf hn0 hreg
                    have halloc := frameOk_allocH hfr.1 hfr.2.2.2
                      (le_trans hn0 hfr.2.1)
                      (show hobjAbove n0 (HObj.hlist l2) = true from hall)
                    refine ⟨frameOk_trans hfr halloc.1, ?_⟩
                    simp only [allocH, hvalAbove, decide_eq_true_eq]
                    exact le_trans hn0 hfr.2.1
        | hnull =>
            have heq := Option.some_inj.mp hrun
            rw [Prod.mk.injEq] at heq
            obtain ⟨he1, he2⟩ := heq
            subst he1
            subst he2
            exact ⟨frameOk_rfl hwf hreg, rfl⟩
        | hbool b =>
            have heq := Option.some_inj.mp hrun
            rw [Prod.mk.injEq] at heq
            obtain ⟨he1, he2⟩ := heq
            subst he1
            subst he2
            exact ⟨frameOk_rfl hwf hreg, rfl⟩
        | hnum n =>
            have heq := Option.some_inj.mp hrun
            rw [Prod.mk.injEq] at heq
            obtain ⟨he1, he2⟩ := heq
            subst he1
            subst he2
            exact ⟨frameOk_rfl hwf hreg, rfl⟩
        | hstr s =>
            have heq := Option.some_inj.mp hrun
            rw [Prod.mk.injEq] at heq
            obtain ⟨he1, he2⟩ := heq
            subst he1
            subst he2
            exact ⟨frameOk_rfl hwf hreg, rfl⟩
      · intro h kvs h2 kvs2 n0 hrun hwf hn0 hreg
        cases kvs with
        | nil =>
            have heq := Option.some_inj.mp hrun
            rw [Prod.mk.injEq] at heq
            obtain ⟨he1, he2⟩ := heq
            subst he1
            subst he2
            exact ⟨frameOk_rfl hwf hreg, rfl⟩
        | cons q t =>
            simp only [deepcopyPairsF] at hrun
            rcases hv : deepcopyValF f h q.2 with _ | p <;> rw [hv] at hrun
            · exact Option.noConfusion hrun
            · obtain ⟨hA, w⟩ := p
              replace hrun : (match deepcopyPairsF f hA t with
                  | none => none
                  | some (h3, t2) => some (h3, (q.1, w) :: t2)) = some (h2, kvs2) := hrun
              rcases ht : deepcopyPairsF f hA t with _ | p2 <;> rw [ht] at hrun
              · exact Option.noConfusion hrun
              · obtain ⟨hB, t2⟩ := p2
                have heq := Option.some_inj.mp hrun
                rw [Prod.mk.injEq] at heq
                obtain ⟨he1, he2⟩ := heq
                subst he1
                subst he2
                obtain ⟨f1, hw⟩ := ih.1 h q.2 hA w n0 hv hwf hn0 hreg
                obtain ⟨f2, ht2⟩ := ih.2.1 hA t hB t2 n0 ht f1.1
                  (le_trans hn0 f1.2.1) f1.2.2.2
                exact ⟨frameOk_trans f1 f2, by simp [List.all_cons, hw, ht2]⟩
      · intro h l h2 l2 n0 hrun hwf hn0 hreg
        cases l with
        | nil =>
            have heq := Option.some_inj.mp hrun
            rw [Prod.mk.injEq] at heq
            obtain ⟨he1, he2⟩ := heq
            subst he1
            subst he2
            exact ⟨frameOk_rfl hwf hreg, rfl⟩
        | cons x t =>
            simp only [deepcopyListF] at hrun
            rcases hv : deepcopyValF f h x with _ | p <;> rw [hv] at hrun
            · exact Option.noConfusion hrun
            · obtain ⟨hA, w⟩ := p
              replace hrun : (match deepcopyListF f hA t with
                  | none => none
                  | some (h3, t2) => some (h3, w :: t2)) = some (h2, l2) := hrun
              rcases ht : deepcopyListF f hA t with _ | p2 <;> rw [ht] at hrun
              · exact Option.noConfusion hrun
              · obtain ⟨hB, t2⟩ := p2
                have heq := Option.some_inj.mp hrun
                rw [Prod.mk.injEq] at heq
                obtain ⟨he1, he2⟩ := heq
                subst he1
                subst he2
                obtain ⟨f1, hw⟩ := ih.1 h x hA w n0 hv hwf hn0 hreg
                obtain ⟨f2, ht2⟩ := ih.2.2 hA t hB t2 n0 ht f1.1
                  (le_trans hn0 f1.2.1) f1.2.2.2
                exact ⟨frameOk_trans f1 f2, by simp [List.all_cons, hw, ht2]⟩

def findKeyH : List (String × HVal) → String → Option HVal
  | [], _ => none
  | q :: t, k => if q.1 == k then some q.2 else findKeyH t k

/-- Python dict item assignment: replace the first binding in place, or
append. -/
def setKeyH : List (String × HVal) → String → HVal → List (String × HVal)
  | [], k, w => [(k, w)]
  | q :: t, k, w => if q.1 == k then (k, w) :: t else q :: setKeyH t k w

/-- Python truthiness over the heap (`none` on a dangling address, which
no run reaches). -/
def htruthy (h : Heap) : HVal → Option Bool
  | HVal.hnull => some false
  | HVal.hbool b => some b
  | HVal.hnum n => some (n != 0)
  | HVal.hstr s => some (s.toList != [])
  | HVal.href a =>
      match lookupH h.cells a with
      | none => none
      | some (HObj.hdict []) => some false
      | some (HObj.hdict (_ :: _)) => some true
      | some (HObj.hlist []) => some false
      | some (HObj.hlist (_ :: _)) => some true

/-- Python `key in v` over the heap: dict key membership, list element
equality, substring on strings, `TypeError` otherwise. -/
def pyInH (h : Heap) (key : String) : HVal → Option Bool
  | HVal.href a =>
      match lookupH h.cells a with
      | none => none
      | some (HObj.hdict kvs) => some (kvs.any (fun q => q.1 == key))
      | some (HObj.hlist l) =>
          some (l.any (fun x => match x with
            | HVal.hstr s => s == key
            | _ => false))
  | HVal.hstr s => some (isSubstr key s)
  | _ => none

/-- Python `v[key]` with a string key: only dict references succeed
(`TypeError`/`KeyError` otherwise). -/
def getItemH (h : Heap) (v : HVal) (key : String) : Option HVal :=
  match v with
  | HVal.href a =>
      match lookupH h.cells a with
      | some (HObj.hdict kvs) => findKeyH kvs key
      | _ => none
  | _ => none

/-- Python `for x in v` over the heap: lists yield elements, dicts their
keys, strings one-character strings; `TypeError` otherwise. -/
def iterH (h : Heap) : HVal → Option (List HVal)
  | HVal.href a =>
      match lookupH h.cells a with
      | none => none
      | some (HObj.hdict kvs) => some (kvs.map (fun q => HVal.hstr q.1))
      | some (HObj.hlist l) => some l
  | HVal.hstr s => some (s.toList.map (fun c => HVal.hstr (String.mk [c])))
  | _ => none

/-- `v.items()`: dict references only (`AttributeError` otherwise). -/
def itemsH (h : Heap) (v : HVal) : Option (List (String × HVal)) :=
  match v with
  | HVal.href a =>
      match lookupH h.cells a with
      | some (HObj.hdict kvs) => some kvs
      | _ => none
  | _ => none

/-- Sequential heap fold of a per-element step. -/
def hFoldO {α : Type} (f : Heap → α → Option Heap) : Heap → List α → Option Heap
  | h, [] => some h
  | h, x :: t =>
      match f h x with
      | none => none
      | some h2 => hFoldO f h2 t

/-- `if key in v and v[key]: v[key] = g(v[key])` — the guarded string
field update used for DOBs, flight dates and timestamps; `g` is the
pure date transform, whose `none` is an uncaught exception, as is a
non-string field value (`strptime` raises `TypeError`). -/
def fieldMutH (g : String → Option String) (key : String) (h : Heap) (v : HVal) :
    Option Heap :=
  match pyInH h key v with
  | none => none
  | some false => some h
  | some true =>
      match getItemH h v key with
      | none => none
      | some w =>
          match htruthy h w with
          | none => none
          | some false => some h
          | some true =>
              match w with
              | HVal.hstr s =>
                  match g s with
                  | none => none
                  | some s2 =>
                      match v with
                      | HVal.href a =>
                          match lookupH h.cells a with
                          | some (HObj.hdict kvs) =>
                              some (writeHeap h a
                                (HObj.hdict (setKeyH kvs key (HVal.hstr s2))))
                          | _ => none
                      | _ => none
              | _ => none

/-- `if ck in v: for x in v[ck]: (guarded field update on x)` — the
passenger/reservation-flight loops. -/
def eachFieldMutH (g : String → Option String) (ck fk : String) (h : Heap) (v : HVal) :
    Option Heap :=
  match pyInH h ck v with
  | none => none
  | some false => some h
  | some true =>
      match getItemH h v ck with
      | none => none
      | some cv =>
          match iterH h cv with
          | none => none
          | some elems => hFoldO (fun h2 x => fieldMutH g fk h2 x) h elems

/-- `_transform_flight_status` over the heap: deep-copy the status, then
update the four timestamp fields in the copy. -/
def statusTransformH (fuel : Nat) (days : Int) (h : Heap) (status : HVal) :
    Option (Heap × HVal) :=
  match deepcopyValF fuel h status with
  | none => none
  | some (h1, res) =>
      match hFoldO (fun h2 key => fieldMutH (fun s => offsetIsoTimestamp s days) key h2 res)
          h1 ["actual_departure_time_est", "actual_arrival_time_est",
            "estimated_departure_time_est", "estimated_arrival_time_est"] with
      | none => none
      | some h2 => some (h2, res)

/-- One entry of the flight `dates` rebuild: transform the key, transform
the status, store the pair into the fresh `new_dates` dict at `aND`. -/
def dateEntryStep (fuel : Nat) (days : Int) (aND : Nat) (h : Heap)
    (q : String × HVal) : Option Heap :=
  match offsetIsoDate q.1 days with
  | none => none
  | some k2 =>
      match statusTransformH fuel days h q.2 with
      | none => none
      | some (h2, sv) =>
          match lookupH h2.cells aND with
          | some (HObj.hdict kvs) =>
              some (writeHeap h2 aND (HObj.hdict (setKeyH kvs k2 sv)))
          | _ => none

/-- One flight of the flights loop: `new_dates = {}`, the dates loop,
then `flight["dates"] = new_dates`. -/
def flightStepH (fuel : Nat) (days : Int) (h : Heap) (flight : HVal) : Option Heap :=
  match pyInH h "dates" flight with
  | none => none
  | some false => some h
  | some true =>
      match getItemH h flight "dates" with
      | none => none
      | some dv =>
          match itemsH h dv with
          | none => none
          | some dentries =>
              match hFoldO (dateEntryStep fuel days (allocH h (HObj.hdict [])).2)
                  (allocH h (HObj.hdict [])).1 dentries with
              | none => none
              | some h3 =>
                  match flight with
                  | HVal.href a =>
                      match lookupH h3.cells a with
                      | some (HObj.hdict kvs) =>
                          some (writeHeap h3 a (HObj.hdict (setKeyH kvs "dates"
                            (HVal.href (allocH h (HObj.hdict [])).2))))
                      | _ => none
                  | _ => none

/-- One user of the users loop: the `dob` update and the passengers
loop. -/
def userStepH (days : Int) (h : Heap) (user : HVal) : Option Heap :=
  match fieldMutH (fun s => offsetIsoDate s days) "dob" h user with
  | none => none
  | some hA => eachFieldMutH (fun s => offsetIsoDate s days) "passengers" "dob" hA user

/-- One reservation of the reservations loop: `created_at`, the
reservation flights, the reservation passengers. -/
def resStepH (days : Int) (h : Heap) (r : HVal) : Option Heap :=
  match fieldMutH (fun s => offsetIsoTimestamp s days) "created_at" h r with
  | none => none
  | some hA =>
      match eachFieldMutH (fun s => offsetIsoDate s days) "flights" "date" hA r with
      | none => none
      | some hB => eachFieldMutH (fun s => offsetIsoDate s days) "passengers" "dob" hB r

/-- `if key in res: for (k, x) in res[key].items(): step` — the common
shape of the three top-level phases of `transform_db`. -/
def phaseH (key : String) (step : Heap → HVal → Option Heap) (h : Heap) (res : HVal) :
    Option Heap :=
  match pyInH h key res with
  | none => none
  | some false => some h
  | some true =>
      match getItemH h res key with
      | none => none
      | some uv =>
          match itemsH h uv with
          | none => none
          | some entries => hFoldO (fun h2 q => step h2 q.2) h entries

/-- Embedding of `transform_db` (generate_dataset.py lines 37-92) over
the heap: deep-copy the input, then mutate the copy through the users,
flights and reservations phases, returning the copy's root. -/
def transformDbH (fuel : Nat) (h : Heap) (v : HVal) (days : Int) : Option (Heap × HVal) :=
  match deepcopyValF fuel h v with
  | none => none
  | some (h1, res) =>
      match phaseH "users" (userStepH days) h1 res with
      | none => none
      | some h2 =>
          match phaseH "flights" (flightStepH fuel days) h2 res with
          | none => none
          | some h3 =>
              match phaseH "reservations" (resStepH days) h3 res with
              | none => none
              | some h4 => some (h4, res)

theorem lookupH_mem : ∀ {cells : List (Nat × HObj)} {a : Nat} {o : HObj},
    lookupH cells a = some o → (a, o) ∈ cells := by
  intro cells
  induction cells with
  | nil => intro a o h; exact Option.noConfusion h
  | cons q t ih =>
      intro a o h
      simp only [lookupH] at h
      by_cases hq : q.1 = a
      · rw [if_pos hq] at h
        obtain rfl := Option.some_inj.mp h
        have : q = (a, q.2) := by
          rw [← hq]
        rw [this] at *
        exact List.mem_cons_self _ _
      · rw [if_neg hq] at h
        exact List.mem_cons.mpr (Or.inr (ih h))

theorem heapAbove_lookup {n0 : Nat} {h : Heap} {a : Nat} {o : HObj}
    (hreg : heapAbove n0 h = true) (hL : lookupH h.cells a = some o) (ha : n0 ≤ a) :
    hobjAbove n0 o = true := by
  simp only [heapAbove, List.all_eq_true] at hreg
  have := hreg (a, o) (lookupH_mem hL)
  rcases Bool.or_eq_true_iff.mp this with h1 | h1
  · exfalso
    simp only [decide_eq_true_eq] at h1
    omega
  · exact h1

theorem findKeyH_above {n0 : Nat} : ∀ {kvs : List (String × HVal)} {k : String} {w : HVal},
    kvs.all (fun q => hvalAbove n0 q.2) = true → findKeyH kvs k = some w →
    hvalAbove n0 w = true := by
  intro kvs
  induction kvs with
  | nil => intro k w hall hf; exact Option.noConfusion hf
  | cons q t ih =>
      intro k w hall hf
      simp only [List.all_cons, Bool.and_eq_true] at hall
      simp only [findKeyH] at hf
      by_cases hq : (q.1 == k) = true
      · rw [if_pos hq] at hf
        obtain rfl := Option.some_inj.mp hf
        exact hall.1
      · rw [if_neg hq] at hf
        exact ih hall.2 hf

theorem setKeyH_above {n0 : Nat} {w : HVal} (hw : hvalAbove n0 w = true) :
    ∀ {kvs : List (String × HVal)} {k : String},
      kvs.all (fun q => hvalAbove n0 q.2) = true →
      (setKeyH kvs k w).all (fun q => hvalAbove n0 q.2) = true := by
  intro kvs
  induction kvs with
  | nil =>
      intro k hall
      simp [setKeyH, hw]
  | cons q t ih =>
      intro k hall
      simp only [List.all_cons, Bool.and_eq_true] at hall
      simp only [setKeyH]
      by_cases hq : (q.1 == k) = true
      · rw [if_pos hq]
        simp [List.all_cons, hw, hall.2]
      · rw [if_neg hq]
        simp [List.all_cons, hall.1, ih hall.2]

theorem getItemH_above {n0 : Nat} {h : Heap} {v w : HVal} {k : String}
    (hreg : heapAbove n0 h = true) (hv : hvalAbove n0 v = true)
    (hg : getItemH h v k = some w) : hvalAbove n0 w = true := by
  unfold getItemH at hg
  cases v with
  | href a =>
      replace hg : (match lookupH h.cells a with
          | some (HObj.hdict kvs) => findKeyH kvs k
          | _ => none) = some w := hg
      rcases hL : lookupH h.cells a with _ | o <;> rw [hL] at hg
      · exact Option.noConfusion hg
      · cases o with
        | hdict kvs =>
            have ha : n0 ≤ a := by simpa [hvalAbove] using hv
            have hobj := heapAbove_lookup hreg hL ha
            exact findKeyH_above hobj hg
        | hlist l => exact Option.noConfusion hg
  | hnull => exact Option.noConfusion hg
  | hbool b => exact Option.noConfusion hg
  | hnum n => exact Option.noConfusion hg
  | hstr s => exact Option.noConfusion hg

theorem iterH_above {n0 : Nat} {h : Heap} {v : HVal} {elems : List HVal}
    (hreg : heapAbove n0 h = true) (hv : hvalAbove n0 v = true)
    (hg : iterH h v = some elems) : ∀ x ∈ elems, hvalAbove n0 x = true := by
  unfold iterH at hg
  cases v with
  | href a =>
      replace hg : (match lookupH h.cells a with
          | none => none
          | some (HObj.hdict kvs) => some (kvs.map (fun q => HVal.hstr q.1))
          | some (HObj.hlist l) => some l) = some elems := hg
      rcases hL : lookupH h.cells a with _ | o <;> rw [hL] at hg
      · exact Option.noConfusion hg
      · cases o with
        | hdict kvs =>
            obtain rfl := Option.some_inj.mp hg
            intro x hx
            obtain ⟨q, -, rfl⟩ := List.mem_map.mp hx
            rfl
        | hlist l =>
            obtain rfl := Option.some_inj.mp hg
            have ha : n0 ≤ a := by simpa [hvalAbove] using hv
            have hobj := heapAbove_lookup hreg hL ha
            simp only [hobjAbove, List.all_eq_true] at hobj
            exact hobj
  | hstr s =>
      obtain rfl := Option.some_inj.mp hg
      intro x hx
      obtain ⟨c, -, rfl⟩ := List.mem_map.mp hx
      rfl
  | hnull => exact Option.noConfusion hg
  | hbool b => exact Option.noConfusion hg
  | hnum n => exact Option.noConfusion hg

theorem itemsH_above {n0 : Nat} {h : Heap} {v : HVal} {kvs : List (String × HVal)}
    (hreg : heapAbove n0 h = true) (hv : hvalAbove n0 v = true)
    (hg : itemsH h v = some kvs) : kvs.all (fun q => hvalAbove n0 q.2) = true := by
  unfold itemsH at hg
  cases v with
  | href a =>
      replace hg : (match lookupH h.cells a with
          | some (HObj.hdict kvs2) => some kvs2
          | _ => none) = some kvs := hg
      rcases hL : lookupH h.cells a with _ | o <;> rw [hL] at hg
      · exact Option.noConfusion hg
      · cases o with
        | hdict kvs2 =>
            obtain rfl := Option.some_inj.mp hg
            have ha : n0 ≤ a := by simpa [hvalAbove] using hv
            exact heapAbove_lookup hreg hL ha
        | hlist l => exact Option.noConfusion hg
  | hnull => exact Option.noConfusion hg
  | hbool b => exact Option.noConfusion hg
  | hnum n => exact Option.noConfusion hg
  | hstr s => exact Option.noConfusion hg

theorem hFoldO_frame {α : Type} {f : Heap → α → Option Heap} {n0 : Nat} {P : α → Prop}
    (hf : ∀ (h : Heap) (x : α) (h2 : Heap), P x → wfHeap h = true → n0 ≤ h.next →
      heapAbove n0 h = true → f h x = some h2 → frameOk n0 h h2) :
    ∀ (l : List α) (h h2 : Heap), (∀ x ∈ l, P x) → wfHeap h = true → n0 ≤ h.next →
      heapAbove n0 h = true → hFoldO f h l = some h2 → frameOk n0 h h2 := by
  intro l
  induction l with
  | nil =>
      intro h h2 hP hwf hn0 hreg hrun
      obtain rfl : h = h2 := by simpa [hFoldO] using hrun
      exact frameOk_rfl hwf hreg
  | cons x t ih =>
      intro h h2 hP hwf hn0 hreg hrun
      simp only [hFoldO] at hrun
      rcases hx : f h x with _ | hA <;> rw [hx] at hrun
      · exact Option.noConfusion hrun
      · have f1 := hf h x hA (hP x (List.mem_cons_self _ _)) hwf hn0 hreg hx
        exact frameOk_trans f1 (ih hA h2 (fun y hy => hP y (List.mem_cons.mpr (Or.inr hy)))
          f1.1 (le_trans hn0 f1.2.1) f1.2.2.2 hrun)

theorem hvalAbove_href {n0 a : Nat} (h : hvalAbove n0 (HVal.href a) = true) : n0 ≤ a := by
  simpa [hvalAbove] using h

theorem fieldMutH_frame {g : String → Option String} {key : String} {n0 : Nat}
    {h hh : Heap} {v : HVal} (harg : hvalAbove n0 v = true) (hwf : wfHeap h = true)
    (hn0 : n0 ≤ h.next) (hreg : heapAbove n0 h = true)
    (hrun : fieldMutH g key h v = some hh) : frameOk n0 h hh := by
  unfold fieldMutH at hrun
  split at hrun
  · exact Option.noConfusion hrun
  · obtain rfl : h = hh := Option.some_inj.mp hrun
    exact frameOk_rfl hwf hreg
  · split at hrun
    · exact Option.noConfusion hrun
    · split at hrun
      · exact Option.noConfusion hrun
      · obtain rfl : h = hh := Option.some_inj.mp hrun
        exact frameOk_rfl hwf hreg
      · split at hrun
        · split at hrun
          · exact Option.noConfusion hrun
          · split at hrun
            · split at hrun
              · rename_i hL
                obtain rfl := Option.some_inj.mp hrun
                refine frameOk_writeHeap hwf hreg (hvalAbove_href harg) ?_
                exact setKeyH_above (by rfl) (heapAbove_lookup hreg hL (hvalAbove_href harg))
              · exact Option.noConfusion hrun
            · exact Option.noConfusion hrun
        · exact Option.noConfusion hrun

theorem eachFieldMutH_frame {g : String → Option String} {ck fk : String} {n0 : Nat}
    {h hh : Heap} {v : HVal} (harg : hvalAbove n0 v = true) (hwf : wfHeap h = true)
    (hn0 : n0 ≤ h.next) (hreg : heapAbove n0 h = true)
    (hrun : eachFieldMutH g ck fk h v = some hh) : frameOk n0 h hh := by
  unfold eachFieldMutH at hrun
  split at hrun
  · exact Option.noConfusion hrun
  · obtain rfl : h = hh := Option.some_inj.mp hrun
    exact frameOk_rfl hwf hreg
  · split at hrun
    · exact Option.noConfusion hrun
    · rename_i cv hcv
      split at hrun
      · exact Option.noConfusion hrun
      · rename_i elems helems
        have hcva := getItemH_above hreg harg hcv
        exact @hFoldO_frame HVal (fun h2 x => fieldMutH g fk h2 x) n0
          (fun x => hvalAbove n0 x = true)
          (fun h2 x h3 hx hwf2 hn02 hreg2 hx2 => fieldMutH_frame hx hwf2 hn02 hreg2 hx2)
          elems h hh (iterH_above hreg hcva helems) hwf hn0 hreg hrun

theorem statusTransformH_frame {fuel : Nat} {days : Int} {n0 : Nat} {h hh : Heap}
    {status sv : HVal} (hwf : wfHeap h = true) (hn0 : n0 ≤ h.next)
    (hreg : heapAbove n0 h = true)
    (hrun : statusTransformH fuel days h status = some (hh, sv)) :
    frameOk n0 h hh ∧ hvalAbove n0 sv = true := by
  unfold statusTransformH at hrun
  split at hrun
  · exact Option.noConfusion hrun
  · rename_i h1 res hdc
    split at hrun
    · exact Option.noConfusion hrun
    · rename_i h2 hfold
      have heq := Option.some_inj.mp hrun
      rw [Prod.mk.injEq] at heq
      obtain ⟨he1, he2⟩ := heq
      obtain ⟨f1, hres⟩ := (deepcopyF_frame fuel).1 h status h1 res n0 hdc hwf hn0 hreg
      have f2 := @hFoldO_frame String
        (fun hx key => fieldMutH (fun s => offsetIsoTimestamp s days) key hx res) n0
        (fun _ => True)
        (fun hA key hB _ hwfA hn0A hregA hxA => fieldMutH_frame hres hwfA hn0A hregA hxA)
        _ h1 h2 (fun x hx => trivial) f1.1 (le_trans hn0 f1.2.1) f1.2.2.2 hfold
      rw [← he1, ← he2]
      exact ⟨frameOk_trans f1 f2, hres⟩

theorem dateEntryStep_frame {fuel : Nat} {days : Int} {aND n0 : Nat} {h hh : Heap}
    {q : String × HVal} (haND : n0 ≤ aND) (hwf : wfHeap h = true) (hn0 : n0 ≤ h.next)
    (hreg : heapAbove n0 h = true) (hrun : dateEntryStep fuel days aND h q = some hh) :
    frameOk n0 h hh := by
  unfold dateEntryStep at hrun
  split at hrun
  · exact Option.noConfusion hrun
  · split at hrun
    · exact Option.noConfusion hrun
    · rename_i h2 sv hst
      split at hrun
      · rename_i kvs hL
        obtain rfl : writeHeap h2 aND (HObj.hdict (setKeyH kvs _ sv)) = hh :=
          Option.some_inj.mp hrun
        obtain ⟨f1, hsv⟩ := statusTransformH_frame hwf hn0 hreg hst
        exact frameOk_trans f1 (frameOk_writeHeap f1.1 f1.2.2.2 haND
          (setKeyH_above hsv (heapAbove_lookup f1.2.2.2 hL haND)))
      · exact Option.noConfusion hrun

theorem flightStepH_frame {fuel : Nat} {days : Int} {n0 : Nat} {h hh : Heap}
    {flight : HVal} (harg : hvalAbove n0 flight = true) (hwf : wfHeap h = true)
    (hn0 : n0 ≤ h.next) (hreg : heapAbove n0 h = true)
    (hrun : flightStepH fuel days h flight = some hh) : frameOk n0 h hh := by
  unfold flightStepH at hrun
  split at hrun
  · exact Option.noConfusion hrun
  · obtain rfl : h = hh := Option.some_inj.mp hrun
    exact frameOk_rfl hwf hreg
  · split at hrun
    · exact Option.noConfusion hrun
    · rename_i dv hdv
      split at hrun
      · exact Option.noConfusion hrun
      · rename_i dentries hdent
        have halloc := frameOk_allocH hwf hreg hn0
          (show hobjAbove n0 (HObj.hdict []) = true from rfl)
        split at hrun
        · exact Option.noConfusion hrun
        · rename_i h3 hfold
          have f2 := @hFoldO_frame (String × HVal)
            (dateEntryStep fuel days (allocH h (HObj.hdict [])).2) n0 (fun _ => True)
            (fun hA q hB _ hwfA hn0A hregA hxA =>
              dateEntryStep_frame halloc.2.1 hwfA hn0A hregA hxA)
            dentries (allocH h (HObj.hdict [])).1 h3 (fun x hx => trivial)
            halloc.1.1 (le_trans hn0 halloc.1.2.1) halloc.1.2.2.2 hfold
          have f12 := frameOk_trans halloc.1 f2
          split at hrun
          · split at hrun
            · rename_i kvs hL
              obtain rfl := Option.some_inj.mp hrun
              refine frameOk_trans f12 (frameOk_writeHeap f12.1 f12.2.2.2
                (hvalAbove_href harg) ?_)
              refine setKeyH_above ?_ (heapAbove_lookup f12.2.2.2 hL (hvalAbove_href harg))
              simp only [hvalAbove, decide_eq_true_eq]
              exact halloc.2.1
            · exact Option.noConfusion hrun
          · exact Option.noConfusion hrun

theorem userStepH_frame {days : Int} {n0 : Nat} {h hh : Heap} {user : HVal}
    (harg : hvalAbove n0 user = true) (hwf : wfHeap h = true) (hn0 : n0 ≤ h.next)
    (hreg : heapAbove n0 h = true) (hrun : userStepH days h user = some hh) :
    frameOk n0 h hh := by
  unfold userStepH at hrun
  split at hrun
  · exact Option.noConfusion hrun
  · rename_i hA hfm
    have f1 := fieldMutH_frame harg hwf hn0 hreg hfm
    exact frameOk_trans f1
      (eachFieldMutH_frame harg f1.1 (le_trans hn0 f1.2.1) f1.2.2.2 hrun)

theorem resStepH_frame {days : Int} {n0 : Nat} {h hh : Heap} {r : HVal}
    (harg : hvalAbove n0 r = true) (hwf : wfHeap h = true) (hn0 : n0 ≤ h.next)
    (hreg : heapAbove n0 h = true) (hrun : resStepH days h r = some hh) :
    frameOk n0 h hh := by
  unfold resStepH at hrun
  split at hrun
  · exact Option.noConfusion hrun
  · rename_i hA hfm
    have f1 := fieldMutH_frame harg hwf hn0 hreg hfm
    split at hrun
    · exact Option.noConfusion hrun
    · rename_i hB hfm2
      have f2 := eachFieldMutH_frame harg f1.1 (le_trans hn0 f1.2.1) f1.2.2.2 hfm2
      have f12 := frameOk_trans f1 f2
      exact frameOk_trans f12
        (eachFieldMutH_frame harg f12.1 (le_trans hn0 f12.2.1) f12.2.2.2 hrun)

theorem phaseH_frame {key : String} {step : Heap → HVal → Option Heap} {n0 : Nat}
    (hstep : ∀ (hA : Heap) (x : HVal) (hB : Heap), hvalAbove n0 x = true →
      wfHeap hA = true → n0 ≤ hA.next → heapAbove n0 hA = true →
      step hA x = some hB → frameOk n0 hA hB)
    {h hh : Heap} {res : HVal} (harg : hvalAbove n0 res = true) (hwf : wfHeap h = true)
    (hn0 : n0 ≤ h.next) (hreg : heapAbove n0 h = true)
    (hrun : phaseH key step h res = some hh) : frameOk n0 h hh := by
  unfold phaseH at hrun
  split at hrun
  · exact Option.noConfusion hrun
  · obtain rfl : h = hh := Option.some_inj.mp hrun
    exact frameOk_rfl hwf hreg
  · split at hrun
    · exact Option.noConfusion hrun
    · rename_i uv huv
      split at hrun
      · exact Option.noConfusion hrun
      · rename_i entries hent
        have huva := getItemH_above hreg harg huv
        have hents := itemsH_above hreg huva hent
        simp only [List.all_eq_true] at hents
        exact @hFoldO_frame (String × HVal) (fun h2 q => step h2 q.2) n0
          (fun q => hvalAbove n0 q.2 = true)
          (fun hA q hB hq hwfA hn0A hregA hxA => hstep hA q.2 hB hq hwfA hn0A hregA hxA)
          entries h hh hents hwf hn0 hreg hrun

theorem wf_heapAbove_next {h : Heap} (hwf : wfHeap h = true) :
    heapAbove h.next h = true := by
  simp only [wfHeap, heapAbove, List.all_eq_true] at hwf ⊢
  intro q hq
  exact Bool.or_eq_true_iff.mpr (Or.inl (hwf q hq))

theorem transformDbH_frame {fuel : Nat} {h hh : Heap} {v res : HVal} {days : Int}
    (hwf : wfHeap h = true) (hrun : transformDbH fuel h v days = some (hh, res)) :
    frameOk h.next h hh ∧ hvalAbove h.next res = true := by
  have hreg : heapAbove h.next h = true := wf_heapAbove_next hwf
  unfold transformDbH at hrun
  split at hrun
  · exact Option.noConfusion hrun
  · rename_i h1 res1 hdc
    split at hrun
    · exact Option.noConfusion hrun
    · rename_i h2 hp1
      split at hrun
      · exact Option.noConfusion hrun
      · rename_i h3 hp2
        split at hrun
        · exact Option.noConfusion hrun
        · rename_i h4 hp3
          have heq := Option.some_inj.mp hrun
          rw [Prod.mk.injEq] at heq
          obtain ⟨he1, he2⟩ := heq
          obtain ⟨f0, hres⟩ :=
            (deepcopyF_frame fuel).1 h v h1 res1 h.next hdc hwf (le_refl _) hreg
          have f1 := phaseH_frame
            (fun hA x hB hx hwfA hn0A hregA hxA => userStepH_frame hx hwfA hn0A hregA hxA)
            hres f0.1 (le_trans (le_refl _) f0.2.1) f0.2.2.2 hp1
          have f01 := frameOk_trans f0 f1
          have f2 := phaseH_frame
            (fun hA x hB hx hwfA hn0A hregA hxA =>
              flightStepH_frame hx hwfA hn0A hregA hxA)
            hres f01.1 (le_trans (le_refl _) f01.2.1) f01.2.2.2 hp2
          have f02 := frameOk_trans f01 f2
          have f3 := phaseH_frame
            (fun hA x hB hx hwfA hn0A hregA hxA => resStepH_frame hx hwfA hn0A hregA hxA)
            hres f02.1 (le_trans (le_refl _) f02.2.1) f02.2.2.2 hp3
          rw [← he1, ← he2]
          exact ⟨frameOk_trans f02 f3, hres⟩

/-- The guarded descent `if key in v and v[key]:` returning the guarded
value: outer `none` is an exception, `some none` a failed guard. -/
def guardedGetH (h : Heap) (v : HVal) (key : String) : Option (Option HVal) :=
  match pyInH h key v with
  | none => none
  | some false => some none
  | some true =>
      match getItemH h v key with
      | none => none
      | some w =>
          match htruthy h w with
          | none => none
          | some false => some none
          | some true => some (some w)

/-- `if key in v and isinstance(v[key], str): v[key] = g(v[key])` — the
`communicate_info` value update (no truthiness test, an `isinstance`
test instead). -/
def strFieldMutH (g : String → Option String) (key : String) (h : Heap) (v : HVal) :
    Option Heap :=
  match pyInH h key v with
  | none => none
  | some false => some h
  | some true =>
      match getItemH h v key with
      | none => none
      | some w =>
          match w with
          | HVal.hstr s =>
              match g s with
              | none => none
              | some s2 =>
                  match v with
                  | HVal.href a =>
                      match lookupH h.cells a with
                      | some (HObj.hdict kvs) =>
                          some (writeHeap h a
                            (HObj.hdict (setKeyH kvs key (HVal.hstr s2))))
                      | _ => none
                  | _ => none
          | _ => some h

/-- One element of the list branch of `_transform_action_arguments`:
dict items recurse, exact ISO-date strings are replaced at their index,
everything else is skipped. -/
def taaListItemH (taa : Heap → HVal → Option Heap) (days : Int) (aL : Nat)
    (h : Heap) (q : Nat × HVal) : Option Heap :=
  match q.2 with
  | HVal.href b =>
      match lookupH h.cells b with
      | none => none
      | some (HObj.hdict _) => taa h (HVal.href b)
      | some (HObj.hlist _) => some h
  | HVal.hstr s =>
      if isoDateAnchor s then
        match offsetIsoDate s days with
        | none => none
        | some s2 =>
            match lookupH h.cells aL with
            | some (HObj.hlist l) =>
                some (writeHeap h aL (HObj.hlist (l.set q.1 (HVal.hstr s2))))
            | _ => none
      else some h
  | _ => some h

/-- One item of the `_transform_action_arguments` loop. -/
def taaItemH (taa : Heap → HVal → Option Heap) (days : Int) (aD : Nat)
    (h : Heap) (q : String × HVal) : Option Heap :=
  match q.2 with
  | HVal.hstr s =>
      if isoDateAnchor s then
        match offsetIsoDate s days with
        | none => none
        | some s2 =>
            match lookupH h.cells aD with
            | some (HObj.hdict kvs) =>
                some (writeHeap h aD (HObj.hdict (setKeyH kvs q.1 (HVal.hstr s2))))
            | _ => none
      else if isoTsAnchor s then
        match offsetIsoTimestamp s days with
        | none => none
        | some s2 =>
            match lookupH h.cells aD with
            | some (HObj.hdict kvs) =>
                some (writeHeap h aD (HObj.hdict (setKeyH kvs q.1 (HVal.hstr s2))))
            | _ => none
      else some h
  | HVal.href b =>
      match lookupH h.cells b with
      | none => none
      | some (HObj.hlist l) =>
          hFoldO (taaListItemH taa days b) h l.enum
      | some (HObj.hdict _) => taa h (HVal.href b)
  | _ => some h

/-- `_transform_action_arguments` over the heap (fuel-indexed): iterate
the argument dict, rewriting exact ISO date/timestamp strings in place
and recursing through nested dicts and list elements. -/
def taaH : Nat → Int → Heap → HVal → Option Heap
  | 0, _, _, _ => none
  | fuel + 1, days, h, v =>
      match v with
      | HVal.href a =>
          match lookupH h.cells a with
          | some (HObj.hdict kvs) =>
              hFoldO (taaItemH (taaH fuel days) days a) h kvs
          | _ => none
      | _ => none

/-- One action of the actions loop of `transform_tasks`. -/
def actionStepH (fuel : Nat) (days : Int) (h : Heap) (action : HVal) : Option Heap :=
  match guardedGetH h action "arguments" with
  | none => none
  | some none => some h
  | some (some args) => taaH fuel days h args

/-- One `communicate_info` entry. -/
def commStepH (days : Int) (h : Heap) (comm : HVal) : Option Heap :=
  strFieldMutH (fun s => offsetAllDatesInText s days 2024) "value" h comm

/-- The `nl_assertions` rebuild: map the text transform over the list
(a `TypeError` on non-string elements), allocate the new list, assign it
to the criteria dict. -/
def nlAssertionsH (days : Int) (h : Heap) (criteria : HVal) : Option Heap :=
  match guardedGetH h criteria "nl_assertions" with
  | none => none
  | some none => some h
  | some (some nv) =>
      match iterH h nv with
      | none => none
      | some elems =>
          match mapMO (fun x =>
              match x with
              | HVal.hstr s => (offsetAllDatesInText s days 2024).map HVal.hstr
              | _ => none) elems with
          | none => none
          | some results =>
              match criteria with
              | HVal.href a =>
                  match lookupH (allocH h (HObj.hlist results)).1.cells a with
                  | some (HObj.hdict kvs) =>
                      some (writeHeap (allocH h (HObj.hlist results)).1 a
                        (HObj.hdict (setKeyH kvs "nl_assertions"
                          (HVal.href (allocH h (HObj.hlist results)).2))))
                  | _ => none
              | _ => none

/-- The `evaluation_criteria` part of one task. -/
def criteriaStepH (fuel : Nat) (days : Int) (h : Heap) (criteria : HVal) : Option Heap :=
  match guardedGetH h criteria "actions" with
  | none => none
  | some none => some h
  | some (some av) =>
      match iterH h av with
      | none => none
      | some actions =>
          match hFoldO (actionStepH fuel days) h actions with
          | none => none
          | some hA =>
              match nlAssertionsH days hA criteria with
              | none => none
              | some hB =>
                  match guardedGetH hB criteria "communicate_info" with
                  | none => none
                  | some none => some hB
                  | some (some cv) =>
                      match iterH hB cv with
                      | none => none
                      | some comms => hFoldO (commStepH days) hB comms

/-- The `user_scenario.instructions` part of one task. -/
def scenarioStepH (days : Int) (h : Heap) (task : HVal) : Option Heap :=
  match guardedGetH h task "user_scenario" with
  | none => none
  | some none => some h
  | some (some scenario) =>
      match guardedGetH h scenario "instructions" with
      | none => none
      | some none => some h
      | some (some instructions) =>
          hFoldO (fun h2 key =>
              fieldMutH (fun s => offsetAllDatesInText s days 2024) key h2 instructions)
            h ["task_instructions", "reason_for_call", "known_info", "unknown_info"]

/-- The `description` part of one task. -/
def descStepH (days : Int) (h : Heap) (task : HVal) : Option Heap :=
  match guardedGetH h task "description" with
  | none => none
  | some none => some h
  | some (some desc) =>
      match fieldMutH (fun s => offsetAllDatesInText s days 2024) "purpose" h desc with
      | none => none
      | some hA => fieldMutH (fun s => offsetAllDatesInText s days 2024) "notes" hA desc

/-- One task of the `transform_tasks` loop. -/
def taskStepH (fuel : Nat) (days : Int) (h : Heap) (task : HVal) : Option Heap :=
  match scenarioStepH days h task with
  | none => none
  | some hA =>
      match guardedGetH hA task "evaluation_criteria" with
      | none => none
      | some none => descStepH days hA task
      | some (some criteria) =>
          match criteriaStepH fuel days hA criteria with
          | none => none
          | some hB => descStepH days hB task

/-- Embedding of `transform_tasks` (generate_dataset.py lines 114-178)
over the heap: deep-copy the input, mutate the copy task by task, return
the copy's root. -/
def transformTasksH (fuel : Nat) (h : Heap) (v : HVal) (days : Int) :
    Option (Heap × HVal) :=
  match deepcopyValF fuel h v with
  | none => none
  | some (h1, res) =>
      match iterH h1 res with
      | none => none
      | some tasks =>
          match hFoldO (taskStepH fuel days) h1 tasks with
          | none => none
          | some h2 => some (h2, res)

theorem guardedGetH_above {n0 : Nat} {h : Heap} {v w : HVal} {key : String}
    (hreg : heapAbove n0 h = true) (hv : hvalAbove n0 v = true)
    (hg : guardedGetH h v key = some (some w)) : hvalAbove n0 w = true := by
  unfold guardedGetH at hg
  split at hg
  · exact Option.noConfusion hg
  · exact Option.noConfusion (Option.some_inj.mp hg)
  · split at hg
    · exact Option.noConfusion hg
    · rename_i w2 hw2
      split at hg
      · exact Option.noConfusion hg
      · exact Option.noConfusion (Option.some_inj.mp hg)
      · obtain rfl := Option.some_inj.mp (Option.some_inj.mp hg)
        exact getItemH_above hreg hv hw2

theorem strFieldMutH_frame {g : String → Option String} {key : String} {n0 : Nat}
    {h hh : Heap} {v : HVal} (harg : hvalAbove n0 v = true) (hwf : wfHeap h = true)
    (hn0 : n0 ≤ h.next) (hreg : heapAbove n0 h = true)
    (hrun : strFieldMutH g key h v = some hh) : frameOk n0 h hh := by
  unfold strFieldMutH at hrun
  split at hrun
  · exact Option.noConfusion hrun
  · obtain rfl : h = hh := Option.some_inj.mp hrun
    exact frameOk_rfl hwf hreg
  · split at hrun
    · exact Option.noConfusion hrun
    · split at hrun
      · split at hrun
        · exact Option.noConfusion hrun
        · split at hrun
          · split at hrun
            · rename_i hL
              obtain rfl := Option.some_inj.mp hrun
              refine frameOk_writeHeap hwf hreg (hvalAbove_href harg) ?_
              exact setKeyH_above (by rfl)
                (heapAbove_lookup hreg hL (hvalAbove_href harg))
            · exact Option.noConfusion hrun
          · exact Option.noConfusion hrun
      · obtain rfl : h = hh := Option.some_inj.mp hrun
        exact frameOk_rfl hwf hreg

theorem listSet_above {n0 : Nat} {w : HVal} (hw : hvalAbove n0 w = true) :
    ∀ {l : List HVal} {i : Nat}, l.all (hvalAbove n0) = true →
      (l.set i w).all (hvalAbove n0) = true := by
  intro l
  induction l with
  | nil => intro i hall; simpa using hall
  | cons x t ih =>
      intro i hall
      simp only [List.all_cons, Bool.and_eq_true] at hall
      cases i with
      | zero => simp [List.set, hw, hall.2]
      | succ j => simp [List.set, hall.1, ih hall.2]

theorem enum_snd_above {n0 : Nat} {l : List HVal} (hall : l.all (hvalAbove n0) = true) :
    ∀ q ∈ l.enum, hvalAbove n0 q.2 = true := by
  intro q hq
  simp only [List.all_eq_true] at hall
  apply hall
  have : q.2 ∈ l.enum.map Prod.snd := List.mem_map_of_mem Prod.snd hq
  rwa [List.enum_map_snd] at this

theorem taaListItemH_frame {taa : Heap → HVal → Option Heap} {days : Int} {aL n0 : Nat}
    (htaa : ∀ (hA : Heap) (x : HVal) (hB : Heap), hvalAbove n0 x = true →
      wfHeap hA = true → n0 ≤ hA.next → heapAbove n0 hA = true →
      taa hA x = some hB → frameOk n0 hA hB)
    {h hh : Heap} {q : Nat × HVal} (hq : hvalAbove n0 q.2 = true) (haL : n0 ≤ aL)
    (hwf : wfHeap h = true) (hn0 : n0 ≤ h.next) (hreg : heapAbove n0 h = true)
    (hrun : taaListItemH taa days aL h q = some hh) : frameOk n0 h hh := by
  unfold taaListItemH at hrun
  split at hrun
  · rename_i b hb
    split at hrun
    · exact Option.noConfusion hrun
    · exact htaa h _ hh (by rw [← hb]; exact hq) hwf hn0 hreg hrun
    · obtain rfl : h = hh := Option.some_inj.mp hrun
      exact frameOk_rfl hwf hreg
  · rename_i s hs
    split at hrun
    · split at hrun
      · exact Option.noConfusion hrun
      · split at hrun
        · rename_i l hL
          obtain rfl := Option.some_inj.mp hrun
          refine frameOk_writeHeap hwf hreg haL ?_
          exact listSet_above (by rfl) (heapAbove_lookup hreg hL haL)
        · exact Option.noConfusion hrun
    · obtain rfl : h = hh := Option.some_inj.mp hrun
      exact frameOk_rfl hwf hreg
  · obtain rfl : h = hh := Option.some_inj.mp hrun
    exact frameOk_rfl hwf hreg

theorem taaItemH_frame {taa : Heap → HVal → Option Heap} {days : Int} {aD n0 : Nat}
    (htaa : ∀ (hA : Heap) (x : HVal) (hB : Heap), hvalAbove n0 x = true →
      wfHeap hA = true → n0 ≤ hA.next → heapAbove n0 hA = true →
      taa hA x = some hB → frameOk n0 hA hB)
    {h hh : Heap} {q : String × HVal} (hq : hvalAbove n0 q.2 = true) (haD : n0 ≤ aD)
    (hwf : wfHeap h = true) (hn0 : n0 ≤ h.next) (hreg : heapAbove n0 h = true)
    (hrun : taaItemH taa days aD h q = some hh) : frameOk n0 h hh := by
  unfold taaItemH at hrun
  split at hrun
  · rename_i s hs
    split at hrun
    · split at hrun
      · exact Option.noConfusion hrun
      · split at hrun
        · rename_i kvs hL
          obtain rfl := Option.some_inj.mp hrun
          refine frameOk_writeHeap hwf hreg haD ?_
          exact setKeyH_above (by rfl) (heapAbove_lookup hreg hL haD)
        · exact Option.noConfusion hrun
    · split at hrun
      · split at hrun
        · exact Option.noConfusion hrun
        · split at hrun
          · rename_i kvs hL
            obtain rfl := Option.some_inj.mp hrun
            refine frameOk_writeHeap hwf hreg haD ?_
            exact setKeyH_above (by rfl) (heapAbove_lookup hreg hL haD)
          · exact Option.noConfusion hrun
      · obtain rfl : h = hh := Option.some_inj.mp hrun
        exact frameOk_rfl hwf hreg
  · rename_i b hb
    have hbn0 : n0 ≤ b := hvalAbove_href (hb ▸ hq)
    split at hrun
    · exact Option.noConfusion hrun
    · rename_i l hL
      have hlall : l.all (hvalAbove n0) = true := heapAbove_lookup hreg hL hbn0
      exact @hFoldO_frame (Nat × HVal) (taaListItemH taa days b) n0
        (fun p => hvalAbove n0 p.2 = true)
        (fun hA p hB hp hwfA hn0A hregA hxA =>
          taaListItemH_frame htaa hp hbn0 hwfA hn0A hregA hxA)
        l.enum h hh (enum_snd_above hlall) hwf hn0 hreg hrun
    · exact htaa h _ hh (hb ▸ hq) hwf hn0 hreg hrun
  · obtain rfl : h = hh := Option.some_inj.mp hrun
    exact frameOk_rfl hwf hreg

theorem taaH_frame {days : Int} {n0 : Nat} : ∀ (fuel : Nat) {h hh : Heap} {v : HVal},
    hvalAbove n0 v = true → wfHeap h = true → n0 ≤ h.next → heapAbove n0 h = true →
    taaH fuel days h v = some hh → frameOk n0 h hh := by
  intro fuel
  induction fuel with
  | zero => intro h hh v harg hwf hn0 hreg hrun; exact Option.noConfusion hrun
  | succ f ih =>
      intro h hh v harg hwf hn0 hreg hrun
      unfold taaH at hrun
      split at hrun
      · rename_i a
        split at hrun
        · rename_i kvs hL
          have han0 : n0 ≤ a := hvalAbove_href harg
          have hkall := heapAbove_lookup hreg hL han0
          exact @hFoldO_frame (String × HVal) (taaItemH (taaH f days) days a) n0
            (fun p => hvalAbove n0 p.2 = true)
            (fun hA p hB hp hwfA hn0A hregA hxA =>
              taaItemH_frame (fun hC x hD hx hwfC hn0C hregC hxC =>
                ih hx hwfC hn0C hregC hxC) hp han0 hwfA hn0A hregA hxA)
            kvs h hh (fun p hp => by
              simp only [hobjAbove, List.all_eq_true] at hkall
              exact hkall p hp) hwf hn0 hreg hrun
        · exact Option.noConfusion hrun
      · exact Option.noConfusion hrun

theorem nlResults_above {n0 : Nat} {days : Int} : ∀ {elems results : List HVal},
    mapMO (fun x => match x with
      | HVal.hstr s => (offsetAllDatesInText s days 2024).map HVal.hstr
      | _ => none) elems = some results → results.all (hvalAbove n0) = true := by
  intro elems
  induction elems with
  | nil =>
      intro results h
      obtain rfl : [] = results := Option.some_inj.mp h
      rfl
  | cons x t ih =>
      intro results h
      simp only [mapMO] at h
      split at h
      · exact Option.noConfusion h
      · rename_i b hb
        rcases hm : mapMO (fun x => match x with
            | HVal.hstr s => (offsetAllDatesInText s days 2024).map HVal.hstr
            | _ => none) t with _ | t2 <;> rw [hm] at h
        · exact Option.noConfusion h
        · replace h : some (b :: t2) = some results := h
          obtain rfl := Option.some_inj.mp h
          have hball : hvalAbove n0 b = true := by
            cases x with
            | hstr s =>
                replace hb : (offsetAllDatesInText s days 2024).map HVal.hstr = some b := hb
                rcases ho : offsetAllDatesInText s days 2024 with _ | s2 <;> rw [ho] at hb
                · exact Option.noConfusion hb
                · obtain rfl := Option.some_inj.mp hb
                  rfl
            | hnull => exact Option.noConfusion hb
            | hbool v => exact Option.noConfusion hb
            | hnum v => exact Option.noConfusion hb
            | href a => exact Option.noConfusion hb
          simp [List.all_cons, hball, ih hm]

theorem nlAssertionsH_frame {days : Int} {n0 : Nat} {h hh : Heap} {criteria : HVal}
    (harg : hvalAbove n0 criteria = true) (hwf : wfHeap h = true) (hn0 : n0 ≤ h.next)
    (hreg : heapAbove n0 h = true) (hrun : nlAssertionsH days h criteria = some hh) :
    frameOk n0 h hh := by
  unfold nlAssertionsH at hrun
  split at hrun
  · exact Option.noConfusion hrun
  · obtain rfl : h = hh := Option.some_inj.mp hrun
    exact frameOk_rfl hwf hreg
  · rename_i nv hnv
    split at hrun
    · exact Option.noConfusion hrun
    · rename_i elems helems
      split at hrun
      · exact Option.noConfusion hrun
      · rename_i results hres
        split at hrun
        · rename_i a
          split at hrun
          · rename_i kvs hL
            obtain rfl := Option.some_inj.mp hrun
            have hresall : results.all (hvalAbove n0) = true := nlResults_above hres
            have halloc := frameOk_allocH hwf hreg hn0
              (show hobjAbove n0 (HObj.hlist results) = true from hresall)
            have han0 : n0 ≤ a := hvalAbove_href harg
            refine frameOk_trans halloc.1 (frameOk_writeHeap halloc.1.1
              halloc.1.2.2.2 han0 ?_)
            refine setKeyH_above ?_ (heapAbove_lookup halloc.1.2.2.2 hL han0)
            simp only [hvalAbove, decide_eq_true_eq]
            exact halloc.2.1
          · exact Option.noConfusion hrun
        · exact Option.noConfusion hrun

theorem actionStepH_frame {fuel : Nat} {days : Int} {n0 : Nat} {h hh : Heap}
    {action : HVal} (harg : hvalAbove n0 action = true) (hwf : wfHeap h = true)
    (hn0 : n0 ≤ h.next) (hreg : heapAbove n0 h = true)
    (hrun : actionStepH fuel days h action = some hh) : frameOk n0 h hh := by
  unfold actionStepH at hrun
  split at hrun
  · exact Option.noConfusion hrun
  · obtain rfl : h = hh := Option.some_inj.mp hrun
    exact frameOk_rfl hwf hreg
  · rename_i args hargs
    exact taaH_frame fuel (guardedGetH_above hreg harg hargs) hwf hn0 hreg hrun

theorem commStepH_frame {days : Int} {n0 : Nat} {h hh : Heap} {comm : HVal}
    (harg : hvalAbove n0 comm = true) (hwf : wfHeap h = true) (hn0 : n0 ≤ h.next)
    (hreg : heapAbove n0 h = true) (hrun : commStepH days h comm = some hh) :
    frameOk n0 h hh :=
  strFieldMutH_frame harg hwf hn0 hreg hrun

theorem criteriaStepH_frame {fuel : Nat} {days : Int} {n0 : Nat} {h hh : Heap}
    {criteria : HVal} (harg : hvalAbove n0 criteria = true) (hwf : wfHeap h = true)
    (hn0 : n0 ≤ h.next) (hreg : heapAbove n0 h = true)
    (hrun : criteriaStepH fuel days h criteria = some hh) : frameOk n0 h hh := by
  unfold criteriaStepH at hrun
  split at hrun
  · exact Option.noConfusion hrun
  · obtain rfl : h = hh := Option.some_inj.mp hrun
    exact frameOk_rfl hwf hreg
  · rename_i av hav
    split at hrun
    · exact Option.noConfusion hrun
    · rename_i actions hacts
      split at hrun
      · exact Option.noConfusion hrun
      · rename_i hA hfoldA
        have hava := guardedGetH_above hreg harg hav
        have f1 := @hFoldO_frame HVal (actionStepH fuel days) n0
          (fun x => hvalAbove n0 x = true)
          (fun hX x hY hx hwfX hn0X hregX hxX =>
            actionStepH_frame hx hwfX hn0X hregX hxX)
          actions h hA (iterH_above hreg hava hacts) hwf hn0 hreg hfoldA
        split at hrun
        · exact Option.noConfusion hrun
        · rename_i hB hnl
          have f2 := nlAssertionsH_frame harg f1.1 (le_trans hn0 f1.2.1) f1.2.2.2 hnl
          have f12 := frameOk_trans f1 f2
          split at hrun
          · exact Option.noConfusion hrun
          · obtain rfl : hB = hh := Option.some_inj.mp hrun
            exact f12
          · rename_i cv hcv
            split at hrun
            · exact Option.noConfusion hrun
            · rename_i comms hcomms
              have hcva := guardedGetH_above f12.2.2.2 harg hcv
              have f3 := @hFoldO_frame HVal (commStepH days) n0
                (fun x => hvalAbove n0 x = true)
                (fun hX x hY hx hwfX hn0X hregX hxX =>
                  commStepH_frame hx hwfX hn0X hregX hxX)
                comms hB hh (iterH_above f12.2.2.2 hcva hcomms) f12.1
                (le_trans hn0 f12.2.1) f12.2.2.2 hrun
              exact frameOk_trans f12 f3

theorem scenarioStepH_frame {days : Int} {n0 : Nat} {h hh : Heap} {task : HVal}
    (harg : hvalAbove n0 task = true) (hwf : wfHeap h = true) (hn0 : n0 ≤ h.next)
    (hreg : heapAbove n0 h = true) (hrun : scenarioStepH days h task = some hh) :
    frameOk n0 h hh := by
  unfold scenarioStepH at hrun
  split at hrun
  · exact Option.noConfusion hrun
  · obtain rfl : h = hh := Option.some_inj.mp hrun
    exact frameOk_rfl hwf hreg
  · rename_i scenario hsc
    split at hrun
    · exact Option.noConfusion hrun
    · obtain rfl : h = hh := Option.some_inj.mp hrun
      exact frameOk_rfl hwf hreg
    · rename_i instructions hins
      have hinsa := guardedGetH_above hreg (guardedGetH_above hreg harg hsc) hins
      exact @hFoldO_frame String
        (fun h2 key => fieldMutH (fun s => offsetAllDatesInText s days 2024) key h2
          instructions) n0 (fun _ => True)
        (fun hX key hY _ hwfX hn0X hregX hxX =>
          fieldMutH_frame hinsa hwfX hn0X hregX hxX)
        _ h hh (fun x hx => trivial) hwf hn0 hreg hrun

theorem descStepH_frame {days : Int} {n0 : Nat} {h hh : Heap} {task : HVal}
    (harg : hvalAbove n0 task = true) (hwf : wfHeap h = true) (hn0 : n0 ≤ h.next)
    (hreg : heapAbove n0 h = true) (hrun : descStepH days h task = some hh) :
    frameOk n0 h hh := by
  unfold descStepH at hrun
  split at hrun
  · exact Option.noConfusion hrun
  · obtain rfl : h = hh := Option.some_inj.mp hrun
    exact frameOk_rfl hwf hreg
  · rename_i desc hdesc
    have hdesca := guardedGetH_above hreg harg hdesc
    split at hrun
    · exact Option.noConfusion hrun
    · rename_i hA hp
      have f1 := fieldMutH_frame hdesca hwf hn0 hreg hp
      exact frameOk_trans f1
        (fieldMutH_frame hdesca f1.1 (le_trans hn0 f1.2.1) f1.2.2.2 hrun)

theorem taskStepH_frame {fuel : Nat} {days : Int} {n0 : Nat} {h hh : Heap} {task : HVal}
    (harg : hvalAbove n0 task = true) (hwf : wfHeap h = true) (hn0 : n0 ≤ h.next)
    (hreg : heapAbove n0 h = true) (hrun : taskStepH fuel days h task = some hh) :
    frameOk n0 h hh := by
  unfold taskStepH at hrun
  split at hrun
  · exact Option.noConfusion hrun
  · rename_i hA hsc
    have f1 := scenarioStepH_frame harg hwf hn0 hreg hsc
    split at hrun
    · exact Option.noConfusion hrun
    · exact frameOk_trans f1
        (descStepH_frame harg f1.1 (le_trans hn0 f1.2.1) f1.2.2.2 hrun)
    · rename_i criteria hcrit
      have hcrita := guardedGetH_above f1.2.2.2 harg hcrit
      split at hrun
      · exact Option.noConfusion hrun
      · rename_i hB hcs
        have f2 := criteriaStepH_frame hcrita f1.1 (le_trans hn0 f1.2.1) f1.2.2.2 hcs
        have f12 := frameOk_trans f1 f2
        exact frameOk_trans f12
          (descStepH_frame harg f12.1 (le_trans hn0 f12.2.1) f12.2.2.2 hrun)

theorem transformTasksH_frame {fuel : Nat} {h hh : Heap} {v res : HVal} {days : Int}
    (hwf : wfHeap h = true) (hrun : transformTasksH fuel h v days = some (hh, res)) :
    frameOk h.next h hh ∧ hvalAbove h.next res = true := by
  have hreg : heapAbove h.next h = true := wf_heapAbove_next hwf
  unfold transformTasksH at hrun
  split at hrun
  · exact Option.noConfusion hrun
  · rename_i h1 res1 hdc
    split at hrun
    · exact Option.noConfusion hrun
    · rename_i tasks htasks
      split at hrun
      · exact Option.noConfusion hrun
      · rename_i h2 hfold
        have heq := Option.some_inj.mp hrun
        rw [Prod.mk.injEq] at heq
        obtain ⟨he1, he2⟩ := heq
        obtain ⟨f0, hres⟩ :=
          (deepcopyF_frame fuel).1 h v h1 res1 h.next hdc hwf (le_refl _) hreg
        have f1 := @hFoldO_frame HVal (taskStepH fuel days) h.next
          (fun x => hvalAbove h.next x = true)
          (fun hX x hY hx hwfX hn0X hregX hxX =>
            taskStepH_frame hx hwfX hn0X hregX hxX)
          tasks h1 h2 (iterH_above f0.2.2.2 hres htasks) f0.1 f0.2.1 f0.2.2.2 hfold
        rw [← he1, ← he2]
        exact ⟨frameOk_trans f0 f1, hres⟩

/-- C8: the Structured Transformer never mutates its inputs.  Over the
heap embedding, a successful `transform_db` or `transform_tasks` run
leaves every pre-existing cell — in particular every cell of the input
`WorldDataset` or task collection — exactly as it was, and returns a root
whose whole reachable region lies in freshly allocated cells (the deep
copy), disjoint from the input's cells. -/
theorem C8_no_input_mutation :
    (∀ (fuel : Nat) (h hh : Heap) (v res : HVal) (days : Int) (a : Nat),
        wfHeap h = true → transformDbH fuel h v days = some (hh, res) → a < h.next →
        lookupH hh.cells a = lookupH h.cells a ∧ heapAbove h.next hh = true ∧
          hvalAbove h.next res = true) ∧
    (∀ (fuel : Nat) (h hh : Heap) (v res : HVal) (days : Int) (a : Nat),
        wfHeap h = true → transformTasksH fuel h v days = some (hh, res) → a < h.next →
        lookupH hh.cells a = lookupH h.cells a ∧ heapAbove h.next hh = true ∧
          hvalAbove h.next res = true) := by
  constructor
  · intro fuel h hh v res days a hwf hrun ha
    obtain ⟨f, hres⟩ := transformDbH_frame hwf hrun
    exact ⟨f.2.2.1 a ha, f.2.2.2, hres⟩
  · intro fuel h hh v res days a hwf hrun ha
    obtain ⟨f, hres⟩ := transformTasksH_frame hwf hrun
    exact ⟨f.2.2.1 a ha, f.2.2.2, hres⟩

/-- C8 witness: a one-user dataset and a one-task collection, offset by
one day: the run succeeds (the copied DOB becomes `2024-05-16`), and the
input cells are untouched. -/
theorem C8_no_input_mutation_witness :
    (lookupH (⟨[(5, HObj.hdict [("users", HVal.href 4)]),
        (4, HObj.hdict [("u1", HVal.href 3)]),
        (3, HObj.hdict [("dob", HVal.hstr "2024-05-16")]),
        (0, HObj.hdict [("dob", HVal.hstr "2024-05-15")]),
        (1, HObj.hdict [("u1", HVal.href 0)]),
        (2, HObj.hdict [("users", HVal.href 1)])], 6⟩ : Heap).cells 0 =
      lookupH (⟨[(0, HObj.hdict [("dob", HVal.hstr "2024-05-15")]),
        (1, HObj.hdict [("u1", HVal.href 0)]),
        (2, HObj.hdict [("users", HVal.href 1)])], 3⟩ : Heap).cells 0 ∧
      heapAbove 3 (⟨[(5, HObj.hdict [("users", HVal.href 4)]),
        (4, HObj.hdict [("u1", HVal.href 3)]),
        (3, HObj.hdict [("dob", HVal.hstr "2024-05-16")]),
        (0, HObj.hdict [("dob", HVal.hstr "2024-05-15")]),
        (1, HObj.hdict [("u1", HVal.href 0)]),
        (2, HObj.hdict [("users", HVal.href 1)])], 6⟩ : Heap) = true ∧
      hvalAbove 3 (HVal.href 5) = true) ∧
    (lookupH (⟨[(7, HObj.hlist [HVal.href 6]),
        (6, HObj.hdict [("user_scenario", HVal.href 5)]),
        (5, HObj.hdict [("instructions", HVal.href 4)]),
        (4, HObj.hdict [("reason_for_call", HVal.hstr "ok")]),
        (0, HObj.hdict [("reason_for_call", HVal.hstr "ok")]),
        (1, HObj.hdict [("instructions", HVal.href 0)]),
        (2, HObj.hdict [("user_scenario", HVal.href 1)]),
        (3, HObj.hlist [HVal.href 2])], 8⟩ : Heap).cells 0 =
      lookupH (⟨[(0, HObj.hdict [("reason_for_call", HVal.hstr "ok")]),
        (1, HObj.hdict [("instructions", HVal.href 0)]),
        (2, HObj.hdict [("user_scenario", HVal.href 1)]),
        (3, HObj.hlist [HVal.href 2])], 4⟩ : Heap).cells 0 ∧
      heapAbove 4 (⟨[(7, HObj.hlist [HVal.href 6]),
        (6, HObj.hdict [("user_scenario", HVal.href 5)]),
        (5, HObj.hdict [("instructions", HVal.href 4)]),
        (4, HObj.hdict [("reason_for_call", HVal.hstr "ok")]),
        (0, HObj.hdict [("reason_for_call", HVal.hstr "ok")]),
        (1, HObj.hdict [("instructions", HVal.href 0)]),
        (2, HObj.hdict [("user_scenario", HVal.href 1)]),
        (3, HObj.hlist [HVal.href 2])], 8⟩ : Heap) = true ∧
      hvalAbove 4 (HVal.href 7) = true) := by
  constructor
  · exact C8_no_input_mutation.1 10
      ⟨[(0, HObj.hdict [("dob", HVal.hstr "2024-05-15")]),
        (1, HObj.hdict [("u1", HVal.href 0)]),
        (2, HObj.hdict [("users", HVal.href 1)])], 3⟩
      ⟨[(5, HObj.hdict [("users", HVal.href 4)]),
        (4, HObj.hdict [("u1", HVal.href 3)]),
        (3, HObj.hdict [("dob", HVal.hstr "2024-05-16")]),
        (0, HObj.hdict [("dob", HVal.hstr "2024-05-15")]),
        (1, HObj.hdict [("u1", HVal.href 0)]),
        (2, HObj.hdict [("users", HVal.href 1)])], 6⟩
      (HVal.href 2) (HVal.href 5) 1 0 (by decide) (by rfl) (by decide)
  · exact C8_no_input_mutation.2 10
      ⟨[(0, HObj.hdict [("reason_for_call", HVal.hstr "ok")]),
        (1, HObj.hdict [("instructions", HVal.href 0)]),
        (2, HObj.hdict [("user_scenario", HVal.href 1)]),
        (3, HObj.hlist [HVal.href 2])], 4⟩
      ⟨[(7, HObj.hlist [HVal.href 6]),
        (6, HObj.hdict [("user_scenario", HVal.href 5)]),
        (5, HObj.hdict [("instructions", HVal.href 4)]),
        (4, HObj.hdict [("reason_for_call", HVal.hstr "ok")]),
        (0, HObj.hdict [("reason_for_call", HVal.hstr "ok")]),
        (1, HObj.hdict [("instructions", HVal.href 0)]),
        (2, HObj.hdict [("user_scenario", HVal.href 1)]),
        (3, HObj.hlist [HVal.href 2])], 8⟩
      (HVal.href 3) (HVal.href 7) 1 0 (by decide) (by rfl) (by decide)
